import Mathlib

/-!
# HID report descriptor parsing (`dlls/hidclass.sys/descriptor.c`)

A shallow embedding of the descriptor parser and of the pass that compiles the
parsed features into the preparsed report layout.

Conventions of the embedding

* C integers are `Nat` (unsigned) or `Int` (signed); a store into a narrower
  field is written with an explicit `% 2 ^ w`.
* Pointer-linked lists (`struct list`) are `List`s in insertion order
  (`list_add_tail` appends).
* The pointer arguments of `parse_descriptor` (`feature_index`,
  `collection_index`, `caps`, `features`, `stack` and the nodes reachable from
  `collection`) are threaded through an explicit `parse_state`.
* The output buffer is represented by the records written into it, in the
  order of writing, each with the byte displacement at which it is written.
-/

namespace HidDescriptor

/-! ## Constants -/

/-- Capacity of the discrete usage list (`#define USAGE_MAX 10`). -/
def USAGE_MAX : Nat := 10

/-- Item types `TAG_TYPE_MAIN` .. `TAG_TYPE_RESERVED`, followed by the tags of
each type. -/
def TAG_TYPE_MAIN : Nat := 0
def TAG_TYPE_GLOBAL : Nat := 1
def TAG_TYPE_LOCAL : Nat := 2
def TAG_TYPE_RESERVED : Nat := 3

def TAG_MAIN_INPUT : Nat := 0x08
def TAG_MAIN_OUTPUT : Nat := 0x09
def TAG_MAIN_FEATURE : Nat := 0x0B
def TAG_MAIN_COLLECTION : Nat := 0x0A
def TAG_MAIN_END_COLLECTION : Nat := 0x0C

def TAG_GLOBAL_USAGE_PAGE : Nat := 0
def TAG_GLOBAL_LOGICAL_MINIMUM : Nat := 1
def TAG_GLOBAL_LOGICAL_MAXIMUM : Nat := 2
def TAG_GLOBAL_PHYSICAL_MINIMUM : Nat := 3
def TAG_GLOBAL_PHYSICAL_MAXIMUM : Nat := 4
def TAG_GLOBAL_UNIT_EXPONENT : Nat := 5
def TAG_GLOBAL_UNIT : Nat := 6
def TAG_GLOBAL_REPORT_SIZE : Nat := 7
def TAG_GLOBAL_REPORT_ID : Nat := 8
def TAG_GLOBAL_REPORT_COUNT : Nat := 9
def TAG_GLOBAL_PUSH : Nat := 10
def TAG_GLOBAL_POP : Nat := 11

def TAG_LOCAL_USAGE : Nat := 0
def TAG_LOCAL_USAGE_MINIMUM : Nat := 1
def TAG_LOCAL_USAGE_MAXIMUM : Nat := 2
def TAG_LOCAL_DESIGNATOR_INDEX : Nat := 3
def TAG_LOCAL_DESIGNATOR_MINIMUM : Nat := 4
def TAG_LOCAL_DESIGNATOR_MAXIMUM : Nat := 5
def TAG_LOCAL_STRING_INDEX : Nat := 6
def TAG_LOCAL_STRING_MINIMUM : Nat := 7
def TAG_LOCAL_STRING_MAXIMUM : Nat := 8
def TAG_LOCAL_DELIMITER : Nat := 9

/-- The usage page reserved for buttons (`HID_USAGE_PAGE_BUTTON`, from the
system header `hidusage.h`). -/
def HID_USAGE_PAGE_BUTTON : Nat := 0x09

/-- Magic tag `HID_MAGIC` of the header, declared in `hid.h`; only its being a
constant matters. -/
def HID_MAGIC : Nat := 0x8491759

/-! ## Machine integers -/

/-- Wrap an integer to an unsigned 32-bit value (`DWORD`, `UINT`, `ULONG`). -/
def u32 (x : Int) : Nat := (x % 4294967296).toNat

/-- Wrap a natural number to an unsigned 32-bit value. -/
def wrap32 (n : Nat) : Nat := n % 4294967296

/-- Wrap an integer to a signed 32-bit value (`int`, `LONG`). -/
def i32 (x : Int) : Int := (x + 2147483648) % 4294967296 - 2147483648

/-! ## Data model -/

/-- Slots of the anonymous union of `struct caps`, counted in `USHORT`s.  The
union overlays `Range` (six `USHORT`s) with `NotRange` (`Usage[10]`,
`Reserved1`, `StringIndex`, `Reserved2`, `DesignatorIndex`, `Reserved3`). -/
def slot_UsageMin : Nat := 0
def slot_UsageMax : Nat := 1
def slot_StringMin : Nat := 2
def slot_StringMax : Nat := 3
def slot_DesignatorMin : Nat := 4
def slot_DesignatorMax : Nat := 5
def slot_StringIndex : Nat := 11
def slot_DesignatorIndex : Nat := 13

/-- Structure `struct caps`.  The union is the list `u` of its fifteen `USHORT` slots. -/
structure caps where
  UsagePage : Nat
  LogicalMin : Int
  LogicalMax : Int
  PhysicalMin : Int
  PhysicalMax : Int
  UnitsExp : Nat
  Units : Nat
  BitSize : Nat
  ReportID : Nat
  ReportCount : Nat
  IsRange : Bool
  IsStringRange : Bool
  IsDesignatorRange : Bool
  usage_count : Nat
  u : List Nat
  Delim : Int
  deriving DecidableEq, Repr

/-- The result of `memset(&caps, 0, sizeof(caps))`. -/
def caps.zero : caps :=
  { UsagePage := 0, LogicalMin := 0, LogicalMax := 0, PhysicalMin := 0,
    PhysicalMax := 0, UnitsExp := 0, Units := 0, BitSize := 0, ReportID := 0,
    ReportCount := 0, IsRange := false, IsStringRange := false,
    IsDesignatorRange := false, usage_count := 0, u := List.replicate 15 0,
    Delim := 0 }

/-- Read a `USHORT` slot of the union. -/
def caps.slot (c : caps) (k : Nat) : Nat := c.u.getD k 0

/-- Store into a `USHORT` slot of the union. -/
def caps.set_slot (c : caps) (k : Nat) (v : Int) : caps :=
  { c with u := c.u.set k (v % 65536).toNat }

/-- Report direction `HIDP_REPORT_TYPE`. -/
inductive HIDP_REPORT_TYPE where
  | HidP_Input
  | HidP_Output
  | HidP_Feature
  deriving DecidableEq, Repr

/-- A non-owning pointer to a collection node: `NULL`, the root node allocated
by `ParseDescriptor`, or the sub-collection created with the given ordinal. -/
inductive colref where
  | null
  | base
  | sub (index : Nat)
  deriving DecidableEq, Repr

/-- Structure `struct feature` (the two list links are the positions in the lists). -/
structure feature where
  caps : caps
  type : HIDP_REPORT_TYPE
  isData : Bool
  isArray : Bool
  IsAbsolute : Bool
  Wrap : Bool
  Linear : Bool
  prefState : Bool
  HasNull : Bool
  Volatile : Bool
  BitField : Bool
  index : Nat
  collection : colref
  deriving DecidableEq, Repr

/-- A feature as `HeapAlloc(.., HEAP_ZERO_MEMORY, ..)` returns it, with the
`type` that is stored right after the allocation. -/
def feature.alloc (t : HIDP_REPORT_TYPE) : feature :=
  { caps := caps.zero, type := t, isData := false, isArray := false,
    IsAbsolute := false, Wrap := false, Linear := false, prefState := false,
    HasNull := false, Volatile := false, BitField := false, index := 0,
    collection := colref.null }

/-- Structure `struct collection`.  The lists `features` and `collections` of a node are
recovered from the back references (`feature.collection`, `parent`). -/
structure collection where
  caps : caps
  index : Nat
  type : Nat
  parent : colref
  deriving DecidableEq, Repr

/-- State reachable through the pointer arguments of `parse_descriptor`. -/
structure parse_state where
  feature_index : Nat
  collection_index : Nat
  caps : caps
  features : List feature
  stack : List HidDescriptor.caps
  base : collection
  collections : List collection
  deriving DecidableEq, Repr

/-! ## Item decoding -/

/-- Test `x & m != 0` for a single-bit mask `m` (two's complement). -/
def bit_set (x m : Int) : Bool := (x / m) % 2 != 0

/-- Loop of `getValue`: `n` rounds of widening `mask`, `negative` and
`outofrange` by one byte. -/
def getValue_widen : Nat → Int × Int × Int → Int × Int × Int
  | 0, t => t
  | n + 1, (mask, negative, outofrange) =>
      getValue_widen n (mask * 256 + 0xff, negative * 256, outofrange * 256)

/-- Function `getValue`.  `mask` is `256 ^ k - 1`, so the two's-complement
`source & mask` is the remainder of `source` modulo `mask + 1`; `negative` is
a single bit of the non-negative `value`. -/
def getValue (bsize : Nat) (source : Int) (allow_negative : Bool) : Int :=
  if bsize = 4 then source
  else
    let t := getValue_widen (bsize - 1) (0xff, 0x80, 0x100)
    let mask := t.1
    let negative := t.2.1
    let outofrange := t.2.2
    let value := source % (mask + 1)
    if allow_negative && bit_set value negative then
      i32 (-1 * (outofrange - value))
    else value

/-- The payload loop of `parse_descriptor`: adds `descriptor[i + j] << (8 * j)`
for those `j < bSize` with `i + j < length`. -/
def read_item (descriptor : List Nat) (i length bSize : Nat) : Int :=
  i32 (((List.range bSize).map fun j =>
    if i + j < length then ((descriptor.getD (i + j) 0 % 256 * 256 ^ j : Nat) : Int)
    else 0).sum)

/-- Function `parse_io_feature`: returns the updated `*feature_index` and the
updated feature. -/
def parse_io_feature (bSize : Nat) (itemVal : Int) (bTag : Nat) (feature_index : Nat)
    (f : feature) : Nat × feature :=
  if bSize ≤ 0 then (feature_index, f)
  else
    let f := { f with
      isData := !bit_set itemVal 0x01
      isArray := !bit_set itemVal 0x02
      IsAbsolute := !bit_set itemVal 0x04
      Wrap := bit_set itemVal 0x08
      Linear := !bit_set itemVal 0x10
      prefState := !bit_set itemVal 0x20
      HasNull := bit_set itemVal 0x40 }
    let f := if bTag ≠ TAG_MAIN_INPUT then { f with Volatile := bit_set itemVal 0x80 } else f
    let f := if bSize > 1 then { f with BitField := !bit_set itemVal 0x100 } else f
    (feature_index + 1, { f with index := feature_index })

/-- Function `parse_collection`: stores the collection type when the item has a
payload. -/
def parse_collection (bSize : Nat) (itemVal : Int) (c : collection) : collection :=
  if bSize ≤ 0 then c else { c with type := u32 itemVal }

/-- Function `new_caps`. -/
def new_caps (c : caps) : caps :=
  { c with IsRange := false, IsStringRange := false, IsDesignatorRange := false,
           usage_count := 0 }

/-- The three cases `TAG_MAIN_INPUT`, `TAG_MAIN_OUTPUT`, `TAG_MAIN_FEATURE` of
`parse_descriptor`, which differ in the stored `type` only. -/
def main_io_item (t : HIDP_REPORT_TYPE) (bSize : Nat) (itemVal : Int) (bTag : Nat)
    (cur : colref) (st : parse_state) : parse_state :=
  let r := parse_io_feature bSize itemVal bTag st.feature_index (feature.alloc t)
  let f := { r.2 with caps := st.caps, collection := cur }
  { st with feature_index := r.1, features := st.features ++ [f], caps := new_caps st.caps }

/-- Store `*caps` into the node a collection pointer refers to. -/
def set_collection_caps (st : parse_state) (cur : colref) (c : caps) : parse_state :=
  match cur with
  | colref.null => st
  | colref.base => { st with base := { st.base with caps := c } }
  | colref.sub k =>
    match st.collections[k]? with
    | some n => { st with collections := st.collections.set k { n with caps := c } }
    | none => st

/-- The case `TAG_MAIN_COLLECTION` of `parse_descriptor` up to the recursive
call: the state in which the nested parse starts.  The new node is the
sub-collection of ordinal `*collection_index`. -/
def main_collection_item (bSize : Nat) (itemVal : Int) (cur : colref)
    (st : parse_state) : parse_state :=
  let st1 := if st.collection_index = 0 then set_collection_caps st cur st.caps else st
  let sub : collection :=
    parse_collection bSize itemVal
      { caps := st.caps, index := st.collection_index, type := 0, parent := cur }
  { st1 with collections := st1.collections ++ [sub],
             collection_index := st.collection_index + 1,
             caps := new_caps st.caps }

/-- The `TAG_TYPE_GLOBAL` switch of `parse_descriptor`, acting on `*caps` and
on the stack (whose top is the tail of the list). -/
def global_item (bSize : Nat) (itemVal : Int) (bTag : Nat) (c : caps) (stack : List caps) :
    caps × List caps :=
  if bTag = TAG_GLOBAL_USAGE_PAGE then
    ({ c with UsagePage := (getValue bSize itemVal false % 65536).toNat }, stack)
  else if bTag = TAG_GLOBAL_LOGICAL_MINIMUM then
    ({ c with LogicalMin := getValue bSize itemVal true }, stack)
  else if bTag = TAG_GLOBAL_LOGICAL_MAXIMUM then
    ({ c with LogicalMax := getValue bSize itemVal true }, stack)
  else if bTag = TAG_GLOBAL_PHYSICAL_MINIMUM then
    ({ c with PhysicalMin := getValue bSize itemVal true }, stack)
  else if bTag = TAG_GLOBAL_PHYSICAL_MAXIMUM then
    ({ c with PhysicalMax := getValue bSize itemVal true }, stack)
  else if bTag = TAG_GLOBAL_UNIT_EXPONENT then
    ({ c with UnitsExp := u32 (getValue bSize itemVal true) }, stack)
  else if bTag = TAG_GLOBAL_UNIT then
    ({ c with Units := u32 (getValue bSize itemVal true) }, stack)
  else if bTag = TAG_GLOBAL_REPORT_SIZE then
    ({ c with BitSize := (getValue bSize itemVal false % 65536).toNat }, stack)
  else if bTag = TAG_GLOBAL_REPORT_ID then
    ({ c with ReportID := (getValue bSize itemVal false % 256).toNat }, stack)
  else if bTag = TAG_GLOBAL_REPORT_COUNT then
    ({ c with ReportCount := (getValue bSize itemVal false % 65536).toNat }, stack)
  else if bTag = TAG_GLOBAL_PUSH then
    (c, stack ++ [c])
  else if bTag = TAG_GLOBAL_POP then
    match stack.getLast? with
    | some saved => (saved, stack.dropLast)
    | none => (c, stack)
  else (c, stack)

/-- The `TAG_TYPE_LOCAL` switch of `parse_descriptor`. -/
def local_item (bSize : Nat) (itemVal : Int) (bTag : Nat) (c : caps) : caps :=
  let v := getValue bSize itemVal false
  if bTag = TAG_LOCAL_USAGE then
    if c.usage_count ≥ USAGE_MAX then c
    else { c.set_slot c.usage_count v with usage_count := c.usage_count + 1, IsRange := false }
  else if bTag = TAG_LOCAL_USAGE_MINIMUM then
    { c.set_slot slot_UsageMin v with usage_count := 1, IsRange := true }
  else if bTag = TAG_LOCAL_USAGE_MAXIMUM then
    { c.set_slot slot_UsageMax v with usage_count := 1, IsRange := true }
  else if bTag = TAG_LOCAL_DESIGNATOR_INDEX then
    { c.set_slot slot_DesignatorIndex v with IsDesignatorRange := false }
  else if bTag = TAG_LOCAL_DESIGNATOR_MINIMUM then
    { c.set_slot slot_DesignatorMin v with IsDesignatorRange := true }
  else if bTag = TAG_LOCAL_DESIGNATOR_MAXIMUM then
    { c.set_slot slot_DesignatorMax v with IsDesignatorRange := true }
  else if bTag = TAG_LOCAL_STRING_INDEX then
    { c.set_slot slot_StringIndex v with IsStringRange := false }
  else if bTag = TAG_LOCAL_STRING_MINIMUM then
    { c.set_slot slot_StringMin v with IsStringRange := true }
  else if bTag = TAG_LOCAL_STRING_MAXIMUM then
    { c.set_slot slot_StringMax v with IsStringRange := true }
  else if bTag = TAG_LOCAL_DELIMITER then
    { c with Delim := v }
  else c

/-- Effect on the state of an item that falls through to `i += bSize`: every
item but Collection, End Collection and a long item. -/
def item_effect (bType bTag bSize : Nat) (itemVal : Int) (cur : colref)
    (st : parse_state) : parse_state :=
  if bType = TAG_TYPE_MAIN then
    if bTag = TAG_MAIN_INPUT then
      main_io_item HIDP_REPORT_TYPE.HidP_Input bSize itemVal bTag cur st
    else if bTag = TAG_MAIN_OUTPUT then
      main_io_item HIDP_REPORT_TYPE.HidP_Output bSize itemVal bTag cur st
    else if bTag = TAG_MAIN_FEATURE then
      main_io_item HIDP_REPORT_TYPE.HidP_Feature bSize itemVal bTag cur st
    else st
  else if bType = TAG_TYPE_GLOBAL then
    let r := global_item bSize itemVal bTag st.caps st.stack
    { st with caps := r.1, stack := r.2 }
  else if bType = TAG_TYPE_LOCAL then { st with caps := local_item bSize itemVal bTag st.caps }
  else st

/-- Function `parse_descriptor`.  The first argument bounds the number of loop
iterations along any path; each iteration advances the cursor, so
`length - index` iterations are enough.  The result is the returned cursor and
the state left behind the pointer arguments. -/
def parse_descriptor : Nat → List Nat → Nat → Nat → colref → parse_state → Nat × parse_state
  | 0, _, index, _, _, st => (index, st)
  | fuel + 1, descriptor, index, length, cur, st =>
    if index < length then
      let b0 := descriptor.getD index 0 % 256
      let i := index + 1
      let bType := (b0 / 4) % 4
      let bTag := (b0 / 16) % 16
      let bSize := if b0 % 4 = 3 then 4 else b0 % 4
      if bType = TAG_TYPE_RESERVED ∧ bTag = 0x0F ∧ bSize = 2 ∧ i + 2 < length then
        parse_descriptor fuel descriptor i length cur st
      else
        let itemVal := read_item descriptor i length bSize
        if bType = TAG_TYPE_MAIN ∧ bTag = TAG_MAIN_COLLECTION then
          let r := parse_descriptor fuel descriptor (i + 1) length
            (colref.sub st.collection_index) (main_collection_item bSize itemVal cur st)
          parse_descriptor fuel descriptor r.1 length cur r.2
        else if bType = TAG_TYPE_MAIN ∧ bTag = TAG_MAIN_END_COLLECTION then (i, st)
        else
          parse_descriptor fuel descriptor (i + bSize) length cur
            (item_effect bType bTag bSize itemVal cur st)
    else (index, st)

/-- The state `ParseDescriptor` sets up before calling `parse_descriptor`: the
root collection has index 1, everything else is zeroed or empty. -/
def parse_state.init : parse_state :=
  { feature_index := 0, collection_index := 0, caps := caps.zero, features := [],
    stack := [],
    base := { caps := caps.zero, index := 1, type := 0, parent := colref.null },
    collections := [] }

/-- The call `parse_descriptor(descriptor, 0, length, ..)` made by
`ParseDescriptor`, on a buffer of exactly `length` bytes. -/
def parse_all (descriptor : List Nat) : parse_state :=
  (parse_descriptor descriptor.length descriptor 0 descriptor.length colref.base
    parse_state.init).2

/-! ## Preparsed data -/

/-- Sizes of the structures declared in `hid.h`, a header that is not among the
sources at hand: `sizeof(WINE_HIDP_PREPARSED_DATA)`, `sizeof(WINE_HID_REPORT)`
and `sizeof(WINE_HID_ELEMENT)`.  The header structure ends with one embedded
report record and a report record ends with one embedded element. -/
structure Sizes where
  preparsed : Nat
  report : Nat
  element : Nat
  deriving DecidableEq, Repr

/-- Element discriminant `WINE_ELEMENT_TYPE`. -/
inductive WINE_ELEMENT_TYPE where
  | UnknownElement
  | ButtonElement
  | ValueElement
  deriving DecidableEq, Repr

/-- Structure `WINE_HID_ELEMENT`, with the fields of the `button` and `value`
members of its union side by side; a field the code does not write keeps the
zero of the zero-initialised buffer.  In the inner union `Usage`,
`StringIndex` and `DesignatorIndex` of `NotRange` share their storage with
`UsageMin`, `StringMin` and `DesignatorMin` of `Range`. -/
structure WINE_HID_ELEMENT where
  ElementType : WINE_ELEMENT_TYPE
  valueStartBit : Nat
  bitCount : Nat
  UsagePage : Nat
  ReportID : Nat
  BitField : Bool
  IsRange : Bool
  IsStringRange : Bool
  IsDesignatorRange : Bool
  IsAbsolute : Bool
  HasNull : Bool
  BitSize : Nat
  ReportCount : Nat
  UnitsExp : Nat
  Units : Nat
  LogicalMin : Int
  LogicalMax : Int
  PhysicalMin : Int
  PhysicalMax : Int
  UsageMin : Nat
  UsageMax : Nat
  StringMin : Nat
  StringMax : Nat
  DesignatorMin : Nat
  DesignatorMax : Nat
  deriving DecidableEq, Repr

/-- An element slot of the zero-initialised buffer. -/
def WINE_HID_ELEMENT.zero : WINE_HID_ELEMENT :=
  { ElementType := WINE_ELEMENT_TYPE.UnknownElement, valueStartBit := 0, bitCount := 0,
    UsagePage := 0, ReportID := 0, BitField := false, IsRange := false,
    IsStringRange := false, IsDesignatorRange := false, IsAbsolute := false,
    HasNull := false, BitSize := 0, ReportCount := 0, UnitsExp := 0, Units := 0,
    LogicalMin := 0, LogicalMax := 0, PhysicalMin := 0, PhysicalMax := 0,
    UsageMin := 0, UsageMax := 0, StringMin := 0, StringMax := 0,
    DesignatorMin := 0, DesignatorMax := 0 }

/-- Structure `WINE_HID_REPORT` as written into the buffer: `offset` is the
byte displacement of the record from `data->InputReports`, `Elements` the
element slots written behind its fixed part. -/
structure WINE_HID_REPORT where
  offset : Nat
  reportID : Nat
  dwSize : Nat
  elementCount : Nat
  Elements : List WINE_HID_ELEMENT
  deriving DecidableEq, Repr

/-- The record at `data->InputReports` before anything is written. -/
def WINE_HID_REPORT.zero : WINE_HID_REPORT :=
  { offset := 0, reportID := 0, dwSize := 0, elementCount := 0, Elements := [] }

/-- Structure `WINE_HIDP_PREPARSED_DATA` (with the fields of its `caps` member
that the code writes), followed by the report records written by the Input,
Output and Feature blocks of `build_PreparseData`. -/
structure WINE_HIDP_PREPARSED_DATA where
  magic : Nat
  dwSize : Nat
  Usage : Nat
  UsagePage : Nat
  InputReportByteLength : Nat
  OutputReportByteLength : Nat
  FeatureReportByteLength : Nat
  NumberInputButtonCaps : Nat
  NumberInputValueCaps : Nat
  NumberOutputButtonCaps : Nat
  NumberOutputValueCaps : Nat
  NumberFeatureButtonCaps : Nat
  NumberFeatureValueCaps : Nat
  dwInputReportCount : Nat
  dwOutputReportCount : Nat
  dwFeatureReportCount : Nat
  dwOutputReportOffset : Nat
  dwFeatureReportOffset : Nat
  input_records : List WINE_HID_REPORT
  output_records : List WINE_HID_REPORT
  feature_records : List WINE_HID_REPORT
  deriving DecidableEq, Repr

/-- Function `new_report`, writing at displacement `offset`. -/
def new_report (S : Sizes) (offset : Nat) (f : feature) : WINE_HID_REPORT :=
  { offset := offset, reportID := f.caps.ReportID, dwSize := S.report - S.element,
    elementCount := 0, Elements := [] }

/-- Body of the loop of `build_elements` for the usage of position `i`: the
element written and the advanced `*bitOffset`. -/
def build_element (f : feature) (i : Nat) (bitOffset : Nat) : WINE_HID_ELEMENT × Nat :=
  let e := { WINE_HID_ELEMENT.zero with valueStartBit := bitOffset }
  if f.caps.UsagePage = HID_USAGE_PAGE_BUTTON then
    let e := { e with
      ElementType := WINE_ELEMENT_TYPE.ButtonElement
      UsagePage := f.caps.UsagePage
      ReportID := f.caps.ReportID
      BitField := f.BitField
      IsRange := f.caps.IsRange
      IsStringRange := f.caps.IsStringRange
      IsDesignatorRange := f.caps.IsDesignatorRange
      IsAbsolute := f.IsAbsolute }
    if e.IsRange then
      let bitCount := u32 (((f.caps.slot slot_UsageMax : Int) - f.caps.slot slot_UsageMin) + 1)
      ({ e with
          bitCount := bitCount
          UsageMin := f.caps.slot slot_UsageMin
          UsageMax := f.caps.slot slot_UsageMax
          StringMin := f.caps.slot slot_StringMin
          StringMax := f.caps.slot slot_StringMax
          DesignatorMin := f.caps.slot slot_DesignatorMin
          DesignatorMax := f.caps.slot slot_DesignatorMax },
        wrap32 (bitOffset + bitCount))
    else
      ({ e with
          bitCount := 1
          UsageMin := f.caps.slot i
          StringMin := f.caps.slot slot_StringIndex
          DesignatorMin := f.caps.slot slot_DesignatorIndex },
        wrap32 (bitOffset + 1))
  else
    let ReportCount :=
      if f.caps.usage_count > 1 then
        if f.caps.ReportCount > f.caps.usage_count then
          f.caps.ReportCount / f.caps.usage_count
        else 1
      else f.caps.ReportCount
    let bitCount := wrap32 (f.caps.BitSize * ReportCount)
    let e := { e with
      ElementType := WINE_ELEMENT_TYPE.ValueElement
      UsagePage := f.caps.UsagePage
      ReportID := f.caps.ReportID
      BitField := f.BitField
      IsRange := f.caps.IsRange
      IsStringRange := f.caps.IsStringRange
      IsDesignatorRange := f.caps.IsDesignatorRange
      IsAbsolute := f.IsAbsolute
      HasNull := f.HasNull
      BitSize := f.caps.BitSize
      ReportCount := ReportCount
      bitCount := bitCount
      UnitsExp := f.caps.UnitsExp
      Units := f.caps.Units
      LogicalMin := f.caps.LogicalMin
      LogicalMax := f.caps.LogicalMax
      PhysicalMin := f.caps.PhysicalMin
      PhysicalMax := f.caps.PhysicalMax }
    if e.IsRange then
      ({ e with
          UsageMin := f.caps.slot slot_UsageMin
          UsageMax := f.caps.slot slot_UsageMax
          StringMin := f.caps.slot slot_StringMin
          StringMax := f.caps.slot slot_StringMax
          DesignatorMin := f.caps.slot slot_DesignatorMin
          DesignatorMax := f.caps.slot slot_DesignatorMax },
        wrap32 (bitOffset + bitCount))
    else
      ({ e with
          UsageMin := f.caps.slot i
          StringMin := f.caps.slot slot_StringIndex
          DesignatorMin := f.caps.slot slot_DesignatorIndex },
        wrap32 (bitOffset + bitCount))

/-- The loop `for (i = 0; i < usage_count; i++)` of `build_elements`, run over
the list of the values of `i`. -/
def build_elements_loop (f : feature) :
    List Nat → WINE_HID_REPORT × Nat → WINE_HID_REPORT × Nat
  | [], r => r
  | i :: is, (wine_report, bitOffset) =>
    let r := build_element f i bitOffset
    build_elements_loop f is
      ({ wine_report with
          Elements := wine_report.Elements ++ [r.1]
          elementCount := wine_report.elementCount + 1 }, r.2)

/-- Function `build_elements`: the updated report record and `*bitOffset`. -/
def build_elements (wine_report : WINE_HID_REPORT) (f : feature) (bitOffset : Nat) :
    WINE_HID_REPORT × Nat :=
  if !f.isData then
    (wine_report, wrap32 (bitOffset + f.caps.BitSize * f.caps.ReportCount))
  else
    build_elements_loop f (List.range f.caps.usage_count) (wine_report, bitOffset)

/-- Function `count_elements`: the updated `USHORT` counters `*buttons` and
`*values`. -/
def count_elements (f : feature) (buttons values : Nat) : Nat × Nat :=
  if f.caps.UsagePage = HID_USAGE_PAGE_BUTTON then
    if f.caps.IsRange then ((buttons + 1) % 65536, values)
    else ((buttons + f.caps.usage_count) % 65536, values)
  else
    if f.caps.IsRange then (buttons, (values + 1) % 65536)
    else (buttons, (values + f.caps.usage_count) % 65536)

/-- Local variables of one of the Input, Output and Feature blocks of
`build_PreparseData` while its loop runs: the records left behind, the record
`wine_report` points at, `bitOffset`, `bitLength`, the report counter of the
block and its two element counters. -/
structure block_state where
  done : List WINE_HID_REPORT
  wine_report : WINE_HID_REPORT
  bitOffset : Nat
  bitLength : Nat
  report_count : Nat
  buttons : Nat
  values : Nat
  deriving DecidableEq, Repr

/-- The statement `wine_report->dwSize += sizeof(WINE_HID_ELEMENT) *
wine_report->elementCount`. -/
def close_report (S : Sizes) (r : WINE_HID_REPORT) : WINE_HID_REPORT :=
  { r with dwSize := wrap32 (r.dwSize + S.element * r.elementCount) }

/-- Body of the loop over the features of a block. -/
def block_step (S : Sizes) (s : block_state) (f : feature) : block_state :=
  let s :=
    if f.caps.ReportID ≠ s.wine_report.reportID then
      let closed := close_report S s.wine_report
      { s with
        done := s.done ++ [closed]
        wine_report := new_report S (closed.offset + closed.dwSize) f
        report_count := wrap32 (s.report_count + 1)
        bitLength := max s.bitOffset s.bitLength
        bitOffset := 8 }
    else s
  let r := build_elements s.wine_report f s.bitOffset
  let c := count_elements f s.buttons s.values
  { s with wine_report := r.1, bitOffset := r.2, buttons := c.1, values := c.2 }

/-- What a block of `build_PreparseData` leaves behind: the records it wrote,
the record `wine_report` points at afterwards, the displacement at which the
block started, and the header fields of its direction. -/
structure block_result where
  records : List WINE_HID_REPORT
  wine_report : WINE_HID_REPORT
  start : Nat
  report_count : Nat
  buttons : Nat
  values : Nat
  ByteLength : Nat
  deriving DecidableEq, Repr

/-- One of the blocks `if (i_count)`, `if (o_count)`, `if (f_count)` of
`build_PreparseData`, entered with `wine_report` pointing at `prev`.  The
Input block starts at `prev` itself (`advance = false`), the other two behind
it.  The Input and Output blocks end with the statement of `close_report`
(`close_last = true`); the Feature block has no such statement. -/
def build_block (S : Sizes) (advance close_last : Bool) (fs : List feature)
    (prev : WINE_HID_REPORT) : block_result :=
  match fs with
  | [] =>
    { records := [], wine_report := prev, start := 0, report_count := 0,
      buttons := 0, values := 0, ByteLength := 0 }
  | f0 :: _ =>
    let start := if advance then prev.offset + prev.dwSize else prev.offset
    let s0 : block_state :=
      { done := [], wine_report := new_report S start f0, bitOffset := 8, bitLength := 0,
        report_count := 1, buttons := 0, values := 0 }
    let s := fs.foldl (block_step S) s0
    let last := if close_last then close_report S s.wine_report else s.wine_report
    let bitLength := max s.bitOffset s.bitLength
    { records := s.done ++ [last], wine_report := last, start := wrap32 start,
      report_count := s.report_count, buttons := s.buttons, values := s.values,
      ByteLength := wrap32 (bitLength + 7) / 8 * 8 / 8 % 65536 }

/-- The loop `for (j = 0; !found && j < n; j++)` over `report_ids`. -/
def search_report_ids (report_ids : List Nat) (n id : Nat) : Bool :=
  (List.range n).any fun j => report_ids.getD j 0 == id

/-- The loop `for (i = 1; i < n; i++)` that counts the report identifiers of
one direction; the state is `report_ids` and `report_count`.  A store behind
the end of `report_ids` is outside the array and leaves the list as it is. -/
def count_report_ids_loop (n : Nat) (rest : List feature) (st : List Nat × Nat) :
    List Nat × Nat :=
  rest.foldl (fun st f =>
    if search_report_ids st.1 n f.caps.ReportID then st
    else (st.1.set st.2 f.caps.ReportID, st.2 + 1)) st

/-- One of the blocks `if (i_count)`, `if (o_count)`, `if (f_count)` of the
counting of reports; the Output and Feature blocks first increment
`report_count` (`bump = true`). -/
def count_report_ids (bump : Bool) (fs : List feature) (st : List Nat × Nat) :
    List Nat × Nat :=
  match fs with
  | [] => st
  | f0 :: rest =>
    count_report_ids_loop fs.length rest
      (st.1.set 0 f0.caps.ReportID, if bump then st.2 + 1 else st.2)

/-- Report identifier of `features[0]`. -/
def first_ReportID (fs : List feature) : Nat :=
  match fs with
  | [] => 0
  | f :: _ => f.caps.ReportID

/-- The variable `report_count` of `build_PreparseData` when the size is
computed.  `junk j` is the content of the uninitialised `report_ids[j]` that
`HeapAlloc` returns. -/
def count_reports (junk : Nat → Nat) (features input_features output_features
    feature_features : List feature) : Nat :=
  if first_ReportID features ≠ 0 then
    let cnt := max (max input_features.length output_features.length) feature_features.length
    let st : List Nat × Nat := ((List.range cnt).map junk, 1)
    let st := count_report_ids false input_features st
    let st := count_report_ids true output_features st
    let st := count_report_ids true feature_features st
    st.2
  else
    (1 + if output_features.length ≠ 0 then 1 else 0)
      + if feature_features.length ≠ 0 then 1 else 0

/-- The variable `element_count` of `build_PreparseData`. -/
def count_usages (features : List feature) : Nat :=
  wrap32 (features.map fun f => f.caps.usage_count).sum

/-- Function `build_PreparseData`.  The arrays come with their lengths. -/
def build_PreparseData (S : Sizes) (junk : Nat → Nat)
    (features input_features output_features feature_features : List feature)
    (base_collection : collection) : WINE_HIDP_PREPARSED_DATA :=
  let report_count := count_reports junk features input_features output_features
    feature_features
  let element_count := count_usages features
  let size := wrap32 (S.preparsed + element_count * S.element + report_count * S.report)
  let bi := build_block S false true input_features WINE_HID_REPORT.zero
  let bo := build_block S true true output_features bi.wine_report
  let bf := build_block S true false feature_features bo.wine_report
  { magic := HID_MAGIC
    dwSize := size
    Usage := base_collection.caps.slot 0
    UsagePage := base_collection.caps.UsagePage
    InputReportByteLength := bi.ByteLength
    OutputReportByteLength := bo.ByteLength
    FeatureReportByteLength := bf.ByteLength
    NumberInputButtonCaps := bi.buttons
    NumberInputValueCaps := bi.values
    NumberOutputButtonCaps := bo.buttons
    NumberOutputValueCaps := bo.values
    NumberFeatureButtonCaps := bf.buttons
    NumberFeatureValueCaps := bf.values
    dwInputReportCount := bi.report_count
    dwOutputReportCount := bo.report_count
    dwFeatureReportCount := bf.report_count
    dwOutputReportOffset := bo.start
    dwFeatureReportOffset := bf.start
    input_records := bi.records
    output_records := bo.records
    feature_records := bf.records }

/-- Function `compare_reports`.  Ordinals are bounded by the buffer length, so
their difference is the integer difference. -/
def compare_reports (f1 f2 : feature) : Int :=
  let c : Int := (f1.caps.ReportID : Int) - f2.caps.ReportID
  if c ≠ 0 then c else (f1.index : Int) - f2.index

/-- The call of the C library's `qsort` with `compare_reports`: a sort by that
comparison.  Among elements that compare equal the library leaves the order
open; here they keep their order. -/
def qsort (fs : List feature) : List feature :=
  fs.insertionSort fun a b => compare_reports a b ≤ 0

/-- The array `sorted_features` when it is handed to the partition loop.  It
has `feature_count` entries, so only the first `feature_count` features of the
list are in it. -/
def sorted_features (st : parse_state) : List feature :=
  let fs := st.features.take st.feature_index
  if first_ReportID fs ≠ 0 then qsort fs else fs

/-- The three arrays filled by the partition loop of `ParseDescriptor`. -/
def features_of_type (t : HIDP_REPORT_TYPE) (fs : List feature) : List feature :=
  fs.filter fun f => f.type = t

/-- Function `ParseDescriptor`, on a buffer of exactly `length` bytes; `none`
is the `NULL` result. -/
def ParseDescriptor (S : Sizes) (junk : Nat → Nat) (descriptor : List Nat) :
    Option WINE_HIDP_PREPARSED_DATA :=
  let st := parse_all descriptor
  if st.feature_index ≠ 0 then
    let sorted := sorted_features st
    some (build_PreparseData S junk sorted
      (features_of_type HIDP_REPORT_TYPE.HidP_Input sorted)
      (features_of_type HIDP_REPORT_TYPE.HidP_Output sorted)
      (features_of_type HIDP_REPORT_TYPE.HidP_Feature sorted)
      st.base)
  else none

/-! ## Notions used in the statements and proofs -/

/-- The number of distinct (direction, report identifier) pairs among the
features, in the words of the specification. -/
def report_groups (fs : List feature) : Nat :=
  ((fs.map fun f => (f.type, f.caps.ReportID)).dedup).length

/-- The bytes a report record really occupies: its fixed part and one element
slot per element written. -/
def record_extent (S : Sizes) (r : WINE_HID_REPORT) : Nat :=
  (S.report - S.element) + r.Elements.length * S.element

/-- The records written in the section of a direction. -/
def records_of (t : HIDP_REPORT_TYPE) (d : WINE_HIDP_PREPARSED_DATA) : List WINE_HID_REPORT :=
  match t with
  | HIDP_REPORT_TYPE.HidP_Input => d.input_records
  | HIDP_REPORT_TYPE.HidP_Output => d.output_records
  | HIDP_REPORT_TYPE.HidP_Feature => d.feature_records

/-- The report byte length the header records for a direction. -/
def byte_length_of (t : HIDP_REPORT_TYPE) (d : WINE_HIDP_PREPARSED_DATA) : Nat :=
  match t with
  | HIDP_REPORT_TYPE.HidP_Input => d.InputReportByteLength
  | HIDP_REPORT_TYPE.HidP_Output => d.OutputReportByteLength
  | HIDP_REPORT_TYPE.HidP_Feature => d.FeatureReportByteLength

/-- The report count the header records for a direction. -/
def report_count_of (t : HIDP_REPORT_TYPE) (d : WINE_HIDP_PREPARSED_DATA) : Nat :=
  match t with
  | HIDP_REPORT_TYPE.HidP_Input => d.dwInputReportCount
  | HIDP_REPORT_TYPE.HidP_Output => d.dwOutputReportCount
  | HIDP_REPORT_TYPE.HidP_Feature => d.dwFeatureReportCount

/-- The fields of a snapshot hold values of their C types: `USHORT` for the
usage page, the bit size, the report count and the slots of the union, `UCHAR`
for the report identifier. -/
def caps.fits (c : caps) : Prop :=
  c.UsagePage < 65536 ∧ c.BitSize < 65536 ∧ c.ReportCount < 65536 ∧ c.ReportID < 256 ∧
    ∀ v ∈ c.u, v < 65536

instance (c : caps) : Decidable c.fits := by
  unfold caps.fits
  infer_instance

/-- The sum of the `bitCount`s of a list of elements. -/
def total_bits (es : List WINE_HID_ELEMENT) : Nat := (es.map fun e => e.bitCount).sum

/-- The elements lie one behind the other from bit `b` on: each starts where
its predecessor ends. -/
def contiguous_from : Nat → List WINE_HID_ELEMENT → Prop
  | _, [] => True
  | b, e :: es => e.valueStartBit = b ∧ contiguous_from (b + e.bitCount) es

/-- The elements start at bit `b`, each starts where the 32-bit cursor stands
after its predecessor, and the cursor ends at `b'`. -/
def chained : Nat → List WINE_HID_ELEMENT → Nat → Prop
  | b, [], b' => b' = b
  | b, e :: es, b' => e.valueStartBit = b ∧ chained (wrap32 (b + e.bitCount)) es b'

/-- The feature counter lies between the number of data features and the
number of all features of the list. -/
def counted (st : parse_state) : Prop :=
  (st.features.filter fun f => f.isData).length ≤ st.feature_index ∧
    st.feature_index ≤ st.features.length

/-- A report record without the two fields that depend on the structure sizes. -/
def WINE_HID_REPORT.strip (r : WINE_HID_REPORT) : WINE_HID_REPORT :=
  { r with offset := 0, dwSize := 0 }

/-- The state of a block without the fields that depend on the structure sizes. -/
def block_state.strip (s : block_state) : block_state :=
  { s with done := s.done.map WINE_HID_REPORT.strip, wine_report := s.wine_report.strip }

/-- The result of a block without the fields that depend on the structure sizes. -/
def block_result.strip (b : block_result) : block_result :=
  { b with records := b.records.map WINE_HID_REPORT.strip,
           wine_report := b.wine_report.strip, start := 0 }

/-- The preparsed data without the fields that depend on the structure sizes
and on the content of uninitialised memory: the total size, the section offsets
and the position and size of each record. -/
def WINE_HIDP_PREPARSED_DATA.strip (d : WINE_HIDP_PREPARSED_DATA) : WINE_HIDP_PREPARSED_DATA :=
  { d with dwSize := 0, dwOutputReportOffset := 0, dwFeatureReportOffset := 0,
           input_records := d.input_records.map WINE_HID_REPORT.strip,
           output_records := d.output_records.map WINE_HID_REPORT.strip,
           feature_records := d.feature_records.map WINE_HID_REPORT.strip }

/-- Structure sizes all zero, used to evaluate what does not depend on them. -/
def Sizes.zero : Sizes := { preparsed := 0, report := 0, element := 0 }

/-- The number of report records the header announces and the number of
elements of each Input record. -/
def input_records_view (d : WINE_HIDP_PREPARSED_DATA) : Nat × List Nat :=
  (d.dwInputReportCount + d.dwOutputReportCount + d.dwFeatureReportCount,
    d.input_records.map fun r => r.Elements.length)

/-- The bit totals of the Input records and the Input byte length. -/
def input_bits_view (d : WINE_HIDP_PREPARSED_DATA) : List Nat × Nat :=
  (d.input_records.map fun r => total_bits r.Elements, d.InputReportByteLength)

/-- One data Input item declaring a 4-bit field of usage page 1
(`05 01 09 30 75 04 95 01 81 02`). -/
def nibble_field : List Nat := [0x05, 0x01, 0x09, 0x30, 0x75, 0x04, 0x95, 0x01, 0x81, 0x02]

/-- One data Input item declaring 65535 fields of 65535 bits
(`05 01 09 30 76 FF FF 96 FF FF 81 02`). -/
def huge_field : List Nat :=
  [0x05, 0x01, 0x09, 0x30, 0x76, 0xFF, 0xFF, 0x96, 0xFF, 0xFF, 0x81, 0x02]

/-- Report identifier 1, then four Input items with the usages 1, 2, 3 and 4,
the third without payload (`85 01 09 01 81 02 09 02 81 02 09 03 80 09 04 81 02`). -/
def zero_size_third : List Nat :=
  [0x85, 0x01, 0x09, 0x01, 0x81, 0x02, 0x09, 0x02, 0x81, 0x02, 0x09, 0x03, 0x80,
   0x09, 0x04, 0x81, 0x02]

/-- A data Input feature of the Button page with the two usages 1 and 2. -/
def two_buttons : feature :=
  { feature.alloc HIDP_REPORT_TYPE.HidP_Input with
    isData := true
    caps := { caps.zero with UsagePage := 0x09, usage_count := 2,
                             u := [1, 2, 0, 0, 0, 0, 0, 0, 0, 0, 0, 0, 0, 0, 0] } }

/-- Thirty-two data Input items without usages, the first with report
identifier 0 and the others with the identifiers 1 to 31 (`81 02`, then
`85 k 81 02` for `k` from 1 to 31). -/
def thirty_two_reports : List Nat :=
  [0x81, 0x02, 0x85, 0x01, 0x81, 0x02, 0x85, 0x02, 0x81, 0x02, 0x85, 0x03, 0x81, 0x02,
   0x85, 0x04, 0x81, 0x02, 0x85, 0x05, 0x81, 0x02, 0x85, 0x06, 0x81, 0x02, 0x85, 0x07,
   0x81, 0x02, 0x85, 0x08, 0x81, 0x02, 0x85, 0x09, 0x81, 0x02, 0x85, 0x0A, 0x81, 0x02,
   0x85, 0x0B, 0x81, 0x02, 0x85, 0x0C, 0x81, 0x02, 0x85, 0x0D, 0x81, 0x02, 0x85, 0x0E,
   0x81, 0x02, 0x85, 0x0F, 0x81, 0x02, 0x85, 0x10, 0x81, 0x02, 0x85, 0x11, 0x81, 0x02,
   0x85, 0x12, 0x81, 0x02, 0x85, 0x13, 0x81, 0x02, 0x85, 0x14, 0x81, 0x02, 0x85, 0x15,
   0x81, 0x02, 0x85, 0x16, 0x81, 0x02, 0x85, 0x17, 0x81, 0x02, 0x85, 0x18, 0x81, 0x02,
   0x85, 0x19, 0x81, 0x02, 0x85, 0x1A, 0x81, 0x02, 0x85, 0x1B, 0x81, 0x02, 0x85, 0x1C,
   0x81, 0x02, 0x85, 0x1D, 0x81, 0x02, 0x85, 0x1E, 0x81, 0x02, 0x85, 0x1F, 0x81, 0x02]

/-- Payload size an item declares in its first byte `b0` (`bSize`). -/
def item_size (b0 : Nat) : Nat := if b0 % 4 = 3 then 4 else b0 % 4

/-- Item type in the first byte `b0` of an item (`bType`). -/
def item_type (b0 : Nat) : Nat := (b0 / 4) % 4

/-- Item tag in the first byte `b0` of an item (`bTag`). -/
def item_tag (b0 : Nat) : Nat := (b0 / 16) % 16

/-- The Local Usage items with the given payload sizes and raw values, decoded
one after the other. -/
def usage_items (vals : List (Nat × Int)) (c : caps) : caps :=
  vals.foldl (fun c p => local_item p.1 p.2 TAG_LOCAL_USAGE c) c

/-- The usage a Local Usage item with the given payload size and raw value
stores into its `USHORT` slot. -/
def usage_value (p : Nat × Int) : Nat := (getValue p.1 p.2 false % 65536).toNat

/-- The root node carries the snapshot copied into the first sub-collection,
or the zeroed snapshot while there is no sub-collection; the collection
counter is the number of sub-collections. -/
def base_linked (st : parse_state) : Prop :=
  st.collection_index = st.collections.length ∧
    match st.collections with
    | [] => st.base.caps = caps.zero
    | c :: _ => st.base.caps = c.caps

/-- The invariant `base_linked` together with what is known of the current
collection: it is the root node unless a sub-collection exists. -/
def base_linked_at (cur : colref) (st : parse_state) : Prop :=
  base_linked st ∧ (cur = colref.base ∨ st.collection_index ≠ 0)

/-- One constant Input item of the Button page with one usage
(`05 09 09 01 75 01 95 01 81 03`). -/
def constant_button : List Nat := [0x05, 0x09, 0x09, 0x01, 0x75, 0x01, 0x95, 0x01, 0x81, 0x03]

/-- A mouse-like descriptor: usage page 1, usage 2, an application collection
with one 8-bit Input field of usage 0x30
(`05 01 09 02 A1 01 09 30 75 08 95 01 81 02 C0`). -/
def one_collection : List Nat :=
  [0x05, 0x01, 0x09, 0x02, 0xA1, 0x01, 0x09, 0x30, 0x75, 0x08, 0x95, 0x01, 0x81, 0x02, 0xC0]

/-- The Button count of the Input direction and the elements of the Input
records. -/
def input_buttons_view (d : WINE_HIDP_PREPARSED_DATA) : Nat × List (List WINE_HID_ELEMENT) :=
  (d.NumberInputButtonCaps, d.input_records.map fun r => r.Elements)

/-- The records lie one behind the other from displacement `b` on, each
starting where its predecessor ends according to the predecessor's `dwSize`,
and `b'` is the displacement behind the last one. -/
def consecutive : Nat → List WINE_HID_REPORT → Nat → Prop
  | b, [], b' => b' = b
  | b, r :: rs, b' => r.offset = b ∧ consecutive (b + r.dwSize) rs b'

/-- The sum of the `dwSize` fields of a list of records. -/
def total_size (rs : List WINE_HID_REPORT) : Nat := (rs.map fun r => r.dwSize).sum

/-- The displacement behind a record according to its `dwSize`. -/
def record_end (r : WINE_HID_REPORT) : Nat := r.offset + r.dwSize

/-- The elements `build_elements` writes for a feature into an empty record
when the cursor stands at bit 8. -/
def elements_of (f : feature) : List WINE_HID_ELEMENT :=
  (build_elements WINE_HID_REPORT.zero f 8).1.Elements

/-- Two Input fields in two reports: an 8-bit field with report identifier 5
and a 4-bit field with report identifier 3
(`85 05 05 01 09 30 75 08 95 01 81 02 85 03 09 31 75 04 81 02`). -/
def two_reports : List Nat :=
  [0x85, 0x05, 0x05, 0x01, 0x09, 0x30, 0x75, 0x08, 0x95, 0x01, 0x81, 0x02,
   0x85, 0x03, 0x09, 0x31, 0x75, 0x04, 0x81, 0x02]

/-- An Input, an Output and a Feature item, each with one usage
(`09 01 75 08 95 01 81 02 09 02 91 02 09 03 B1 02`). -/
def three_directions : List Nat :=
  [0x09, 0x01, 0x75, 0x08, 0x95, 0x01, 0x81, 0x02, 0x09, 0x02, 0x91, 0x02,
   0x09, 0x03, 0xB1, 0x02]

/-- The bits a feature takes in its report: the bit counts of its elements for
a data feature, `BitSize * ReportCount` for a constant one. -/
def feature_bits (f : feature) : Nat :=
  if f.isData then total_bits (elements_of f) else f.caps.BitSize * f.caps.ReportCount

/-- The final bit cursors of the report records of a direction, in the words of
the specification: a record starts at every change of the report identifier,
its cursor starts at 8 and advances by the bits of each of its features.  The
arguments are the features left, the identifier of the record being filled and
its cursor. -/
def final_cursors_from : List feature → Nat → Nat → List Nat
  | [], _, c => [c]
  | f :: fs, id, c =>
    if f.caps.ReportID ≠ id then c :: final_cursors_from fs f.caps.ReportID (8 + feature_bits f)
    else final_cursors_from fs id (c + feature_bits f)

/-- The final bit cursors of the report records of a list of features. -/
def final_cursors (fs : List feature) : List Nat :=
  match fs with
  | [] => []
  | f :: _ => final_cursors_from fs f.caps.ReportID 8

/-- The largest final bit cursor among the report records of a list of
features, 0 when there is none. -/
def max_cursor (fs : List feature) : Nat := (final_cursors fs).foldl max 0

/-- One constant Input item of 65535 fields of 8 bits (`75 08 96 FF FF 81 03`). -/
def wide_constant : List Nat := [0x75, 0x08, 0x96, 0xFF, 0xFF, 0x81, 0x03]

/-- A short item as it stands in the buffer: its prefix byte and the payload
bytes behind it. -/
structure raw_item where
  b0 : Nat
  payload : List Nat
  deriving DecidableEq, Repr

/-- The bytes of an item. -/
def raw_item.bytes (it : raw_item) : List Nat := it.b0 :: it.payload

/-- The prefix is a byte and the payload has the size the prefix announces. -/
def raw_item.complete (it : raw_item) : Prop :=
  it.b0 < 256 ∧ it.payload.length = item_size it.b0

instance (it : raw_item) : Decidable it.complete := by
  unfold raw_item.complete
  exact inferInstance

/-- The value the payload loop of `parse_descriptor` reads for a complete
item. -/
def raw_item.value (it : raw_item) : Int :=
  read_item it.payload 0 it.payload.length it.payload.length

/-- The item is a Global item, a Local item or a Main Input item. -/
def raw_item.flat (it : raw_item) : Prop :=
  item_type it.b0 = TAG_TYPE_GLOBAL ∨ item_type it.b0 = TAG_TYPE_LOCAL ∨
    (item_type it.b0 = TAG_TYPE_MAIN ∧ item_tag it.b0 = TAG_MAIN_INPUT)

/-- What `parse_descriptor` does to the state on an item that falls through to
`i += bSize`. -/
def raw_item.effect (it : raw_item) (cur : colref) (st : parse_state) : parse_state :=
  item_effect (item_type it.b0) (item_tag it.b0) (item_size it.b0) it.value cur st

/-- The bytes of a sequence of items. -/
def items_bytes (its : List raw_item) : List Nat := (its.map raw_item.bytes).flatten

/-- The effects of a sequence of items, one after the other. -/
def run_items (its : List raw_item) (cur : colref) (st : parse_state) : parse_state :=
  its.foldl (fun st it => it.effect cur st) st

/-- The items `05 01`, `09 30`, `75 08`, `95 01` (Usage Page, Usage, Report
Size, Report Count). -/
def axis_globals : List raw_item :=
  [⟨0x05, [0x01]⟩, ⟨0x09, [0x30]⟩, ⟨0x75, [0x08]⟩, ⟨0x95, [0x01]⟩]

/-- The two's-complement value of the low `bits` bits of `x`. -/
def sign_extend (bits : Nat) (x : Int) : Int :=
  (x + 2 ^ (bits - 1)) % 2 ^ bits - 2 ^ (bits - 1)

/-- The little-endian integer of a sequence of bytes. -/
def little_endian : List Nat → Nat
  | [] => 0
  | b :: bs => b % 256 + 256 * little_endian bs

/-- A long item with five data bytes: prefix `FE`, data size `05`, long tag
`10`, data `81 02 00 00 00`. -/
def long_item_example : List Nat := [0xFE, 0x05, 0x10, 0x81, 0x02, 0x00, 0x00, 0x00]

/-- The payload size a prefix byte declares, in the words of the
specification: 0, 1, 2 or 4 for the values 0, 1, 2 and 3 of its two low
bits. -/
def declared_size (b : Nat) : Nat :=
  match b &&& 3 with
  | 0 => 0
  | 1 => 1
  | 2 => 2
  | _ => 4

/-- The item is not a Collection item and its prefix is not `FE`. -/
def raw_item.top_level (it : raw_item) : Prop :=
  ¬ (item_type it.b0 = TAG_TYPE_MAIN ∧ item_tag it.b0 = TAG_MAIN_COLLECTION) ∧ it.b0 ≠ 0xFE

instance (it : raw_item) : Decidable it.top_level := by
  unfold raw_item.top_level
  exact inferInstance

/-- The effects of a sequence of items up to its first End Collection item. -/
def run_top_level : List raw_item → colref → parse_state → parse_state
  | [], _, st => st
  | it :: its, cur, st =>
    if item_type it.b0 = TAG_TYPE_MAIN ∧ item_tag it.b0 = TAG_MAIN_END_COLLECTION then st
    else run_top_level its cur (it.effect cur st)

/-- The three local values that the Local items String Index, Designator Index
and Delimiter store: the slots `StringIndex` and `DesignatorIndex` of the union
and the field `Delim`. -/
def local_values (c : caps) : Nat × Nat × Int :=
  (c.slot slot_StringIndex, c.slot slot_DesignatorIndex, c.Delim)

/-- The item is a Global item other than Pop, or a Local item other than String
Index, Designator Index and Delimiter. -/
def raw_item.keeps_local_values (it : raw_item) : Prop :=
  (item_type it.b0 = TAG_TYPE_GLOBAL ∧ item_tag it.b0 ≠ TAG_GLOBAL_POP) ∨
    (item_type it.b0 = TAG_TYPE_LOCAL ∧ item_tag it.b0 ≠ TAG_LOCAL_STRING_INDEX ∧
      item_tag it.b0 ≠ TAG_LOCAL_DESIGNATOR_INDEX ∧ item_tag it.b0 ≠ TAG_LOCAL_DELIMITER)

instance (it : raw_item) : Decidable it.keeps_local_values := by
  unfold raw_item.keeps_local_values
  exact inferInstance

/-- The item is an Input, Output or Feature item. -/
def raw_item.is_main_io (it : raw_item) : Prop :=
  item_type it.b0 = TAG_TYPE_MAIN ∧ (item_tag it.b0 = TAG_MAIN_INPUT ∨
    item_tag it.b0 = TAG_MAIN_OUTPUT ∨ item_tag it.b0 = TAG_MAIN_FEATURE)

instance (it : raw_item) : Decidable it.is_main_io := by
  unfold raw_item.is_main_io
  exact inferInstance

/-- The item is neither a Collection nor an End Collection item and its prefix
is not `FE`. -/
def raw_item.plain (it : raw_item) : Prop :=
  it.b0 ≠ 0xFE ∧
    ¬ (item_type it.b0 = TAG_TYPE_MAIN ∧ item_tag it.b0 = TAG_MAIN_COLLECTION) ∧
    ¬ (item_type it.b0 = TAG_TYPE_MAIN ∧ item_tag it.b0 = TAG_MAIN_END_COLLECTION)

/-- The indices at which `parse_descriptor` decodes an item, in the order of
decoding, together with the returned cursor: the control flow of
`parse_descriptor`, which does not depend on the state.  The prefix of a long
item, whose payload is not read, is not listed. -/
def decoded_at : Nat → List Nat → Nat → Nat → Nat × List Nat
  | 0, _, index, _ => (index, [])
  | fuel + 1, descriptor, index, length =>
    if index < length then
      let b0 := descriptor.getD index 0 % 256
      let i := index + 1
      let bType := (b0 / 4) % 4
      let bTag := (b0 / 16) % 16
      let bSize := if b0 % 4 = 3 then 4 else b0 % 4
      if bType = TAG_TYPE_RESERVED ∧ bTag = 0x0F ∧ bSize = 2 ∧ i + 2 < length then
        decoded_at fuel descriptor i length
      else
        if bType = TAG_TYPE_MAIN ∧ bTag = TAG_MAIN_COLLECTION then
          let r := decoded_at fuel descriptor (i + 1) length
          let r2 := decoded_at fuel descriptor r.1 length
          (r2.1, index :: (r.2 ++ r2.2))
        else if bType = TAG_TYPE_MAIN ∧ bTag = TAG_MAIN_END_COLLECTION then (i, [index])
        else
          let r := decoded_at fuel descriptor (i + bSize) length
          (r.1, index :: r.2)
    else (index, [])

/-- The fields of the state of a block that decide the records and the byte
length: everything but the two counters of `count_elements`. -/
def block_state.layout (s : block_state) :
    List WINE_HID_REPORT × WINE_HID_REPORT × Nat × Nat × Nat :=
  (s.done, s.wine_report, s.bitOffset, s.bitLength, s.report_count)

/-- A constant Input feature of 3 fields of 8 bits that carries the two usages
1 and 2. -/
def constant_with_usages : feature :=
  { feature.alloc HIDP_REPORT_TYPE.HidP_Input with
    caps := { caps.zero with BitSize := 8, ReportCount := 3, usage_count := 2,
                             u := [1, 2, 0, 0, 0, 0, 0, 0, 0, 0, 0, 0, 0, 0, 0] } }

/-- A data Input feature of 3 fields of 8 bits without usages. -/
def data_without_usages : feature :=
  { feature.alloc HIDP_REPORT_TYPE.HidP_Input with
    isData := true
    caps := { caps.zero with BitSize := 8, ReportCount := 3 } }

/-- A Collection item without payload around an Input item (`A0 81 02 C0`). -/
def bare_collection : List Nat := [0xA0, 0x81, 0x02, 0xC0]

/-- Three Usage items and a String Minimum item (`09 01 09 02 09 03 79 07`). -/
def usages_then_string_minimum : List Nat := [0x09, 0x01, 0x09, 0x02, 0x09, 0x03, 0x79, 0x07]

/-- The usage selector of a snapshot is within its capacity, and a range
counts as one usage. -/
def caps.usage_ok (c : caps) : Prop :=
  c.usage_count ≤ USAGE_MAX ∧ (c.IsRange = true → c.usage_count = 1)

instance (c : caps) : Decidable c.usage_ok := by
  unfold caps.usage_ok
  exact inferInstance

/-- A property holds for every snapshot that exists in a state: the
accumulator, the entries of the stack, the copies in the features, in the root
collection and in the sub-collections. -/
def parse_state.every_snapshot (P : HidDescriptor.caps → Prop) (st : parse_state) : Prop :=
  P st.caps ∧ (∀ c ∈ st.stack, P c) ∧ (∀ f ∈ st.features, P f.caps) ∧ P st.base.caps ∧
    ∀ n ∈ st.collections, P n.caps

/-- The descriptor `05 01 09 30 09 31 75 08 95 02 81 02`: two usages of the
Generic Desktop page on one data Input item of two fields of eight bits. -/
def two_axes : List Nat :=
  [0x05, 0x01, 0x09, 0x30, 0x09, 0x31, 0x75, 0x08, 0x95, 0x02, 0x81, 0x02]

/-- The feature the descriptor `two_axes` yields. -/
def axis_pair : feature :=
  { feature.alloc HIDP_REPORT_TYPE.HidP_Input with
    isData := true
    IsAbsolute := true
    Linear := true
    prefState := true
    collection := colref.base
    caps := { caps.zero with UsagePage := 1, BitSize := 8, ReportCount := 2, usage_count := 2,
                             u := [48, 49, 0, 0, 0, 0, 0, 0, 0, 0, 0, 0, 0, 0, 0] } }

/-- What a run of `parse_descriptor` does besides changing the state: the
returned cursor, the value of the cursor at the start of every loop iteration
(in the order of execution, those of the nested calls included), the greatest
number of nested calls active at once, and whether no call was stopped by the
bound on the iterations while its loop condition still held. -/
structure loop_run where
  cursor : Nat
  visited : List Nat
  depth : Nat
  finished : Bool
  deriving DecidableEq, Repr

/-- The control flow of `parse_descriptor`, which does not depend on the
state, with the iterations and the nesting of the recursive calls recorded. -/
def run_of : Nat → List Nat → Nat → Nat → loop_run
  | 0, _, index, length =>
    { cursor := index, visited := [], depth := 0, finished := decide (¬ index < length) }
  | fuel + 1, descriptor, index, length =>
    if index < length then
      let b0 := descriptor.getD index 0 % 256
      let i := index + 1
      let bType := (b0 / 4) % 4
      let bTag := (b0 / 16) % 16
      let bSize := if b0 % 4 = 3 then 4 else b0 % 4
      if bType = TAG_TYPE_RESERVED ∧ bTag = 0x0F ∧ bSize = 2 ∧ i + 2 < length then
        let r := run_of fuel descriptor i length
        { r with visited := index :: r.visited }
      else
        if bType = TAG_TYPE_MAIN ∧ bTag = TAG_MAIN_COLLECTION then
          let r := run_of fuel descriptor (i + 1) length
          let r2 := run_of fuel descriptor r.cursor length
          { cursor := r2.cursor, visited := index :: (r.visited ++ r2.visited),
            depth := max (r.depth + 1) r2.depth, finished := r.finished && r2.finished }
        else if bType = TAG_TYPE_MAIN ∧ bTag = TAG_MAIN_END_COLLECTION then
          { cursor := i, visited := [index], depth := 0, finished := true }
        else
          let r := run_of fuel descriptor (i + bSize) length
          { r with visited := index :: r.visited }
    else { cursor := index, visited := [], depth := 0, finished := true }

/-- The byte at `q` starts a Collection item. -/
def collection_at (descriptor : List Nat) (q : Nat) : Bool :=
  decide (item_type (descriptor.getD q 0 % 256) = TAG_TYPE_MAIN ∧
    item_tag (descriptor.getD q 0 % 256) = TAG_MAIN_COLLECTION)

/-- The descriptor `A1 01 A1 02 81 02 C0 C0`: two nested collections around
one Input item. -/
def nested_collections : List Nat := [0xA1, 0x01, 0xA1, 0x02, 0x81, 0x02, 0xC0, 0xC0]

/-- The number of elements held by a list of report records. -/
def written (rs : List WINE_HID_REPORT) : Nat := (rs.map fun r => r.Elements.length).sum

/-- The usages of the data features of a list. -/
def data_usages (fs : List feature) : Nat :=
  ((fs.filter fun f => f.isData).map fun f => f.caps.usage_count).sum

/-- The descriptor `09 01 81 01 09 02 81 02`: a constant Input item with one
usage, then a data Input item with one usage. -/
def constant_then_data : List Nat := [0x09, 0x01, 0x81, 0x01, 0x09, 0x02, 0x81, 0x02]

/-- The report identifiers of the records of a block while its loop runs: those
of the records left behind, then that of the record `wine_report` points at. -/
def block_state.ids (s : block_state) : List Nat :=
  (s.done.map fun r => r.reportID) ++ [s.wine_report.reportID]

/-- The report identifiers of a list of features, in the order of the list. -/
def report_ids_of (fs : List feature) : List Nat := fs.map fun f => f.caps.ReportID

/-- The descriptor `85 02 81 02 85 01 81 02 85 02 81 02`: three data Input
items with the report identifiers 2, 1 and 2. -/
def unsorted_reports : List Nat :=
  [0x85, 0x02, 0x81, 0x02, 0x85, 0x01, 0x81, 0x02, 0x85, 0x02, 0x81, 0x02]

/-- The descriptor `05 01 09 30 09 31 75 08 95 02 81 02 09 32 75 04 95 01 81
02`: a data Input item with two usages and two fields of 8 bits, then a data
Input item with one usage and one field of 4 bits. -/
def three_fields : List Nat :=
  [0x05, 0x01, 0x09, 0x30, 0x09, 0x31, 0x75, 0x08, 0x95, 0x02, 0x81, 0x02,
   0x09, 0x32, 0x75, 0x04, 0x95, 0x01, 0x81, 0x02]

/-- A data Input feature of the Button page with the usage range 1 to 3. -/
def button_range : feature :=
  { feature.alloc HIDP_REPORT_TYPE.HidP_Input with
    isData := true
    caps := { caps.zero with UsagePage := 0x09, BitSize := 1, ReportCount := 3,
                             IsRange := true, usage_count := 1,
                             u := [1, 3, 0, 0, 0, 0, 0, 0, 0, 0, 0, 0, 0, 0, 0] } }

/-- The descriptor `05 09 19 05 29 03 75 01 95 03 81 02`: a data Input item of
the Button page whose usage range has minimum 5 and maximum 3. -/
def reversed_range : List Nat :=
  [0x05, 0x09, 0x19, 0x05, 0x29, 0x03, 0x75, 0x01, 0x95, 0x03, 0x81, 0x02]

/-- The descriptor `05 01 75 08 95 01 09 30 69 05 81 02 09 31 81 02`: a Usage
and a String Index item of value 5 before the first Input item, a Usage item
alone before the second. -/
def stale_string_index : List Nat :=
  [0x05, 0x01, 0x75, 0x08, 0x95, 0x01, 0x09, 0x30, 0x69, 0x05, 0x81, 0x02,
   0x09, 0x31, 0x81, 0x02]

/-! ## Independence of the structure sizes -/

theorem build_elements_loop_strip (f : feature) :
    ∀ (is : List Nat) (r : WINE_HID_REPORT) (off : Nat),
      build_elements_loop f is (r.strip, off) =
        ((build_elements_loop f is (r, off)).1.strip, (build_elements_loop f is (r, off)).2)
  | [], _, _ => rfl
  | i :: is, r, off => by
    simp only [build_elements_loop]
    exact build_elements_loop_strip f is
      { r with Elements := r.Elements ++ [(build_element f i off).1]
               elementCount := r.elementCount + 1 } (build_element f i off).2

theorem build_elements_strip (f : feature) (r : WINE_HID_REPORT) (off : Nat) :
    build_elements r.strip f off =
      ((build_elements r f off).1.strip, (build_elements r f off).2) := by
  unfold build_elements
  split
  · rfl
  · exact build_elements_loop_strip f _ r off

theorem build_elements_congr (f : feature) (r r' : WINE_HID_REPORT) (off : Nat)
    (h : r.strip = r'.strip) :
    (build_elements r f off).1.strip = (build_elements r' f off).1.strip ∧
      (build_elements r f off).2 = (build_elements r' f off).2 := by
  have a := build_elements_strip f r off
  have b := build_elements_strip f r' off
  rw [h, b] at a
  exact ⟨(congrArg Prod.fst a).symm, (congrArg Prod.snd a).symm⟩

theorem strip_strip (r : WINE_HID_REPORT) : r.strip.strip = r.strip := rfl

theorem block_step_strip (S S' : Sizes) (s : block_state) (f : feature) :
    (block_step S s f).strip = (block_step S' s.strip f).strip := by
  unfold block_step
  by_cases h : f.caps.ReportID ≠ s.wine_report.reportID
  · have h' : f.caps.ReportID ≠ s.strip.wine_report.reportID := h
    simp only [h, h', if_true, ne_eq, not_false_eq_true]
    obtain ⟨e1, e2⟩ := build_elements_congr f
      (new_report S ((close_report S s.wine_report).offset +
        (close_report S s.wine_report).dwSize) f)
      (new_report S' ((close_report S' s.strip.wine_report).offset +
        (close_report S' s.strip.wine_report).dwSize) f) 8 rfl
    simp only [block_state.strip, block_state.mk.injEq, e1, e2, List.map_append, List.map_map,
      List.map_cons, List.map_nil, and_true, true_and]
    rfl
  · have h' : ¬ f.caps.ReportID ≠ s.strip.wine_report.reportID := h
    simp only [h, h', if_false]
    obtain ⟨e1, e2⟩ := build_elements_congr f s.wine_report s.strip.wine_report s.bitOffset rfl
    simp only [block_state.strip, block_state.mk.injEq, e1, e2, List.map_map, and_true, true_and]
    rfl

theorem foldl_block_step_strip (S S' : Sizes) :
    ∀ (fs : List feature) (s s' : block_state), s.strip = s'.strip →
      (fs.foldl (block_step S) s).strip = (fs.foldl (block_step S') s').strip
  | [], _, _, h => h
  | f :: fs, s, s', h => by
    simp only [List.foldl]
    apply foldl_block_step_strip S S' fs
    rw [block_step_strip S S' s f, block_step_strip S' S' s' f, h]

theorem build_block_strip (S S' : Sizes) (a c a' c' : Bool) (fs : List feature)
    (prev prev' : WINE_HID_REPORT) (hp : prev.strip = prev'.strip) :
    (build_block S a c fs prev).strip = (build_block S' a' c' fs prev').strip := by
  cases fs with
  | nil => simp [build_block, block_result.strip, hp]
  | cons f0 rest =>
    have key := foldl_block_step_strip S S' (f0 :: rest)
      { done := [], wine_report := new_report S
          (if a then prev.offset + prev.dwSize else prev.offset) f0,
        bitOffset := 8, bitLength := 0, report_count := 1, buttons := 0, values := 0 }
      { done := [], wine_report := new_report S'
          (if a' then prev'.offset + prev'.dwSize else prev'.offset) f0,
        bitOffset := 8, bitLength := 0, report_count := 1, buttons := 0, values := 0 }
      (by simp [block_state.strip, WINE_HID_REPORT.strip, new_report])
    simp only [block_state.strip, block_state.mk.injEq] at key
    obtain ⟨k1, k2, k3, k4, k5, k6, k7⟩ := key
    simp only [build_block, block_result.strip, List.map_append, List.map_cons, List.map_nil,
      k1, k3, k4, k5, k6, k7, block_result.mk.injEq, and_true, true_and]
    have e : ∀ (b : Bool) (T : Sizes) (r : WINE_HID_REPORT),
        (if b then close_report T r else r).strip = r.strip := by
      intro b T r; cases b <;> rfl
    rw [e, e, k2]
    simp

theorem build_PreparseData_strip (S S' : Sizes) (junk junk' : Nat → Nat)
    (fs i o f : List feature) (base : collection) :
    (build_PreparseData S junk fs i o f base).strip =
      (build_PreparseData S' junk' fs i o f base).strip := by
  have hi := build_block_strip S S' false true false true i WINE_HID_REPORT.zero
    WINE_HID_REPORT.zero rfl
  have ho := build_block_strip S S' true true true true o _ _
    (congrArg block_result.wine_report hi)
  have hf := build_block_strip S S' true false true false f _ _
    (congrArg block_result.wine_report ho)
  simp only [block_result.strip, block_result.mk.injEq] at hi ho hf
  simp only [build_PreparseData, WINE_HIDP_PREPARSED_DATA.strip, hi.1, ho.1, hf.1,
    hi.2.2.2.1, hi.2.2.2.2.1, hi.2.2.2.2.2.1, hi.2.2.2.2.2.2,
    ho.2.2.2.1, ho.2.2.2.2.1, ho.2.2.2.2.2.1, ho.2.2.2.2.2.2,
    hf.2.2.2.1, hf.2.2.2.2.1, hf.2.2.2.2.2.1, hf.2.2.2.2.2.2]

/-- What `ParseDescriptor` returns does not depend on the structure sizes or on
uninitialised memory, apart from the stripped fields. -/
theorem ParseDescriptor_strip (S S' : Sizes) (junk junk' : Nat → Nat) (descriptor : List Nat) :
    (ParseDescriptor S junk descriptor).map WINE_HIDP_PREPARSED_DATA.strip =
      (ParseDescriptor S' junk' descriptor).map WINE_HIDP_PREPARSED_DATA.strip := by
  unfold ParseDescriptor
  by_cases h : (parse_all descriptor).feature_index ≠ 0
  · rw [if_pos h, if_pos h]
    simp only [Option.map_some', build_PreparseData_strip S S' junk junk']
  · rw [if_neg h, if_neg h]

/-! ## Invariants of the parser -/

/-- A property of the state that every item keeps is kept by `parse_descriptor`. -/
theorem parse_descriptor_preserves (P : parse_state → Prop)
    (h_item : ∀ bType bTag bSize itemVal cur st, P st →
      P (item_effect bType bTag bSize itemVal cur st))
    (h_col : ∀ bSize itemVal cur st, P st → P (main_collection_item bSize itemVal cur st)) :
    ∀ (fuel : Nat) (descriptor : List Nat) (index length : Nat) (cur : colref)
      (st : parse_state), P st → P (parse_descriptor fuel descriptor index length cur st).2 := by
  intro fuel
  induction fuel with
  | zero => intro d i len cur st h; exact h
  | succ n ih =>
    intro d i len cur st h
    simp only [parse_descriptor]
    split_ifs <;>
      first
      | exact h
      | exact ih _ _ _ _ _ h
      | exact ih _ _ _ _ _ (ih _ _ _ _ _ (h_col _ _ _ _ h))
      | exact ih _ _ _ _ _ (h_item _ _ _ _ _ _ h)

/-- The cursor `parse_descriptor` returns is not before the start index. -/
theorem parse_descriptor_cursor :
    ∀ (fuel : Nat) (descriptor : List Nat) (index length : Nat) (cur : colref)
      (st : parse_state), index ≤ (parse_descriptor fuel descriptor index length cur st).1 := by
  intro fuel
  induction fuel with
  | zero => intro d i len cur st; exact Nat.le_refl _
  | succ n ih =>
    intro d i len cur st
    simp only [parse_descriptor]
    split_ifs <;>
      first
      | exact Nat.le_refl _
      | exact Nat.le_succ _
      | exact Nat.le_trans (by omega) (ih _ _ _ _ _)
      | exact Nat.le_trans (Nat.le_trans (by omega) (ih d (i + 1 + 1) len _ _)) (ih _ _ _ _ _)

/-- Every loop iteration and every nested call advances the cursor, so any
bound of at least `length - index` iterations gives the same result: the
bound `length` used by `parse_all` never cuts the parse short. -/
theorem parse_descriptor_fuel :
    ∀ (fuel fuel' : Nat) (descriptor : List Nat) (index length : Nat) (cur : colref)
      (st : parse_state), length - index ≤ fuel → length - index ≤ fuel' →
      parse_descriptor fuel descriptor index length cur st =
        parse_descriptor fuel' descriptor index length cur st := by
  intro fuel
  induction fuel with
  | zero =>
    intro fuel' d i len cur st h _
    cases fuel' with
    | zero => rfl
    | succ m =>
      have hlt : ¬ i < len := by omega
      simp only [parse_descriptor, hlt, if_false]
  | succ n ih =>
    intro fuel' d i len cur st h h'
    cases fuel' with
    | zero =>
      have hlt : ¬ i < len := by omega
      simp only [parse_descriptor, hlt, if_false]
    | succ m =>
      simp only [parse_descriptor]
      by_cases hlt : i < len
      · simp only [hlt, if_true]
        have hc := parse_descriptor_cursor n d (i + 1 + 1) len
          (colref.sub st.collection_index)
        split_ifs
        · exact ih m d _ len cur st (by omega) (by omega)
        · rw [ih m d (i + 1 + 1) len _ _ (by omega) (by omega)]
          have hc' := parse_descriptor_cursor m d (i + 1 + 1) len
            (colref.sub st.collection_index)
            (main_collection_item 4 (read_item d (i + 1) len 4) cur st)
          exact ih m d _ len cur _ (by omega) (by omega)
        · rfl
        · exact ih m d _ len cur _ (by omega) (by omega)
        · exact ih m d _ len cur st (by omega) (by omega)
        · rw [ih m d (i + 1 + 1) len _ _ (by omega) (by omega)]
          have hc' := parse_descriptor_cursor m d (i + 1 + 1) len
            (colref.sub st.collection_index)
            (main_collection_item (d.getD i 0 % 256 % 4)
              (read_item d (i + 1) len (d.getD i 0 % 256 % 4)) cur st)
          exact ih m d _ len cur _ (by omega) (by omega)
        · rfl
        · exact ih m d _ len cur _ (by omega) (by omega)
      · simp only [hlt, if_false]

theorem main_io_item_counted (t : HIDP_REPORT_TYPE) (bSize : Nat) (itemVal : Int) (bTag : Nat)
    (cur : colref) (st : parse_state) (h : counted st) :
    counted (main_io_item t bSize itemVal bTag cur st) := by
  obtain ⟨h1, h2⟩ := h
  unfold main_io_item parse_io_feature
  by_cases hb : bSize ≤ 0
  · simp only [hb, if_true, counted, List.filter_append, List.length_append, List.filter_cons,
      List.filter_nil, feature.alloc, List.length_cons, List.length_nil]
    constructor
    · simpa using h1
    · omega
  · simp only [hb, if_false, counted, List.filter_append, List.length_append,
      List.length_cons, List.length_nil]
    constructor
    · exact Nat.add_le_add h1 (List.length_filter_le _ _)
    · omega

theorem item_effect_counted (bType bTag bSize : Nat) (itemVal : Int) (cur : colref)
    (st : parse_state) (h : counted st) : counted (item_effect bType bTag bSize itemVal cur st) := by
  unfold item_effect
  split_ifs
  · exact main_io_item_counted _ _ _ _ _ _ h
  · exact main_io_item_counted _ _ _ _ _ _ h
  · exact main_io_item_counted _ _ _ _ _ _ h
  · exact h
  · exact h
  · exact h
  · exact h

theorem main_collection_item_counted (bSize : Nat) (itemVal : Int) (cur : colref)
    (st : parse_state) (h : counted st) : counted (main_collection_item bSize itemVal cur st) := by
  have e : (main_collection_item bSize itemVal cur st).features = st.features ∧
      (main_collection_item bSize itemVal cur st).feature_index = st.feature_index := by
    unfold main_collection_item set_collection_caps
    split_ifs
    · cases cur with
      | null => exact ⟨rfl, rfl⟩
      | base => exact ⟨rfl, rfl⟩
      | sub k => dsimp only; split <;> exact ⟨rfl, rfl⟩
    · exact ⟨rfl, rfl⟩
  unfold counted
  rw [e.1, e.2]
  exact h

theorem parse_all_counted (descriptor : List Nat) : counted (parse_all descriptor) :=
  parse_descriptor_preserves counted item_effect_counted main_collection_item_counted
    _ _ _ _ _ _ ⟨Nat.le_refl _, Nat.le_refl _⟩

/-- When every feature of the list is a data feature, all of them are counted. -/
theorem feature_index_eq_length (descriptor : List Nat)
    (h : ∀ f ∈ (parse_all descriptor).features, f.isData = true) :
    (parse_all descriptor).feature_index = (parse_all descriptor).features.length := by
  obtain ⟨h1, h2⟩ := parse_all_counted descriptor
  rw [List.filter_eq_self.2 h] at h1
  exact Nat.le_antisymm h2 h1

/-! ## Elements of one report -/

theorem chained_append : ∀ (es es' : List WINE_HID_ELEMENT) (b b' b'' : Nat),
    chained b es b' → chained b' es' b'' → chained b (es ++ es') b''
  | [], _, _, _, _, h, h' => by
    simp only [chained] at h
    subst h
    exact h'
  | e :: es, es', b, b', b'', h, h' =>
    ⟨h.1, chained_append es es' _ _ _ h.2 h'⟩

theorem chained_exact : ∀ (es : List WINE_HID_ELEMENT) (b b' : Nat),
    chained b es b' → b + total_bits es < 4294967296 →
      b' = b + total_bits es ∧ contiguous_from b es
  | [], b, b', h, _ => by
    simp only [chained] at h
    simp [h, total_bits, contiguous_from]
  | e :: es, b, b', h, hlt => by
    simp only [total_bits, List.map_cons, List.sum_cons] at hlt
    have hw : wrap32 (b + e.bitCount) = b + e.bitCount := by
      unfold wrap32
      exact Nat.mod_eq_of_lt (by omega)
    have h2 := h.2
    rw [hw] at h2
    obtain ⟨e1, e2⟩ := chained_exact es _ _ h2 (by
      simp only [total_bits]
      omega)
    refine ⟨?_, h.1, e2⟩
    simp only [total_bits, List.map_cons, List.sum_cons] at e1 ⊢
    omega

theorem contiguous_sorted : ∀ (es : List WINE_HID_ELEMENT) (b : Nat), contiguous_from b es →
    (es.map fun e => e.valueStartBit).Sorted (· ≤ ·) ∧
      ∀ x ∈ es.map (fun e => e.valueStartBit), b ≤ x
  | [], _, _ => by simp
  | e :: es, b, h => by
    obtain ⟨h1, h2⟩ := h
    obtain ⟨i1, i2⟩ := contiguous_sorted es _ h2
    constructor
    · simp only [List.map_cons, List.sorted_cons]
      refine ⟨fun x hx => ?_, i1⟩
      have := i2 x hx
      omega
    · intro x hx
      simp only [List.map_cons, List.mem_cons] at hx
      rcases hx with hx | hx
      · omega
      · have := i2 x hx
        omega

theorem build_element_chained (f : feature) (i off : Nat) :
    (build_element f i off).1.valueStartBit = off ∧
      (build_element f i off).2 = wrap32 (off + (build_element f i off).1.bitCount) := by
  unfold build_element
  simp only []
  split_ifs <;> exact ⟨rfl, rfl⟩

/-- The loop of `build_elements` appends one element for each value of `i`. -/
theorem build_elements_loop_spec (f : feature) :
    ∀ (is : List Nat) (r : WINE_HID_REPORT) (off : Nat),
      ∃ new : List WINE_HID_ELEMENT,
        (build_elements_loop f is (r, off)).1 =
          { r with Elements := r.Elements ++ new, elementCount := r.elementCount + is.length } ∧
        new.length = is.length ∧
        chained off new (build_elements_loop f is (r, off)).2 ∧
        ∀ e ∈ new, ∃ i b, e = (build_element f i b).1
  | [], r, off => ⟨[], by simp [build_elements_loop], rfl, rfl, by simp⟩
  | i :: is, r, off => by
    obtain ⟨new, h1, h2, h3, h4⟩ := build_elements_loop_spec f is
      { r with Elements := r.Elements ++ [(build_element f i off).1]
               elementCount := r.elementCount + 1 } (build_element f i off).2
    refine ⟨(build_element f i off).1 :: new, ?_, by simp [h2], ?_, ?_⟩
    · simp only [build_elements_loop, h1, List.append_assoc, List.singleton_append,
        List.length_cons, WINE_HID_REPORT.mk.injEq, true_and, and_true]
      omega
    · refine ⟨(build_element_chained f i off).1, ?_⟩
      rw [← (build_element_chained f i off).2]
      exact h3
    · intro e he
      simp only [List.mem_cons] at he
      rcases he with he | he
      · exact ⟨i, off, he⟩
      · exact h4 e he

/-- For a data feature `build_elements` appends `usage_count` elements. -/
theorem build_elements_spec (r : WINE_HID_REPORT) (f : feature) (off : Nat)
    (hd : f.isData = true) :
    ∃ new : List WINE_HID_ELEMENT,
      (build_elements r f off).1 =
        { r with Elements := r.Elements ++ new,
                 elementCount := r.elementCount + f.caps.usage_count } ∧
      new.length = f.caps.usage_count ∧
      chained off new (build_elements r f off).2 ∧
      ∀ e ∈ new, ∃ i b, e = (build_element f i b).1 := by
  obtain ⟨new, h1, h2, h3, h4⟩ :=
    build_elements_loop_spec f (List.range f.caps.usage_count) r off
  rw [List.length_range] at h1 h2
  refine ⟨new, ?_, h2, ?_, h4⟩
  · simp only [build_elements, hd, Bool.not_true, Bool.false_eq_true, if_false]
    exact h1
  · simp only [build_elements, hd, Bool.not_true, Bool.false_eq_true, if_false]
    exact h3

/-- A block step on a data feature of the current report identifier only
appends elements to the current record. -/
theorem foldl_block_step_same_id (S : Sizes) :
    ∀ (fs : List feature) (s : block_state),
      (∀ f ∈ fs, f.isData = true ∧ f.caps.ReportID = s.wine_report.reportID) →
      chained 8 s.wine_report.Elements s.bitOffset →
        (fs.foldl (block_step S) s).done = s.done ∧
        (fs.foldl (block_step S) s).wine_report.reportID = s.wine_report.reportID ∧
        (fs.foldl (block_step S) s).bitLength = s.bitLength ∧
        (fs.foldl (block_step S) s).report_count = s.report_count ∧
        chained 8 (fs.foldl (block_step S) s).wine_report.Elements
          (fs.foldl (block_step S) s).bitOffset
  | [], _, _, hc => ⟨rfl, rfl, rfl, rfl, hc⟩
  | f :: fs, s, h, hc => by
    obtain ⟨hd, hid⟩ := h f (List.mem_cons_self _ _)
    obtain ⟨new, h1, -, h3, -⟩ := build_elements_spec s.wine_report f s.bitOffset hd
    have hstep : block_step S s f =
        { s with
          wine_report := (build_elements s.wine_report f s.bitOffset).1
          bitOffset := (build_elements s.wine_report f s.bitOffset).2
          buttons := (count_elements f s.buttons s.values).1
          values := (count_elements f s.buttons s.values).2 } := by
      simp only [block_step, hid, ne_eq, not_true_eq_false, if_false]
    have hrid : (block_step S s f).wine_report.reportID = s.wine_report.reportID := by
      rw [hstep]
      simp only [h1]
    obtain ⟨k1, k2, k3, k4, k5⟩ := foldl_block_step_same_id S fs (block_step S s f)
      (fun g hg => by
        rw [hrid]
        exact h g (List.mem_cons_of_mem _ hg))
      (by
        rw [hstep]
        simp only [h1]
        exact chained_append _ _ _ _ _ hc h3)
    simp only [List.foldl]
    refine ⟨?_, ?_, ?_, ?_, k5⟩
    · rw [k1, hstep]
    · rw [k2, hrid]
    · rw [k3, hstep]
    · rw [k4, hstep]

/-- A block over data features that share one report identifier writes one
record, whose elements are chained from bit 8 on. -/
theorem build_block_single (S : Sizes) (a c : Bool) (fs : List feature)
    (prev : WINE_HID_REPORT) (r : Nat) (hne : fs ≠ [])
    (h : ∀ f ∈ fs, f.isData = true ∧ f.caps.ReportID = r) :
    ∃ (rep : WINE_HID_REPORT) (b : Nat),
      (build_block S a c fs prev).records = [rep] ∧ rep.reportID = r ∧
      chained 8 rep.Elements b ∧
      (build_block S a c fs prev).ByteLength = wrap32 (b + 7) / 8 * 8 / 8 % 65536 ∧
      (build_block S a c fs prev).report_count = 1 := by
  cases fs with
  | nil => exact absurd rfl hne
  | cons f0 rest =>
    have hid0 := (h f0 (List.mem_cons_self _ _)).2
    obtain ⟨s', hs'⟩ : ∃ s', s' = List.foldl (block_step S)
        { done := [], wine_report := new_report S
            (if a then prev.offset + prev.dwSize else prev.offset) f0,
          bitOffset := 8, bitLength := 0, report_count := 1, buttons := 0, values := 0 }
        (f0 :: rest) := ⟨_, rfl⟩
    obtain ⟨k1, k2, k3, k4, k5⟩ := foldl_block_step_same_id S (f0 :: rest)
      { done := [], wine_report := new_report S
          (if a then prev.offset + prev.dwSize else prev.offset) f0,
        bitOffset := 8, bitLength := 0, report_count := 1, buttons := 0, values := 0 }
      (fun g hg => ⟨(h g hg).1, by rw [(h g hg).2, ← hid0]; rfl⟩) rfl
    rw [← hs'] at k1 k2 k3 k4 k5
    simp only [build_block, ← hs']
    refine ⟨_, s'.bitOffset, by rw [k1]; rfl, ?_, ?_, ?_, k4⟩
    · cases c
      · simp only [Bool.false_eq_true, if_false]
        rw [k2]
        exact hid0
      · simp only [if_true, close_report]
        rw [k2]
        exact hid0
    · cases c
      · exact k5
      · exact k5
    · rw [k3, Nat.max_eq_left (Nat.zero_le _)]

/-! ## A descriptor whose features form one report -/

theorem mem_sorted_features (st : parse_state) (f : feature) :
    f ∈ sorted_features st ↔ f ∈ st.features.take st.feature_index := by
  unfold sorted_features
  simp only []
  split_ifs
  · exact List.mem_insertionSort _
  · exact Iff.rfl

theorem features_of_type_eq_self (t : HIDP_REPORT_TYPE) (fs : List feature)
    (h : ∀ f ∈ fs, f.type = t) : features_of_type t fs = fs := by
  unfold features_of_type
  rw [List.filter_eq_self]
  intro f hf
  simp [h f hf]

theorem features_of_type_eq_nil (t t' : HIDP_REPORT_TYPE) (fs : List feature)
    (h : ∀ f ∈ fs, f.type = t) (hne : t' ≠ t) : features_of_type t' fs = [] := by
  unfold features_of_type
  rw [List.filter_eq_nil_iff]
  intro f hf
  simp only [h f hf, decide_eq_true_eq]
  exact fun e => hne e.symm

/-- If all features of a descriptor are data features of one direction and one
report identifier, the layout has one record in the section of that direction,
with chained elements, and the byte length comes from the final cursor. -/
theorem ParseDescriptor_single_group (S : Sizes) (junk : Nat → Nat) (descriptor : List Nat)
    (t : HIDP_REPORT_TYPE) (r : Nat)
    (hne : (parse_all descriptor).features ≠ [])
    (h : ∀ f ∈ (parse_all descriptor).features,
      f.isData = true ∧ f.type = t ∧ f.caps.ReportID = r) :
    ∃ (d : WINE_HIDP_PREPARSED_DATA) (rep : WINE_HID_REPORT) (b : Nat),
      ParseDescriptor S junk descriptor = some d ∧ records_of t d = [rep] ∧
      rep.reportID = r ∧ chained 8 rep.Elements b ∧
      byte_length_of t d = wrap32 (b + 7) / 8 * 8 / 8 % 65536 ∧
      report_count_of t d = 1 := by
  have hidx := feature_index_eq_length descriptor (fun f hf => (h f hf).1)
  have hpos : (parse_all descriptor).feature_index ≠ 0 := by
    rw [hidx]
    exact fun e => hne (List.length_eq_zero.1 e)
  have hmem : ∀ f, f ∈ sorted_features (parse_all descriptor) ↔
      f ∈ (parse_all descriptor).features := by
    intro f
    rw [mem_sorted_features, hidx, List.take_length]
  have hall : ∀ f ∈ sorted_features (parse_all descriptor),
      f.isData = true ∧ f.caps.ReportID = r :=
    fun f hf => ⟨(h f ((hmem f).1 hf)).1, (h f ((hmem f).1 hf)).2.2⟩
  have htype : ∀ f ∈ sorted_features (parse_all descriptor), f.type = t :=
    fun f hf => (h f ((hmem f).1 hf)).2.1
  have hsne : sorted_features (parse_all descriptor) ≠ [] := by
    obtain ⟨f, hf⟩ := List.exists_mem_of_ne_nil _ hne
    exact List.ne_nil_of_mem ((hmem f).2 hf)
  have hself := features_of_type_eq_self t _ htype
  simp only [ParseDescriptor, hpos, ne_eq, not_false_eq_true, if_true]
  cases t with
  | HidP_Input =>
    obtain ⟨rep, b, k1, k2, k3, k4, k5⟩ := build_block_single S false true
      (sorted_features (parse_all descriptor)) WINE_HID_REPORT.zero r hsne hall
    refine ⟨_, rep, b, rfl, ?_, k2, k3, ?_, ?_⟩
    · simp only [records_of, build_PreparseData, hself]
      exact k1
    · simp only [byte_length_of, build_PreparseData, hself]
      exact k4
    · simp only [report_count_of, build_PreparseData, hself]
      exact k5
  | HidP_Output =>
    obtain ⟨rep, b, k1, k2, k3, k4, k5⟩ := build_block_single S true true
      (sorted_features (parse_all descriptor))
      (build_block S false true (features_of_type HIDP_REPORT_TYPE.HidP_Input
        (sorted_features (parse_all descriptor))) WINE_HID_REPORT.zero).wine_report r hsne hall
    refine ⟨_, rep, b, rfl, ?_, k2, k3, ?_, ?_⟩
    · simp only [records_of, build_PreparseData, hself]
      exact k1
    · simp only [byte_length_of, build_PreparseData, hself]
      exact k4
    · simp only [report_count_of, build_PreparseData, hself]
      exact k5
  | HidP_Feature =>
    obtain ⟨rep, b, k1, k2, k3, k4, k5⟩ := build_block_single S true false
      (sorted_features (parse_all descriptor))
      (build_block S true true (features_of_type HIDP_REPORT_TYPE.HidP_Output
        (sorted_features (parse_all descriptor)))
        (build_block S false true (features_of_type HIDP_REPORT_TYPE.HidP_Input
          (sorted_features (parse_all descriptor))) WINE_HID_REPORT.zero).wine_report).wine_report
      r hsne hall
    refine ⟨_, rep, b, rfl, ?_, k2, k3, ?_, ?_⟩
    · simp only [records_of, build_PreparseData, hself]
      exact k1
    · simp only [byte_length_of, build_PreparseData, hself]
      exact k4
    · simp only [report_count_of, build_PreparseData, hself]
      exact k5

/-- A view of the layout that ignores the stripped fields is the same for all
structure sizes. -/
theorem ParseDescriptor_view {α : Type} (g : WINE_HIDP_PREPARSED_DATA → α)
    (hg : ∀ d, g d.strip = g d) (S : Sizes) (junk : Nat → Nat) (descriptor : List Nat) :
    (ParseDescriptor S junk descriptor).map g =
      (ParseDescriptor Sizes.zero (fun _ => 0) descriptor).map g := by
  have h := congrArg (Option.map g)
    (ParseDescriptor_strip S Sizes.zero junk (fun _ => 0) descriptor)
  simp only [Option.map_map] at h
  have e : g ∘ WINE_HIDP_PREPARSED_DATA.strip = g := funext hg
  rw [e] at h
  exact h

theorem input_records_view_strip (d : WINE_HIDP_PREPARSED_DATA) :
    input_records_view d.strip = input_records_view d := by
  simp only [input_records_view, WINE_HIDP_PREPARSED_DATA.strip, List.map_map]
  rfl

theorem input_bits_view_strip (d : WINE_HIDP_PREPARSED_DATA) :
    input_bits_view d.strip = input_bits_view d := by
  simp only [input_bits_view, WINE_HIDP_PREPARSED_DATA.strip, List.map_map]
  rfl

theorem slot_lt (c : caps) (h : c.fits) (k : Nat) : c.slot k < 65536 := by
  unfold caps.slot
  rw [List.getD_eq_getElem?_getD]
  cases hk : c.u[k]? with
  | none => simp
  | some v =>
    simp only [Option.getD_some]
    exact h.2.2.2.2 v (List.getElem?_mem hk)

/-- Classification and bit count of the element written for one usage. -/
theorem build_element_classified (f : feature) (i b : Nat) (hw : f.caps.fits) :
    ((build_element f i b).1.ElementType = WINE_ELEMENT_TYPE.ButtonElement ↔
        f.caps.UsagePage = HID_USAGE_PAGE_BUTTON) ∧
    ((build_element f i b).1.ElementType = WINE_ELEMENT_TYPE.ButtonElement →
      (f.caps.IsRange = false → (build_element f i b).1.bitCount = 1) ∧
      (f.caps.IsRange = true →
        (build_element f i b).1.bitCount =
            u32 (((f.caps.slot slot_UsageMax : Int) - f.caps.slot slot_UsageMin) + 1) ∧
        (f.caps.slot slot_UsageMin ≤ f.caps.slot slot_UsageMax →
          (build_element f i b).1.bitCount =
            f.caps.slot slot_UsageMax - f.caps.slot slot_UsageMin + 1))) ∧
    ((build_element f i b).1.ElementType ≠ WINE_ELEMENT_TYPE.ButtonElement →
      (build_element f i b).1.ElementType = WINE_ELEMENT_TYPE.ValueElement ∧
      (build_element f i b).1.bitCount = f.caps.BitSize * (build_element f i b).1.ReportCount) := by
  have hmax := slot_lt f.caps hw slot_UsageMax
  obtain ⟨-, hbs, hrc, -, -⟩ := hw
  by_cases hp : f.caps.UsagePage = HID_USAGE_PAGE_BUTTON
  · by_cases hr : f.caps.IsRange = true
    · simp only [build_element, hp, hr, if_true, true_and, ne_eq, not_true_eq_false,
        false_implies, and_true, Bool.true_eq_false, forall_const, iff_true]
      intro hle
      unfold u32
      have e : ((f.caps.slot slot_UsageMax : Int) - (f.caps.slot slot_UsageMin : Int) + 1) =
          ((f.caps.slot slot_UsageMax - f.caps.slot slot_UsageMin + 1 : Nat) : Int) := by
        omega
      rw [e]
      omega
    · simp only [Bool.not_eq_true] at hr
      simp only [build_element, hp, hr, if_true, Bool.false_eq_true, if_false, true_and, ne_eq,
        not_true_eq_false, false_implies, and_true, forall_const, iff_true]
  · have hlt : ∀ n, n ≤ f.caps.ReportCount ∨ n = 1 → wrap32 (f.caps.BitSize * n) =
        f.caps.BitSize * n := by
      intro n hn
      unfold wrap32
      apply Nat.mod_eq_of_lt
      have h1 : n < 65536 := by omega
      calc f.caps.BitSize * n < 65536 * 65536 :=
            Nat.mul_lt_mul'' hbs h1
        _ = 4294967296 := by norm_num
    have hq : f.caps.ReportCount / f.caps.usage_count ≤ f.caps.ReportCount :=
      Nat.div_le_self _ _
    by_cases hr : f.caps.IsRange = true
    · simp only [build_element, hp, hr, if_false, if_true, false_iff, false_implies, true_and,
        ne_eq, not_false_eq_true, forall_const, reduceCtorEq]
      split_ifs
      · exact hlt _ (Or.inl hq)
      · exact hlt _ (Or.inr rfl)
      · exact hlt _ (Or.inl (Nat.le_refl _))
    · simp only [Bool.not_eq_true] at hr
      simp only [build_element, hp, hr, if_false, Bool.false_eq_true, false_iff, false_implies,
        true_and, ne_eq, not_false_eq_true, forall_const, reduceCtorEq]
      split_ifs
      · exact hlt _ (Or.inl hq)
      · exact hlt _ (Or.inr rfl)
      · exact hlt _ (Or.inl (Nat.le_refl _))

/-! ## Single items -/

/-- One iteration of the loop of `parse_descriptor` on an item that is neither
a long item nor a Collection or End Collection item. -/
theorem parse_descriptor_item (fuel : Nat) (descriptor : List Nat) (index length : Nat)
    (cur : colref) (st : parse_state) (h : index < length)
    (hlong : ¬ (item_type (descriptor.getD index 0 % 256) = TAG_TYPE_RESERVED ∧
      item_tag (descriptor.getD index 0 % 256) = 0x0F ∧
      item_size (descriptor.getD index 0 % 256) = 2 ∧ index + 1 + 2 < length))
    (hcol : ¬ (item_type (descriptor.getD index 0 % 256) = TAG_TYPE_MAIN ∧
      item_tag (descriptor.getD index 0 % 256) = TAG_MAIN_COLLECTION))
    (hend : ¬ (item_type (descriptor.getD index 0 % 256) = TAG_TYPE_MAIN ∧
      item_tag (descriptor.getD index 0 % 256) = TAG_MAIN_END_COLLECTION)) :
    parse_descriptor (fuel + 1) descriptor index length cur st =
      parse_descriptor fuel descriptor
        (index + 1 + item_size (descriptor.getD index 0 % 256)) length cur
        (item_effect (item_type (descriptor.getD index 0 % 256))
          (item_tag (descriptor.getD index 0 % 256))
          (item_size (descriptor.getD index 0 % 256))
          (read_item descriptor (index + 1) length (item_size (descriptor.getD index 0 % 256)))
          cur st) := by
  simp only [item_type, item_tag, item_size] at hlong hcol hend ⊢
  rw [parse_descriptor]
  simp only [h, if_true, hlong, hcol, hend, if_false]

theorem ite_preserves {α : Type} (P : α → Prop) (c : Prop) [Decidable c] (a b : α)
    (ha : P a) (hb : P b) : P (if c then a else b) := by
  split <;> assumption

theorem global_item_push (bSize : Nat) (itemVal : Int) (c : caps) (stack : List caps) :
    global_item bSize itemVal TAG_GLOBAL_PUSH c stack = (c, stack ++ [c]) := by
  simp [global_item, TAG_GLOBAL_PUSH, TAG_GLOBAL_USAGE_PAGE, TAG_GLOBAL_LOGICAL_MINIMUM,
    TAG_GLOBAL_LOGICAL_MAXIMUM, TAG_GLOBAL_PHYSICAL_MINIMUM, TAG_GLOBAL_PHYSICAL_MAXIMUM,
    TAG_GLOBAL_UNIT_EXPONENT, TAG_GLOBAL_UNIT, TAG_GLOBAL_REPORT_SIZE, TAG_GLOBAL_REPORT_ID,
    TAG_GLOBAL_REPORT_COUNT]

theorem global_item_pop_empty (bSize : Nat) (itemVal : Int) (c : caps) :
    global_item bSize itemVal TAG_GLOBAL_POP c [] = (c, []) := by
  simp [global_item, TAG_GLOBAL_POP, TAG_GLOBAL_PUSH, TAG_GLOBAL_USAGE_PAGE,
    TAG_GLOBAL_LOGICAL_MINIMUM,
    TAG_GLOBAL_LOGICAL_MAXIMUM, TAG_GLOBAL_PHYSICAL_MINIMUM, TAG_GLOBAL_PHYSICAL_MAXIMUM,
    TAG_GLOBAL_UNIT_EXPONENT, TAG_GLOBAL_UNIT, TAG_GLOBAL_REPORT_SIZE, TAG_GLOBAL_REPORT_ID,
    TAG_GLOBAL_REPORT_COUNT]

theorem global_item_pop_top (bSize : Nat) (itemVal : Int) (c top : caps) (stack : List caps) :
    global_item bSize itemVal TAG_GLOBAL_POP c (stack ++ [top]) = (top, stack) := by
  simp [global_item, TAG_GLOBAL_POP, TAG_GLOBAL_PUSH, TAG_GLOBAL_USAGE_PAGE,
    TAG_GLOBAL_LOGICAL_MINIMUM,
    TAG_GLOBAL_LOGICAL_MAXIMUM, TAG_GLOBAL_PHYSICAL_MINIMUM, TAG_GLOBAL_PHYSICAL_MAXIMUM,
    TAG_GLOBAL_UNIT_EXPONENT, TAG_GLOBAL_UNIT, TAG_GLOBAL_REPORT_SIZE, TAG_GLOBAL_REPORT_ID,
    TAG_GLOBAL_REPORT_COUNT]

/-- A Global item other than Push and Pop leaves the stack as it is. -/
theorem global_item_stack (bSize : Nat) (itemVal : Int) (bTag : Nat) (c : caps)
    (stack : List caps) (h1 : bTag ≠ TAG_GLOBAL_PUSH) (h2 : bTag ≠ TAG_GLOBAL_POP) :
    (global_item bSize itemVal bTag c stack).2 = stack := by
  unfold global_item
  simp only [h1, h2, if_false]
  iterate 10 refine ite_preserves (fun r : caps × List caps => r.2 = stack) _ _ _ rfl ?_
  rfl

theorem take_succ_set {α : Type} : ∀ (l : List α) (n : Nat) (a : α), n < l.length →
    (l.set n a).take (n + 1) = l.take n ++ [a]
  | [], _, _, h => absurd h (Nat.not_lt_zero _)
  | _ :: _, 0, _, _ => rfl
  | x :: l, n + 1, a, h => by
    simp only [List.set_cons_succ, List.take_succ_cons, List.cons_append, List.cons.injEq,
      true_and]
    exact take_succ_set l n a (Nat.lt_of_succ_lt_succ h)

/-- A Local Usage item decoded while the list is full changes nothing. -/
theorem local_usage_full (bSize : Nat) (itemVal : Int) (c : caps)
    (h : USAGE_MAX ≤ c.usage_count) : local_item bSize itemVal TAG_LOCAL_USAGE c = c := by
  simp only [local_item, if_true, ge_iff_le, h]

/-- A Local Usage item decoded while the list has room appends its value. -/
theorem local_usage_room (bSize : Nat) (itemVal : Int) (c : caps)
    (h : c.usage_count < USAGE_MAX) :
    local_item bSize itemVal TAG_LOCAL_USAGE c =
      { c.set_slot c.usage_count (getValue bSize itemVal false) with
        usage_count := c.usage_count + 1, IsRange := false } := by
  have h' : ¬ c.usage_count ≥ USAGE_MAX := by omega
  simp only [local_item, if_true, h', if_false]

theorem usage_items_full : ∀ (vals : List (Nat × Int)) (c : caps),
    USAGE_MAX ≤ c.usage_count → usage_items vals c = c
  | [], _, _ => rfl
  | p :: vals, c, h => by
    unfold usage_items
    simp only [List.foldl]
    rw [local_usage_full _ _ _ h]
    exact usage_items_full vals c h

/-- Up to ten Local Usage items from an empty list fill the first slots in
order and leave everything but the usage selector alone. -/
theorem usage_items_room (c : caps) (hc : c.usage_count = 0) (hu : c.u.length = 15) :
    ∀ vals : List (Nat × Int), vals.length ≤ USAGE_MAX →
      (usage_items vals c).usage_count = vals.length ∧
      (usage_items vals c).u.length = 15 ∧
      (usage_items vals c).u.take vals.length = vals.map usage_value ∧
      (vals ≠ [] → (usage_items vals c).IsRange = false) := by
  intro vals
  induction vals using List.reverseRecOn with
  | nil => intro _; exact ⟨hc, hu, by simp, fun h => absurd rfl h⟩
  | append_singleton vals p ih =>
    intro hlen
    simp only [List.length_append, List.length_singleton] at hlen
    obtain ⟨i1, i2, i3, -⟩ := ih (by omega)
    have hroom : (usage_items vals c).usage_count < USAGE_MAX := by omega
    have e : usage_items (vals ++ [p]) c =
        local_item p.1 p.2 TAG_LOCAL_USAGE (usage_items vals c) := by
      simp [usage_items, List.foldl_append]
    rw [e, local_usage_room _ _ _ hroom]
    simp only [caps.set_slot, List.length_set, List.length_append, List.length_singleton, i1,
      i2, List.map_append, List.map_cons, List.map_nil, true_and]
    refine ⟨?_, fun _ => trivial⟩
    rw [take_succ_set _ _ _ (by unfold USAGE_MAX at hroom; omega), i3]
    rfl

/-! ## The root collection -/

/-- A property of the current collection and the state that every item keeps
is kept by `parse_descriptor`. -/
theorem parse_descriptor_preserves_at (P : colref → parse_state → Prop)
    (h_item : ∀ bType bTag bSize itemVal cur st, P cur st →
      P cur (item_effect bType bTag bSize itemVal cur st))
    (h_col : ∀ bSize itemVal cur st, P cur st →
      P (colref.sub st.collection_index) (main_collection_item bSize itemVal cur st))
    (h_ret : ∀ cur k st, P (colref.sub k) st → P cur st) :
    ∀ (fuel : Nat) (descriptor : List Nat) (index length : Nat) (cur : colref)
      (st : parse_state), P cur st →
      P cur (parse_descriptor fuel descriptor index length cur st).2 := by
  intro fuel
  induction fuel with
  | zero => intro d i len cur st h; exact h
  | succ n ih =>
    intro d i len cur st h
    simp only [parse_descriptor]
    split_ifs <;>
      first
      | exact h
      | exact ih _ _ _ _ _ h
      | exact ih _ _ _ _ _ (h_ret _ _ _ (ih _ _ _ _ _ (h_col _ _ _ _ h)))
      | exact ih _ _ _ _ _ (h_item _ _ _ _ _ _ h)

theorem item_effect_collections (bType bTag bSize : Nat) (itemVal : Int) (cur : colref)
    (st : parse_state) :
    (item_effect bType bTag bSize itemVal cur st).base = st.base ∧
      (item_effect bType bTag bSize itemVal cur st).collections = st.collections ∧
      (item_effect bType bTag bSize itemVal cur st).collection_index = st.collection_index := by
  unfold item_effect
  split_ifs <;> exact ⟨rfl, rfl, rfl⟩

theorem item_effect_base_linked_at (bType bTag bSize : Nat) (itemVal : Int) (cur : colref)
    (st : parse_state) (h : base_linked_at cur st) :
    base_linked_at cur (item_effect bType bTag bSize itemVal cur st) := by
  obtain ⟨e1, e2, e3⟩ := item_effect_collections bType bTag bSize itemVal cur st
  unfold base_linked_at base_linked at h ⊢
  rw [e1, e2, e3]
  exact h

theorem main_collection_item_base_linked_at (bSize : Nat) (itemVal : Int) (cur : colref)
    (st : parse_state) (h : base_linked_at cur st) :
    base_linked_at (colref.sub st.collection_index)
      (main_collection_item bSize itemVal cur st) := by
  obtain ⟨⟨h1, h2⟩, h3⟩ := h
  have hcaps : ∀ c : collection, (parse_collection bSize itemVal c).caps = c.caps := by
    intro c
    unfold parse_collection
    split <;> rfl
  by_cases h0 : st.collection_index = 0
  · have hnil : st.collections = [] := List.length_eq_zero.1 (h0 ▸ h1.symm)
    have hcur : cur = colref.base := by
      rcases h3 with h3 | h3
      · exact h3
      · exact absurd h0 h3
    subst hcur
    refine ⟨⟨?_, ?_⟩, Or.inr ?_⟩
    · simp [main_collection_item, set_collection_caps, h0, hnil]
    · simp [main_collection_item, set_collection_caps, h0, hnil, hcaps]
    · simp [main_collection_item, h0]
  · refine ⟨⟨?_, ?_⟩, Or.inr ?_⟩
    · simp only [main_collection_item, h0, if_false]
      simp only [List.length_append, List.length_singleton, h1]
    · cases hc : st.collections with
      | nil =>
        rw [hc] at h1
        exact absurd h1 h0
      | cons c rest =>
        rw [hc] at h2
        simp only [main_collection_item, h0, if_false, hc, List.cons_append]
        exact h2
    · simp [main_collection_item]

theorem parse_all_base_linked (descriptor : List Nat) : base_linked (parse_all descriptor) :=
  (parse_descriptor_preserves_at base_linked_at item_effect_base_linked_at
    main_collection_item_base_linked_at
    (fun cur k st h => ⟨h.1, Or.inr (by
      rcases h.2 with h2 | h2
      · exact absurd h2 (by simp)
      · exact h2)⟩)
    _ _ _ _ colref.base parse_state.init ⟨⟨rfl, rfl⟩, Or.inl rfl⟩).1

theorem input_buttons_view_strip (d : WINE_HIDP_PREPARSED_DATA) :
    input_buttons_view d.strip = input_buttons_view d := by
  simp only [input_buttons_view, WINE_HIDP_PREPARSED_DATA.strip, List.map_map]
  rfl

/-! ## Records of a block -/

theorem consecutive_append : ∀ (rs rs' : List WINE_HID_REPORT) (b b' b'' : Nat),
    consecutive b rs b' → consecutive b' rs' b'' → consecutive b (rs ++ rs') b''
  | [], _, _, _, _, h, h' => by
    simp only [consecutive] at h
    subst h
    exact h'
  | r :: rs, rs', b, b', b'', h, h' =>
    ⟨h.1, consecutive_append rs rs' _ _ _ h.2 h'⟩

theorem consecutive_total : ∀ (rs : List WINE_HID_REPORT) (b b' : Nat),
    consecutive b rs b' → b' = b + total_size rs
  | [], b, b', h => by
    simp only [consecutive] at h
    simp [h, total_size]
  | r :: rs, b, b', h => by
    have := consecutive_total rs _ _ h.2
    simp only [total_size, List.map_cons, List.sum_cons] at this ⊢
    omega

/-- The loop of `build_elements` touches the elements and their count only,
and what it appends does not depend on the record. -/
theorem build_elements_loop_frame (f : feature) :
    ∀ (is : List Nat) (r : WINE_HID_REPORT) (off : Nat),
      (build_elements_loop f is (r, off)).1.offset = r.offset ∧
      (build_elements_loop f is (r, off)).1.dwSize = r.dwSize ∧
      (build_elements_loop f is (r, off)).1.reportID = r.reportID ∧
      (build_elements_loop f is (r, off)).1.Elements =
        r.Elements ++ (build_elements_loop f is (WINE_HID_REPORT.zero, off)).1.Elements
  | [], r, off => ⟨rfl, rfl, rfl, by simp [build_elements_loop, WINE_HID_REPORT.zero]⟩
  | i :: is, r, off => by
    obtain ⟨a1, a2, a3, a4⟩ := build_elements_loop_frame f is
      { r with Elements := r.Elements ++ [(build_element f i off).1]
               elementCount := r.elementCount + 1 } (build_element f i off).2
    obtain ⟨-, -, -, b4⟩ := build_elements_loop_frame f is
      { WINE_HID_REPORT.zero with
        Elements := WINE_HID_REPORT.zero.Elements ++ [(build_element f i off).1]
        elementCount := WINE_HID_REPORT.zero.elementCount + 1 } (build_element f i off).2
    simp only [build_elements_loop]
    refine ⟨a1, a2, a3, ?_⟩
    rw [a4, b4]
    simp [WINE_HID_REPORT.zero]

theorem build_elements_frame (r : WINE_HID_REPORT) (f : feature) (off : Nat) :
    (build_elements r f off).1.offset = r.offset ∧
      (build_elements r f off).1.dwSize = r.dwSize ∧
      (build_elements r f off).1.reportID = r.reportID ∧
      (build_elements r f off).1.Elements =
        r.Elements ++ (build_elements WINE_HID_REPORT.zero f off).1.Elements := by
  unfold build_elements
  split
  · exact ⟨rfl, rfl, rfl, by simp [WINE_HID_REPORT.zero]⟩
  · exact build_elements_loop_frame f _ r off

theorem block_step_offsets (S : Sizes) (s : block_state) (f : feature) (b e : Nat)
    (h1 : consecutive b s.done e) (h2 : s.wine_report.offset = e)
    (h3 : s.wine_report.dwSize = S.report - S.element) :
    ∃ e', consecutive b (block_step S s f).done e' ∧
      (block_step S s f).wine_report.offset = e' ∧
      (block_step S s f).wine_report.dwSize = S.report - S.element := by
  unfold block_step
  by_cases hid : f.caps.ReportID ≠ s.wine_report.reportID
  · simp only [hid, ne_eq, not_false_eq_true, if_true]
    refine ⟨(close_report S s.wine_report).offset + (close_report S s.wine_report).dwSize,
      ?_, ?_, ?_⟩
    · refine consecutive_append _ _ _ _ _ h1 ⟨h2, ?_⟩
      show _ = _
      rw [← h2]
      rfl
    · rw [(build_elements_frame _ _ _).1]
      rfl
    · rw [(build_elements_frame _ _ _).2.1]
      rfl
  · simp only [hid, if_false]
    refine ⟨e, h1, ?_, ?_⟩
    · rw [(build_elements_frame _ _ _).1]
      exact h2
    · rw [(build_elements_frame _ _ _).2.1]
      exact h3

theorem foldl_block_step_offsets (S : Sizes) (b : Nat) :
    ∀ (fs : List feature) (s : block_state) (e : Nat),
      consecutive b s.done e → s.wine_report.offset = e →
      s.wine_report.dwSize = S.report - S.element →
      ∃ e', consecutive b (fs.foldl (block_step S) s).done e' ∧
        (fs.foldl (block_step S) s).wine_report.offset = e'
  | [], _, e, h1, h2, _ => ⟨e, h1, h2⟩
  | f :: fs, s, e, h1, h2, h3 => by
    obtain ⟨e', k1, k2, k3⟩ := block_step_offsets S s f b e h1 h2 h3
    exact foldl_block_step_offsets S b fs _ e' k1 k2 k3

/-- The records of a block lie one behind the other, from the end of the record
`wine_report` pointed at before the block to the end of the record it points
at afterwards. -/
theorem build_block_offsets (S : Sizes) (a c : Bool) (fs : List feature)
    (prev : WINE_HID_REPORT) (ha : a = true ∨ prev.dwSize = 0) :
    consecutive (record_end prev) (build_block S a c fs prev).records
        (record_end (build_block S a c fs prev).wine_report) ∧
      (fs ≠ [] → (build_block S a c fs prev).start = wrap32 (record_end prev)) ∧
      (fs = [] ↔ (build_block S a c fs prev).records = []) := by
  cases fs with
  | nil => exact ⟨rfl, fun h => absurd rfl h, by simp [build_block]⟩
  | cons f0 rest =>
    have hstart : (if a then prev.offset + prev.dwSize else prev.offset) = record_end prev := by
      unfold record_end
      rcases ha with ha | ha
      · simp [ha]
      · cases a <;> simp [ha]
    obtain ⟨s', hs'⟩ : ∃ s', s' = List.foldl (block_step S)
        { done := [], wine_report := new_report S
            (if a then prev.offset + prev.dwSize else prev.offset) f0,
          bitOffset := 8, bitLength := 0, report_count := 1, buttons := 0, values := 0 }
        (f0 :: rest) := ⟨_, rfl⟩
    obtain ⟨e', k1, k2⟩ := foldl_block_step_offsets S (record_end prev) (f0 :: rest)
      { done := [], wine_report := new_report S
          (if a then prev.offset + prev.dwSize else prev.offset) f0,
        bitOffset := 8, bitLength := 0, report_count := 1, buttons := 0, values := 0 }
      (record_end prev) rfl hstart rfl
    rw [← hs'] at k1 k2
    simp only [build_block, ← hs']
    refine ⟨?_, fun _ => by rw [hstart], by simp⟩
    refine consecutive_append _ _ _ _ _ k1 ⟨?_, ?_⟩
    · cases c
      · exact k2
      · exact k2
    · show _ = _
      cases c
      · simp only [record_end, Bool.false_eq_true, if_false, k2]
      · simp only [record_end, if_true, close_report, k2]

/-- The offsets recorded in the header and the placing of all records. -/
theorem build_PreparseData_offsets (S : Sizes) (junk : Nat → Nat)
    (fs i o f : List feature) (base : collection) :
    (o ≠ [] → (build_PreparseData S junk fs i o f base).dwOutputReportOffset =
      wrap32 (total_size (build_PreparseData S junk fs i o f base).input_records)) ∧
    (f ≠ [] → (build_PreparseData S junk fs i o f base).dwFeatureReportOffset =
      wrap32 (total_size (build_PreparseData S junk fs i o f base).input_records +
        total_size (build_PreparseData S junk fs i o f base).output_records)) ∧
    ∃ e, consecutive 0
      ((build_PreparseData S junk fs i o f base).input_records ++
        (build_PreparseData S junk fs i o f base).output_records ++
        (build_PreparseData S junk fs i o f base).feature_records) e := by
  obtain ⟨i1, -, -⟩ := build_block_offsets S false true i WINE_HID_REPORT.zero (Or.inr rfl)
  obtain ⟨o1, o2, -⟩ := build_block_offsets S true true o
    (build_block S false true i WINE_HID_REPORT.zero).wine_report (Or.inl rfl)
  obtain ⟨f1, f2, -⟩ := build_block_offsets S true false f
    (build_block S true true o
      (build_block S false true i WINE_HID_REPORT.zero).wine_report).wine_report (Or.inl rfl)
  have hi := consecutive_total _ _ _ i1
  have ho := consecutive_total _ _ _ o1
  have hz : record_end WINE_HID_REPORT.zero = 0 := rfl
  rw [hz] at hi i1
  simp only [build_PreparseData]
  refine ⟨fun h => ?_, fun h => ?_, _, consecutive_append _ _ _ _ _
    (consecutive_append _ _ _ _ _ i1 o1) f1⟩
  · rw [o2 h, hi, Nat.zero_add]
  · rw [f2 h, ho, hi, Nat.zero_add]

/-- A layout that is returned is the one `build_PreparseData` builds from the
sorted features. -/
theorem ParseDescriptor_some (S : Sizes) (junk : Nat → Nat) (descriptor : List Nat)
    (d : WINE_HIDP_PREPARSED_DATA) (h : ParseDescriptor S junk descriptor = some d) :
    (parse_all descriptor).feature_index ≠ 0 ∧
    d = build_PreparseData S junk (sorted_features (parse_all descriptor))
      (features_of_type HIDP_REPORT_TYPE.HidP_Input (sorted_features (parse_all descriptor)))
      (features_of_type HIDP_REPORT_TYPE.HidP_Output (sorted_features (parse_all descriptor)))
      (features_of_type HIDP_REPORT_TYPE.HidP_Feature (sorted_features (parse_all descriptor)))
      (parse_all descriptor).base := by
  unfold ParseDescriptor at h
  by_cases hp : (parse_all descriptor).feature_index ≠ 0
  · simp only [hp, ne_eq, not_false_eq_true, if_true, Option.some.injEq] at h
    exact ⟨hp, h.symm⟩
  · simp only [hp, if_false] at h
    exact absurd h (by simp)

/-- A block over two features with different report identifiers writes two
records, each with the elements of its feature. -/
theorem build_block_two (S : Sizes) (a c : Bool) (g1 g2 : feature) (prev : WINE_HID_REPORT)
    (hne : g1.caps.ReportID ≠ g2.caps.ReportID) :
    ∃ r1 r2 : WINE_HID_REPORT,
      (build_block S a c [g1, g2] prev).records = [r1, r2] ∧
      (build_block S a c [g1, g2] prev).report_count = 2 ∧
      r1.reportID = g1.caps.ReportID ∧ r2.reportID = g2.caps.ReportID ∧
      r1.Elements = elements_of g1 ∧ r2.Elements = elements_of g2 := by
  have e1 : block_step S
      { done := [], wine_report := new_report S
          (if a then prev.offset + prev.dwSize else prev.offset) g1,
        bitOffset := 8, bitLength := 0, report_count := 1, buttons := 0, values := 0 } g1 =
      { done := [],
        wine_report := (build_elements (new_report S
          (if a then prev.offset + prev.dwSize else prev.offset) g1) g1 8).1,
        bitOffset := (build_elements (new_report S
          (if a then prev.offset + prev.dwSize else prev.offset) g1) g1 8).2,
        bitLength := 0, report_count := 1,
        buttons := (count_elements g1 0 0).1, values := (count_elements g1 0 0).2 } := by
    simp only [block_step, new_report, ne_eq, not_true_eq_false, if_false]
  obtain ⟨-, -, f3, f4⟩ := build_elements_frame (new_report S
    (if a then prev.offset + prev.dwSize else prev.offset) g1) g1 8
  have hcond : g2.caps.ReportID ≠ (build_elements (new_report S
      (if a then prev.offset + prev.dwSize else prev.offset) g1) g1 8).1.reportID := by
    rw [f3]
    exact fun e => hne e.symm
  simp only [build_block, List.foldl, e1]
  simp only [block_step, hcond, ne_eq, not_false_eq_true, if_true]
  refine ⟨_, _, rfl, rfl, ?_, ?_, ?_, ?_⟩
  · show (close_report S _).reportID = _
    exact f3
  · cases c
    · exact (build_elements_frame _ _ _).2.2.1
    · exact (build_elements_frame _ _ _).2.2.1
  · show (close_report S _).Elements = _
    exact f4
  · cases c
    · exact (build_elements_frame _ _ _).2.2.2
    · exact (build_elements_frame _ _ _).2.2.2

/-- The sorted array of two features is one of the two orders. -/
theorem sorted_features_two (st : parse_state) (f1 f2 : feature)
    (hfs : st.features = [f1, f2]) (hidx : st.feature_index = 2) :
    sorted_features st = [f1, f2] ∨ sorted_features st = [f2, f1] := by
  unfold sorted_features
  simp only [hfs, hidx, List.take_succ_cons, List.take_zero]
  split_ifs
  · simp only [qsort, List.insertionSort, List.orderedInsert]
    split_ifs
    · exact Or.inl rfl
    · exact Or.inr rfl
  · exact Or.inl rfl

/-! ## The bit cursor of a block -/

theorem foldl_max_init : ∀ (l : List Nat) (a : Nat), l.foldl max a = max a (l.foldl max 0)
  | [], a => by simp
  | x :: l, a => by
    simp only [List.foldl]
    rw [foldl_max_init l (max a x), foldl_max_init l (max 0 x)]
    omega

theorem le_foldl_max (l : List Nat) : ∀ x ∈ l, x ≤ l.foldl max 0 := by
  induction l with
  | nil => intro x hx; exact absurd hx (List.not_mem_nil _)
  | cons y l ih =>
    intro x hx
    simp only [List.foldl]
    rw [foldl_max_init]
    rcases List.mem_cons.1 hx with rfl | hx
    · omega
    · have := ih x hx
      omega

theorem final_cursors_from_ge : ∀ (fs : List feature) (id c : Nat),
    ∃ x ∈ final_cursors_from fs id c, c ≤ x
  | [], _, c => ⟨c, by simp [final_cursors_from], Nat.le_refl _⟩
  | f :: fs, id, c => by
    unfold final_cursors_from
    split_ifs
    · exact ⟨c, List.mem_cons_self _ _, Nat.le_refl _⟩
    · obtain ⟨x, hx, hle⟩ := final_cursors_from_ge fs id (c + feature_bits f)
      exact ⟨x, hx, by omega⟩

theorem build_element_bitCount (f : feature) (i b : Nat) :
    (build_element f i b).1.bitCount = (build_element f i 0).1.bitCount := by
  unfold build_element
  simp only []
  split_ifs <;> rfl

theorem build_elements_loop_bits (f : feature) :
    ∀ (is : List Nat) (r : WINE_HID_REPORT) (off : Nat),
      total_bits (build_elements_loop f is (r, off)).1.Elements =
        total_bits r.Elements + (is.map fun i => (build_element f i 0).1.bitCount).sum
  | [], r, off => by simp [build_elements_loop]
  | i :: is, r, off => by
    simp only [build_elements_loop, List.map_cons, List.sum_cons]
    rw [build_elements_loop_bits f is]
    simp only [total_bits, List.map_append, List.sum_append, List.map_cons, List.map_nil,
      List.sum_cons, List.sum_nil]
    rw [build_element_bitCount f i off]
    omega

/-- The bits of the elements a data feature gets do not depend on the record or
on the cursor. -/
theorem build_elements_bits (r : WINE_HID_REPORT) (f : feature) (off : Nat)
    (hd : f.isData = true) :
    total_bits (build_elements r f off).1.Elements = total_bits r.Elements + feature_bits f := by
  have e : ∀ (r : WINE_HID_REPORT) (off : Nat),
      total_bits (build_elements r f off).1.Elements = total_bits r.Elements +
        ((List.range f.caps.usage_count).map fun i => (build_element f i 0).1.bitCount).sum := by
    intro r off
    simp only [build_elements, hd, Bool.not_true, Bool.false_eq_true, if_false]
    exact build_elements_loop_bits f _ r off
  rw [e r off]
  simp only [feature_bits, hd, if_true, elements_of]
  rw [e WINE_HID_REPORT.zero 8]
  simp [total_bits, WINE_HID_REPORT.zero]

/-- While the 32-bit cursor does not overflow, `build_elements` advances it by
the bits of the feature. -/
theorem build_elements_cursor (r : WINE_HID_REPORT) (f : feature) (off : Nat)
    (h : off + feature_bits f < 4294967296) :
    (build_elements r f off).2 = off + feature_bits f := by
  by_cases hd : f.isData = true
  · obtain ⟨new, h1, -, h3, -⟩ := build_elements_spec r f off hd
    have hb := build_elements_bits r f off hd
    rw [h1] at hb
    simp only [total_bits, List.map_append, List.sum_append] at hb
    have hnew : total_bits new = feature_bits f := by
      simp only [total_bits]
      omega
    obtain ⟨k, -⟩ := chained_exact new off _ h3 (by rw [hnew]; exact h)
    rw [k, hnew]
  · simp only [Bool.not_eq_true] at hd
    simp only [feature_bits, hd, Bool.false_eq_true, if_false] at h ⊢
    simp only [build_elements, hd, Bool.not_false, if_true, wrap32]
    exact Nat.mod_eq_of_lt h

theorem block_step_reportID (S : Sizes) (s : block_state) (f : feature) :
    (block_step S s f).wine_report.reportID = f.caps.ReportID := by
  unfold block_step
  by_cases hid : f.caps.ReportID ≠ s.wine_report.reportID
  · simp only [hid, ne_eq, not_false_eq_true, if_true]
    rw [(build_elements_frame _ _ _).2.2.1]
    rfl
  · simp only [hid, if_false]
    rw [(build_elements_frame _ _ _).2.2.1]
    exact (not_not.1 hid).symm

/-- While no cursor overflows, the largest cursor the loop of a block has seen
is the largest of the final cursors of the specification. -/
theorem foldl_block_step_cursor (S : Sizes) :
    ∀ (fs : List feature) (s : block_state),
      (∀ x ∈ final_cursors_from fs s.wine_report.reportID s.bitOffset, x < 4294967296) →
      max (fs.foldl (block_step S) s).bitOffset (fs.foldl (block_step S) s).bitLength =
        max s.bitLength
          ((final_cursors_from fs s.wine_report.reportID s.bitOffset).foldl max 0)
  | [], s, _ => by
    simp only [List.foldl, final_cursors_from]
    omega
  | f :: fs, s, h => by
    have hrid := block_step_reportID S s f
    by_cases hid : f.caps.ReportID ≠ s.wine_report.reportID
    · have hl : final_cursors_from (f :: fs) s.wine_report.reportID s.bitOffset =
          s.bitOffset :: final_cursors_from fs f.caps.ReportID (8 + feature_bits f) := by
        rw [final_cursors_from]
        simp only [hid, ne_eq, not_false_eq_true, if_true]
      rw [hl] at h ⊢
      obtain ⟨x, hx, hle⟩ := final_cursors_from_ge fs f.caps.ReportID (8 + feature_bits f)
      have hlt : 8 + feature_bits f < 4294967296 :=
        Nat.lt_of_le_of_lt hle (h x (List.mem_cons_of_mem _ hx))
      have hoff : (block_step S s f).bitOffset = 8 + feature_bits f := by
        simp only [block_step, hid, ne_eq, not_false_eq_true, if_true]
        exact build_elements_cursor _ _ _ hlt
      have hlen : (block_step S s f).bitLength = max s.bitOffset s.bitLength := by
        simp only [block_step, hid, ne_eq, not_false_eq_true, if_true]
      have ih := foldl_block_step_cursor S fs (block_step S s f) (by
        rw [hrid, hoff]
        exact fun y hy => h y (List.mem_cons_of_mem _ hy))
      rw [hrid, hoff, hlen] at ih
      simp only [List.foldl]
      rw [ih, foldl_max_init _ (max 0 s.bitOffset)]
      omega
    · have hid' : f.caps.ReportID = s.wine_report.reportID := not_not.1 hid
      have hl : final_cursors_from (f :: fs) s.wine_report.reportID s.bitOffset =
          final_cursors_from fs s.wine_report.reportID (s.bitOffset + feature_bits f) := by
        rw [final_cursors_from]
        simp only [hid, if_false]
      rw [hl] at h ⊢
      obtain ⟨x, hx, hle⟩ :=
        final_cursors_from_ge fs s.wine_report.reportID (s.bitOffset + feature_bits f)
      have hlt : s.bitOffset + feature_bits f < 4294967296 :=
        Nat.lt_of_le_of_lt hle (h x hx)
      have hoff : (block_step S s f).bitOffset = s.bitOffset + feature_bits f := by
        simp only [block_step, hid, if_false]
        exact build_elements_cursor _ _ _ hlt
      have hlen : (block_step S s f).bitLength = s.bitLength := by
        simp only [block_step, hid, if_false]
      have ih := foldl_block_step_cursor S fs (block_step S s f) (by
        rw [hrid, hoff, hid']
        exact h)
      rw [hrid, hoff, hlen, hid'] at ih
      simp only [List.foldl]
      exact ih

/-- The byte length a block records, while no cursor overflows. -/
theorem build_block_byte_length (S : Sizes) (a c : Bool) (fs : List feature)
    (prev : WINE_HID_REPORT) (h : ∀ x ∈ final_cursors fs, x < 4294967296) :
    (build_block S a c fs prev).ByteLength =
      wrap32 (max_cursor fs + 7) / 8 * 8 / 8 % 65536 := by
  cases fs with
  | nil => rfl
  | cons f0 rest =>
    have key := foldl_block_step_cursor S (f0 :: rest)
      { done := [], wine_report := new_report S
          (if a then prev.offset + prev.dwSize else prev.offset) f0,
        bitOffset := 8, bitLength := 0, report_count := 1, buttons := 0, values := 0 } h
    simp only [build_block]
    rw [key]
    simp only [max_cursor, final_cursors, new_report, Nat.zero_max]

theorem byte_length_of_build (S : Sizes) (junk : Nat → Nat) (fs i o f : List feature)
    (base : collection) (t : HIDP_REPORT_TYPE) :
    ∃ (a c : Bool) (prev : WINE_HID_REPORT),
      byte_length_of t (build_PreparseData S junk fs i o f base) =
        (build_block S a c
          (match t with
            | HIDP_REPORT_TYPE.HidP_Input => i
            | HIDP_REPORT_TYPE.HidP_Output => o
            | HIDP_REPORT_TYPE.HidP_Feature => f) prev).ByteLength := by
  cases t
  · exact ⟨_, _, _, rfl⟩
  · exact ⟨_, _, _, rfl⟩
  · exact ⟨_, _, _, rfl⟩

/-- The byte length a block records: 0 without features, and while the largest
cursor is at most 524280 the cursor rounded up to whole bytes, at least 1 when
there is a feature. -/
theorem build_block_byte_length_small (S : Sizes) (a c : Bool) (fs : List feature)
    (prev : WINE_HID_REPORT) :
    (fs = [] → (build_block S a c fs prev).ByteLength = 0) ∧
    (max_cursor fs ≤ 524280 →
      (build_block S a c fs prev).ByteLength = (max_cursor fs + 7) / 8 ∧
      (fs ≠ [] → 1 ≤ (build_block S a c fs prev).ByteLength)) := by
  constructor
  · rintro rfl
    rfl
  · intro hm
    have hlt : ∀ x ∈ final_cursors fs, x < 4294967296 := fun x hx =>
      Nat.lt_of_le_of_lt (le_foldl_max _ x hx)
        (Nat.lt_of_le_of_lt (show (final_cursors fs).foldl max 0 ≤ 524280 from hm)
          (by decide))
    have e := build_block_byte_length S a c fs prev hlt
    have e2 : (build_block S a c fs prev).ByteLength = (max_cursor fs + 7) / 8 := by
      rw [e]
      simp only [wrap32]
      omega
    refine ⟨e2, fun hne => ?_⟩
    rw [e2]
    cases fs with
    | nil => exact absurd rfl hne
    | cons f0 rest =>
      obtain ⟨x, hx, hle⟩ := final_cursors_from_ge (f0 :: rest) f0.caps.ReportID 8
      have := le_foldl_max _ x hx
      have hmc : 8 ≤ max_cursor (f0 :: rest) := Nat.le_trans hle this
      omega

/-! ## Items in a buffer -/

theorem getD_append_add (pre l : List Nat) (j : Nat) :
    (pre ++ l).getD (pre.length + j) 0 = l.getD j 0 := by
  simp [List.getD_eq_getElem?_getD, List.getElem?_append_right]

theorem getD_append_lt (l post : List Nat) (j : Nat) (h : j < l.length) :
    (l ++ post).getD j 0 = l.getD j 0 := by
  simp [List.getD_eq_getElem?_getD, List.getElem?_append_left h]

/-- The payload loop reads the value of a complete item that lies within
`length`. -/
theorem read_item_at (pre post : List Nat) (it : raw_item) (length : Nat)
    (h : pre.length + 1 + it.payload.length ≤ length) :
    read_item (pre ++ (it.bytes ++ post)) (pre.length + 1) length it.payload.length =
      it.value := by
  unfold read_item raw_item.value
  congr 2
  apply List.map_congr_left
  intro j hj
  have hj' : j < it.payload.length := List.mem_range.1 hj
  have c1 : pre.length + 1 + j < length := by omega
  have c2 : 0 + j < it.payload.length := by omega
  simp only [c1, c2, if_true]
  have e : (pre ++ (it.bytes ++ post)).getD (pre.length + 1 + j) 0 =
      it.payload.getD (0 + j) 0 := by
    rw [Nat.add_assoc, getD_append_add]
    show (it.b0 :: (it.payload ++ post)).getD (1 + j) 0 = _
    rw [Nat.add_comm 1 j, List.getD_cons_succ, getD_append_lt _ _ _ hj', Nat.zero_add]
  rw [e]

theorem parse_descriptor_end (fuel : Nat) (descriptor : List Nat) (index length : Nat)
    (cur : colref) (st : parse_state) (h : ¬ index < length) :
    parse_descriptor fuel descriptor index length cur st = (index, st) := by
  cases fuel with
  | zero => rfl
  | succ n =>
    rw [parse_descriptor]
    simp only [h, if_false]

/-- The loop of `parse_descriptor` runs through a sequence of complete Global,
Local and Input items that lies within `length`. -/
theorem parse_descriptor_run (post : List Nat) (length : Nat) (cur : colref) :
    ∀ (its : List raw_item) (pre : List Nat) (fuel : Nat) (st : parse_state),
      (∀ it ∈ its, it.complete ∧ it.flat) →
      pre.length + (items_bytes its).length ≤ length → length - pre.length ≤ fuel →
      parse_descriptor fuel (pre ++ (items_bytes its ++ post)) pre.length length cur st =
        parse_descriptor fuel (pre ++ (items_bytes its ++ post))
          (pre.length + (items_bytes its).length) length cur (run_items its cur st)
  | [], pre, fuel, st, _, _, _ => by
    simp [items_bytes, run_items]
  | it :: its, pre, fuel, st, h, hlen, hfuel => by
    obtain ⟨⟨hb, hsz⟩, hflat⟩ := h it (List.mem_cons_self _ _)
    have hbytes : items_bytes (it :: its) = it.bytes ++ items_bytes its := by
      simp [items_bytes]
    have hblen : it.bytes.length = 1 + it.payload.length := by
      simp [raw_item.bytes, Nat.add_comm]
    rw [hbytes, List.length_append, hblen] at hlen
    have hidx : pre.length < length := by omega
    obtain ⟨n, rfl⟩ : ∃ n, fuel = n + 1 := ⟨fuel - 1, by omega⟩
    have hbuf : pre ++ (items_bytes (it :: its) ++ post) =
        pre ++ (it.bytes ++ (items_bytes its ++ post)) := by
      rw [hbytes, List.append_assoc]
    have hget : (pre ++ (items_bytes (it :: its) ++ post)).getD pre.length 0 % 256 = it.b0 := by
      rw [hbuf]
      have := getD_append_add pre (it.bytes ++ (items_bytes its ++ post)) 0
      rw [Nat.add_zero] at this
      rw [this]
      show it.b0 % 256 = it.b0
      exact Nat.mod_eq_of_lt hb
    have hnres : item_type it.b0 ≠ TAG_TYPE_RESERVED := by
      rcases hflat with h | h | ⟨h, -⟩ <;> rw [h] <;> decide
    have hncol : ¬ (item_type it.b0 = TAG_TYPE_MAIN ∧ item_tag it.b0 = TAG_MAIN_COLLECTION) := by
      rcases hflat with h | h | ⟨-, h⟩
      · rw [h]; exact fun k => absurd k.1 (by decide)
      · rw [h]; exact fun k => absurd k.1 (by decide)
      · rw [h]; exact fun k => absurd k.2 (by decide)
    have hnend : ¬ (item_type it.b0 = TAG_TYPE_MAIN ∧
        item_tag it.b0 = TAG_MAIN_END_COLLECTION) := by
      rcases hflat with h | h | ⟨-, h⟩
      · rw [h]; exact fun k => absurd k.1 (by decide)
      · rw [h]; exact fun k => absurd k.1 (by decide)
      · rw [h]; exact fun k => absurd k.2 (by decide)
    rw [parse_descriptor_item n _ pre.length length cur st hidx
      (by rw [hget]; exact fun k => hnres k.1) (by rw [hget]; exact hncol)
      (by rw [hget]; exact hnend)]
    rw [hget]
    have hread : read_item (pre ++ (items_bytes (it :: its) ++ post)) (pre.length + 1) length
        (item_size it.b0) = it.value := by
      rw [hbuf, ← hsz]
      exact read_item_at pre _ it length (by omega)
    rw [hread, parse_descriptor_fuel n (n + 1) _ _ _ _ _ (by omega) (by omega)]
    have ih := parse_descriptor_run post length cur its (pre ++ it.bytes) (n + 1)
      (it.effect cur st) (fun x hx => h x (List.mem_cons_of_mem _ hx))
      (by rw [List.length_append, hblen]; omega)
      (by rw [List.length_append, hblen]; omega)
    rw [List.append_assoc] at ih
    rw [hbuf]
    have e1 : pre.length + 1 + item_size it.b0 = (pre ++ it.bytes).length := by
      rw [List.length_append, hblen, hsz]
      omega
    have e2 : pre.length + (it.bytes ++ items_bytes its).length =
        (pre ++ it.bytes).length + (items_bytes its).length := by
      simp only [List.length_append]
      omega
    rw [e1, hbytes, e2]
    exact ih

theorem parse_descriptor_collection_item (fuel : Nat) (descriptor : List Nat)
    (index length : Nat) (cur : colref) (st : parse_state) (h : index < length)
    (hb : descriptor.getD index 0 % 256 = 0xA1) :
    parse_descriptor (fuel + 1) descriptor index length cur st =
      parse_descriptor fuel descriptor
        (parse_descriptor fuel descriptor (index + 1 + 1) length
          (colref.sub st.collection_index)
          (main_collection_item 1 (read_item descriptor (index + 1) length 1) cur st)).1
        length cur
        (parse_descriptor fuel descriptor (index + 1 + 1) length
          (colref.sub st.collection_index)
          (main_collection_item 1 (read_item descriptor (index + 1) length 1) cur st)).2 := by
  rw [parse_descriptor]
  simp only [h, if_true, hb]
  simp [TAG_TYPE_RESERVED, TAG_TYPE_MAIN, TAG_MAIN_COLLECTION]

theorem parse_descriptor_end_collection_item (fuel : Nat) (descriptor : List Nat)
    (index length : Nat) (cur : colref) (st : parse_state) (h : index < length)
    (hb : descriptor.getD index 0 % 256 = 0xC0) :
    parse_descriptor (fuel + 1) descriptor index length cur st = (index + 1, st) := by
  rw [parse_descriptor]
  simp only [h, if_true, hb]
  simp [TAG_TYPE_RESERVED, TAG_TYPE_MAIN, TAG_MAIN_COLLECTION, TAG_MAIN_END_COLLECTION]

/-- A buffer that opens a Collection with a 1-byte payload and goes on with
complete Global, Local and Input items up to its end, or up to a closing End
Collection item at its end, is parsed into the effects of these items on the
state the Collection item leaves. -/
theorem parse_all_open_collection (c : Nat) (its : List raw_item) (post : List Nat)
    (h : ∀ it ∈ its, it.complete ∧ it.flat) (hpost : post = [] ∨ post = [0xC0]) :
    parse_all ([0xA1, c] ++ (items_bytes its ++ post)) =
      run_items its (colref.sub 0)
        (main_collection_item 1 (raw_item.value ⟨0xA1, [c]⟩) colref.base parse_state.init) := by
  obtain ⟨n, hn⟩ : ∃ n, ([0xA1, c] ++ (items_bytes its ++ post)).length = n + 1 :=
    ⟨(items_bytes its ++ post).length + 1, by simp⟩
  have hlen : ([0xA1, c] ++ (items_bytes its ++ post)).length =
      2 + (items_bytes its).length + post.length := by
    simp only [List.length_append, List.length_cons, List.length_nil]
    omega
  have hread : read_item ([0xA1, c] ++ (items_bytes its ++ post)) (0 + 1)
      ([0xA1, c] ++ (items_bytes its ++ post)).length 1 = raw_item.value ⟨0xA1, [c]⟩ :=
    read_item_at [] (items_bytes its ++ post) ⟨0xA1, [c]⟩ _ (by
      rw [hlen]
      simp only [List.length_nil, List.length_cons]
      omega)
  have hrun := parse_descriptor_run post ([0xA1, c] ++ (items_bytes its ++ post)).length
    (colref.sub 0) its [0xA1, c] n
    (main_collection_item 1 (raw_item.value ⟨0xA1, [c]⟩) colref.base parse_state.init) h
    (by rw [hlen]; simp only [List.length_cons, List.length_nil]; omega)
    (by rw [hn]; simp only [List.length_cons, List.length_nil]; omega)
  unfold parse_all
  rw [hn, parse_descriptor_collection_item n ([0xA1, c] ++ (items_bytes its ++ post)) 0
    (n + 1) colref.base parse_state.init (Nat.succ_pos n) rfl]
  rw [← hn, hread]
  have hidx : 0 + 1 + 1 = [0xA1, c].length := rfl
  have hci : parse_state.init.collection_index = 0 := rfl
  rw [hidx, hci, hrun]
  rcases hpost with rfl | rfl
  · have hend : ¬ [0xA1, c].length + (items_bytes its).length <
        ([0xA1, c] ++ (items_bytes its ++ [])).length := by
      rw [hlen]
      simp only [List.length_cons, List.length_nil]
      omega
    rw [parse_descriptor_end n _ _ _ _ _ hend]
    rw [parse_descriptor_end n _ _ _ _ _ hend]
  · obtain ⟨m, rfl⟩ : ∃ m, n = m + 1 := ⟨n - 1, by
      rw [hlen] at hn
      simp only [List.length_cons, List.length_nil] at hn
      omega⟩
    have hlt : [0xA1, c].length + (items_bytes its).length <
        ([0xA1, c] ++ (items_bytes its ++ [0xC0])).length := by
      rw [hlen]
      simp only [List.length_cons, List.length_nil]
      omega
    have hget : ([0xA1, c] ++ (items_bytes its ++ [0xC0])).getD
        ([0xA1, c].length + (items_bytes its).length) 0 % 256 = 0xC0 := by
      rw [getD_append_add]
      have := getD_append_add (items_bytes its) [0xC0] 0
      rw [Nat.add_zero] at this
      rw [this]
      rfl
    rw [parse_descriptor_end_collection_item m _ _ _ _ _ hlt hget]
    have hend : ¬ [0xA1, c].length + (items_bytes its).length + 1 <
        ([0xA1, c] ++ (items_bytes its ++ [0xC0])).length := by
      rw [hlen]
      simp only [List.length_cons, List.length_nil]
      omega
    rw [parse_descriptor_end (m + 1) _ _ _ _ _ hend]

theorem item_effect_global_local (bType bTag bSize : Nat) (itemVal : Int) (cur : colref)
    (st : parse_state) (h : bType = TAG_TYPE_GLOBAL ∨ bType = TAG_TYPE_LOCAL) :
    (item_effect bType bTag bSize itemVal cur st).features = st.features ∧
      (item_effect bType bTag bSize itemVal cur st).feature_index = st.feature_index := by
  rcases h with rfl | rfl <;>
    simp [item_effect, TAG_TYPE_GLOBAL, TAG_TYPE_LOCAL, TAG_TYPE_MAIN]

theorem run_items_global_local (cur : colref) :
    ∀ (its : List raw_item) (st : parse_state),
      (∀ it ∈ its, item_type it.b0 = TAG_TYPE_GLOBAL ∨ item_type it.b0 = TAG_TYPE_LOCAL) →
      (run_items its cur st).features = st.features ∧
        (run_items its cur st).feature_index = st.feature_index
  | [], _, _ => ⟨rfl, rfl⟩
  | it :: its, st, h => by
    have h1 := item_effect_global_local (item_type it.b0) (item_tag it.b0) (item_size it.b0)
      it.value cur st (h it (List.mem_cons_self _ _))
    have h2 := run_items_global_local cur its (it.effect cur st)
      (fun x hx => h x (List.mem_cons_of_mem _ hx))
    simp only [run_items, List.foldl] at h2 ⊢
    exact ⟨h2.1.trans h1.1, h2.2.trans h1.2⟩

theorem run_items_append (its1 its2 : List raw_item) (cur : colref) (st : parse_state) :
    run_items (its1 ++ its2) cur st = run_items its2 cur (run_items its1 cur st) := by
  simp [run_items, List.foldl_append]

/-- An Input item with a payload whose bit 0 is clear stores one data Input
feature and counts it. -/
theorem item_effect_input_data (bSize : Nat) (itemVal : Int) (cur : colref)
    (st : parse_state) (hs : bSize ≠ 0) (hd : bit_set itemVal 0x01 = false) :
    ∃ f : feature, f.isData = true ∧ f.type = HIDP_REPORT_TYPE.HidP_Input ∧
      (item_effect TAG_TYPE_MAIN TAG_MAIN_INPUT bSize itemVal cur st).features =
        st.features ++ [f] ∧
      (item_effect TAG_TYPE_MAIN TAG_MAIN_INPUT bSize itemVal cur st).feature_index =
        st.feature_index + 1 := by
  have hs' : ¬ bSize ≤ 0 := by omega
  refine ⟨{ (parse_io_feature bSize itemVal TAG_MAIN_INPUT st.feature_index
      (feature.alloc HIDP_REPORT_TYPE.HidP_Input)).2 with
      caps := st.caps, collection := cur }, ?_, ?_, ?_, ?_⟩
  · simp only [parse_io_feature, hs', if_false, hd, ne_eq, not_true_eq_false, Bool.not_false]
    split_ifs <;> rfl
  · simp only [parse_io_feature, hs', if_false, hd, ne_eq, not_true_eq_false, Bool.not_false]
    split_ifs <;> rfl
  · simp only [item_effect, if_true, main_io_item]
  · simp only [item_effect, if_true, main_io_item, parse_io_feature, hs', if_false]

/-- The block of one feature writes one record, with the elements of that
feature. -/
theorem build_block_one (S : Sizes) (a c : Bool) (f : feature) (prev : WINE_HID_REPORT) :
    ∃ rep : WINE_HID_REPORT, (build_block S a c [f] prev).records = [rep] ∧
      rep.reportID = f.caps.ReportID ∧ rep.Elements = elements_of f := by
  simp only [build_block, List.foldl, block_step, new_report, ne_eq, not_true_eq_false,
    if_false, List.nil_append]
  refine ⟨_, rfl, ?_, ?_⟩
  · cases c
    · exact (build_elements_frame _ _ _).2.2.1
    · exact (build_elements_frame _ _ _).2.2.1
  · cases c
    · exact (build_elements_frame _ _ _).2.2.2
    · exact (build_elements_frame _ _ _).2.2.2

/-- A descriptor whose only feature is a counted Input feature gives a layout
with one Input record, holding the elements of that feature. -/
theorem ParseDescriptor_one (S : Sizes) (junk : Nat → Nat) (descriptor : List Nat)
    (f : feature) (hfs : (parse_all descriptor).features = [f])
    (hidx : (parse_all descriptor).feature_index = 1)
    (ht : f.type = HIDP_REPORT_TYPE.HidP_Input) :
    ∃ (d : WINE_HIDP_PREPARSED_DATA) (rep : WINE_HID_REPORT),
      ParseDescriptor S junk descriptor = some d ∧ d.input_records = [rep] ∧
      rep.Elements = elements_of f := by
  have hpos : (parse_all descriptor).feature_index ≠ 0 := by
    rw [hidx]
    decide
  have hs : sorted_features (parse_all descriptor) = [f] := by
    unfold sorted_features
    simp only [hfs, hidx, List.take_succ_cons, List.take_zero]
    split_ifs <;> rfl
  have hin : features_of_type HIDP_REPORT_TYPE.HidP_Input [f] = [f] :=
    features_of_type_eq_self _ _ (by
      intro g hg
      rw [List.mem_singleton.1 hg]
      exact ht)
  obtain ⟨rep, k1, -, k3⟩ := build_block_one S false true f WINE_HID_REPORT.zero
  simp only [ParseDescriptor, hpos, ne_eq, not_false_eq_true, if_true]
  refine ⟨_, rep, rfl, ?_, k3⟩
  simp only [build_PreparseData, hs, hin]
  exact k1

/-! ## Values of items -/

theorem getValue_one (source : Int) (b : Bool) :
    getValue 1 source b =
      if b = true ∧ 128 ≤ source % 256 then source % 256 - 256 else source % 256 := by
  simp only [getValue, getValue_widen, bit_set, i32]
  cases b
  · simp
  · simp
    split_ifs <;> omega

theorem getValue_two (source : Int) (b : Bool) :
    getValue 2 source b =
      if b = true ∧ 32768 ≤ source % 65536 then source % 65536 - 65536
      else source % 65536 := by
  simp only [getValue, getValue_widen, bit_set, i32]
  cases b
  · simp
  · simp
    split_ifs <;> omega

theorem little_endian_lt : ∀ bs : List Nat, little_endian bs < 256 ^ bs.length
  | [] => by simp [little_endian]
  | b :: bs => by
    have := little_endian_lt bs
    have hb : b % 256 < 256 := Nat.mod_lt _ (by decide)
    simp only [little_endian, List.length_cons, pow_succ]
    nlinarith

theorem sum_little_endian : ∀ (n : Nat) (l : List Nat),
    ((List.range n).map fun j => l.getD j 0 % 256 * 256 ^ j).sum = little_endian (l.take n)
  | 0, l => by simp [little_endian]
  | n + 1, [] => by simp [little_endian]
  | n + 1, b :: l => by
    rw [List.range_succ_eq_map, List.map_cons, List.sum_cons, List.map_map]
    have e : ((fun j => (b :: l).getD j 0 % 256 * 256 ^ j) ∘ Nat.succ) =
        fun j => 256 * (l.getD j 0 % 256 * 256 ^ j) := by
      funext j
      simp only [Function.comp, List.getD_cons_succ, pow_succ]
      ring
    rw [e, List.sum_map_mul_left, sum_little_endian n l]
    simp [little_endian]

/-- The value the payload loop reads is the little-endian integer of the bytes
of the payload that lie within `length`, as a 32-bit integer. -/
theorem read_item_little_endian (descriptor : List Nat) (i length bSize : Nat) :
    read_item descriptor i length bSize =
      i32 (little_endian (((descriptor.take length).drop i).take bSize)) := by
  unfold read_item
  congr 1
  rw [← sum_little_endian, Nat.cast_list_sum, List.map_map]
  congr 1
  apply List.map_congr_left
  intro j _
  simp only [Function.comp]
  by_cases h : i + j < length
  · simp only [h, if_true]
    congr 3
    simp [List.getD_eq_getElem?_getD, List.getElem?_take, h]
  · simp only [h, if_false]
    have : ((descriptor.take length).drop i).getD j 0 = 0 := by
      simp [List.getD_eq_getElem?_getD, List.getElem?_take, h]
    rw [this]
    simp

theorem read_item_payload (payload : List Nat) :
    read_item payload 0 payload.length payload.length = i32 (little_endian payload) := by
  rw [read_item_little_endian]
  simp

/-! ## Unknown items and Main items -/

theorem bit_set_testBit (x : Int) (k : Nat) : bit_set x (2 ^ k) = x.testBit k := by
  unfold bit_set
  cases x with
  | ofNat n =>
    simp only [Int.ofNat_eq_coe, Int.testBit, Nat.testBit_to_div_mod]
    have e : ((n : Int) / 2 ^ k) % 2 = ((n / 2 ^ k % 2 : Nat) : Int) := by push_cast; rfl
    rw [e]
    have h2 : n / 2 ^ k % 2 < 2 := Nat.mod_lt _ (by decide)
    rcases Nat.lt_succ_iff_lt_or_eq.1 h2 with h | h
    · have h0 : n / 2 ^ k % 2 = 0 := by omega
      simp [h0]
    · simp [h]
  | negSucc n =>
    simp only [Int.testBit, Nat.testBit_to_div_mod]
    have hpos : (0 : Int) < 2 ^ k := by positivity
    rw [Int.negSucc_ediv _ hpos]
    have e : (n : Int).ediv (2 ^ k) = ((n / 2 ^ k : Nat) : Int) := by
      show (n : Int) / 2 ^ k = _
      push_cast
      rfl
    rw [e]
    have h2 : n / 2 ^ k % 2 < 2 := Nat.mod_lt _ (by decide)
    rcases Nat.lt_succ_iff_lt_or_eq.1 h2 with h | h
    · have h0 : n / 2 ^ k % 2 = 0 := by omega
      have : (-(((n / 2 ^ k : Nat) : Int) + 1)) % 2 = 1 := by omega
      rw [this, h0]
      rfl
    · have : (-(((n / 2 ^ k : Nat) : Int) + 1)) % 2 = 0 := by omega
      rw [this, h]
      rfl

theorem global_item_unknown (bSize : Nat) (itemVal : Int) (bTag : Nat) (c : caps)
    (stack : List caps) (h : TAG_GLOBAL_POP < bTag) :
    global_item bSize itemVal bTag c stack = (c, stack) := by
  simp only [TAG_GLOBAL_POP] at h
  simp only [global_item, TAG_GLOBAL_POP, TAG_GLOBAL_PUSH, TAG_GLOBAL_USAGE_PAGE,
    TAG_GLOBAL_LOGICAL_MINIMUM, TAG_GLOBAL_LOGICAL_MAXIMUM, TAG_GLOBAL_PHYSICAL_MINIMUM,
    TAG_GLOBAL_PHYSICAL_MAXIMUM, TAG_GLOBAL_UNIT_EXPONENT, TAG_GLOBAL_UNIT,
    TAG_GLOBAL_REPORT_SIZE, TAG_GLOBAL_REPORT_ID, TAG_GLOBAL_REPORT_COUNT]
  iterate 12 rw [if_neg (by omega)]

theorem local_item_unknown (bSize : Nat) (itemVal : Int) (bTag : Nat) (c : caps)
    (h : TAG_LOCAL_DELIMITER < bTag) : local_item bSize itemVal bTag c = c := by
  simp only [TAG_LOCAL_DELIMITER] at h
  simp only [local_item, TAG_LOCAL_USAGE, TAG_LOCAL_USAGE_MINIMUM, TAG_LOCAL_USAGE_MAXIMUM,
    TAG_LOCAL_DESIGNATOR_INDEX, TAG_LOCAL_DESIGNATOR_MINIMUM, TAG_LOCAL_DESIGNATOR_MAXIMUM,
    TAG_LOCAL_STRING_INDEX, TAG_LOCAL_STRING_MINIMUM, TAG_LOCAL_STRING_MAXIMUM,
    TAG_LOCAL_DELIMITER]
  iterate 10 rw [if_neg (by omega)]

/-- An item of Reserved type, a Main item with a tag other than Input, Output
and Feature, a Global item with a tag above Pop and a Local item with a tag
above Delimiter leave the state as it is. -/
theorem item_effect_unknown (bType bTag bSize : Nat) (itemVal : Int) (cur : colref)
    (st : parse_state)
    (h : bType = TAG_TYPE_RESERVED ∨
      (bType = TAG_TYPE_MAIN ∧ bTag ≠ TAG_MAIN_INPUT ∧ bTag ≠ TAG_MAIN_OUTPUT ∧
        bTag ≠ TAG_MAIN_FEATURE) ∨
      (bType = TAG_TYPE_GLOBAL ∧ TAG_GLOBAL_POP < bTag) ∨
      (bType = TAG_TYPE_LOCAL ∧ TAG_LOCAL_DELIMITER < bTag)) :
    item_effect bType bTag bSize itemVal cur st = st := by
  rcases h with rfl | ⟨rfl, h1, h2, h3⟩ | ⟨rfl, h⟩ | ⟨rfl, h⟩
  · simp [item_effect, TAG_TYPE_RESERVED, TAG_TYPE_MAIN, TAG_TYPE_GLOBAL, TAG_TYPE_LOCAL]
  · simp [item_effect, h1, h2, h3]
  · simp [item_effect, TAG_TYPE_MAIN, TAG_TYPE_GLOBAL, global_item_unknown _ _ _ _ _ h]
  · simp [item_effect, TAG_TYPE_MAIN, TAG_TYPE_GLOBAL, TAG_TYPE_LOCAL,
      local_item_unknown _ _ _ _ h]

/-- The long-item branch of `parse_descriptor`: the loop goes on at the byte
behind the prefix. -/
theorem parse_descriptor_long_item (fuel : Nat) (descriptor : List Nat) (index length : Nat)
    (cur : colref) (st : parse_state) (h : index < length)
    (hb : descriptor.getD index 0 % 256 = 0xFE) (hroom : index + 1 + 2 < length) :
    parse_descriptor (fuel + 1) descriptor index length cur st =
      parse_descriptor fuel descriptor (index + 1) length cur st := by
  rw [parse_descriptor]
  simp only [h, if_true, hb]
  simp [TAG_TYPE_RESERVED, hroom]

/-- The flags `parse_io_feature` stores for an item with a payload. -/
theorem parse_io_feature_flags (bSize : Nat) (itemVal : Int) (bTag idx : Nat)
    (t : HIDP_REPORT_TYPE) (hs : bSize ≠ 0) :
    (parse_io_feature bSize itemVal bTag idx (feature.alloc t)).2.isData =
        !itemVal.testBit 0 ∧
    (parse_io_feature bSize itemVal bTag idx (feature.alloc t)).2.isArray =
        !itemVal.testBit 1 ∧
    (parse_io_feature bSize itemVal bTag idx (feature.alloc t)).2.IsAbsolute =
        !itemVal.testBit 2 ∧
    (parse_io_feature bSize itemVal bTag idx (feature.alloc t)).2.Wrap = itemVal.testBit 3 ∧
    (parse_io_feature bSize itemVal bTag idx (feature.alloc t)).2.Linear =
        !itemVal.testBit 4 ∧
    (parse_io_feature bSize itemVal bTag idx (feature.alloc t)).2.prefState =
        !itemVal.testBit 5 ∧
    (parse_io_feature bSize itemVal bTag idx (feature.alloc t)).2.HasNull =
        itemVal.testBit 6 ∧
    (parse_io_feature bSize itemVal bTag idx (feature.alloc t)).2.Volatile =
        (decide (bTag ≠ TAG_MAIN_INPUT) && itemVal.testBit 7) ∧
    (parse_io_feature bSize itemVal bTag idx (feature.alloc t)).2.BitField =
        (decide (1 < bSize) && !itemVal.testBit 8) := by
  have hs' : ¬ bSize ≤ 0 := by omega
  have b0 := bit_set_testBit itemVal 0
  have b1 := bit_set_testBit itemVal 1
  have b2 := bit_set_testBit itemVal 2
  have b3 := bit_set_testBit itemVal 3
  have b4 := bit_set_testBit itemVal 4
  have b5 := bit_set_testBit itemVal 5
  have b6 := bit_set_testBit itemVal 6
  have b7 := bit_set_testBit itemVal 7
  have b8 := bit_set_testBit itemVal 8
  norm_num at b0 b1 b2 b3 b4 b5 b6 b7 b8
  simp only [parse_io_feature, hs', if_false, b0, b1, b2, b3, b4, b5, b6, b7, b8]
  by_cases h1 : bTag ≠ TAG_MAIN_INPUT <;> by_cases h2 : bSize > 1 <;>
    simp [h1, h2, feature.alloc]

/-! ## Decoding of one item -/

theorem declared_size_eq (b : Nat) : declared_size b = item_size b := by
  have e : b &&& 3 = b % 4 := Nat.and_pow_two_sub_one_eq_mod b 2
  unfold declared_size item_size
  rw [e]
  have h : b % 4 < 4 := Nat.mod_lt _ (by decide)
  interval_cases b % 4 <;> rfl

theorem shift_type_eq (b : Nat) : (b >>> 2) &&& 3 = item_type b := by
  have e : (b >>> 2) &&& 3 = (b >>> 2) % 4 := Nat.and_pow_two_sub_one_eq_mod (b >>> 2) 2
  rw [e, Nat.shiftRight_eq_div_pow]
  rfl

theorem shift_tag_eq (b : Nat) (h : b < 256) : b >>> 4 = item_tag b := by
  rw [Nat.shiftRight_eq_div_pow]
  unfold item_tag
  have : b / 16 < 16 := by omega
  show b / 16 = b / 16 % 16
  omega

theorem long_item_byte (b : Nat) (h : b < 256) (h1 : item_type b = TAG_TYPE_RESERVED)
    (h2 : item_tag b = 0x0F) (h3 : item_size b = 2) : b = 0xFE := by
  simp only [item_type, item_tag, item_size, TAG_TYPE_RESERVED] at h1 h2 h3
  split_ifs at h3 <;> omega

/-- The End Collection case of `parse_descriptor`, whatever payload size the
item declares. -/
theorem parse_descriptor_end_item (fuel : Nat) (descriptor : List Nat) (index length : Nat)
    (cur : colref) (st : parse_state) (h : index < length)
    (hend : item_type (descriptor.getD index 0 % 256) = TAG_TYPE_MAIN ∧
      item_tag (descriptor.getD index 0 % 256) = TAG_MAIN_END_COLLECTION) :
    parse_descriptor (fuel + 1) descriptor index length cur st = (index + 1, st) := by
  have hlong : ¬ (item_type (descriptor.getD index 0 % 256) = TAG_TYPE_RESERVED ∧
      item_tag (descriptor.getD index 0 % 256) = 0x0F ∧
      item_size (descriptor.getD index 0 % 256) = 2 ∧ index + 1 + 2 < length) := by
    rw [hend.1]
    exact fun x => absurd x.1 (by decide)
  have hcol : ¬ (item_type (descriptor.getD index 0 % 256) = TAG_TYPE_MAIN ∧
      item_tag (descriptor.getD index 0 % 256) = TAG_MAIN_COLLECTION) := by
    rw [hend.2]
    exact fun x => absurd x.2 (by decide)
  simp only [item_type, item_tag, item_size] at hlong hcol hend
  rw [parse_descriptor]
  simp only [h, if_true, hend.1, hend.2]
  simp [TAG_TYPE_MAIN, TAG_TYPE_RESERVED, TAG_MAIN_END_COLLECTION, TAG_MAIN_COLLECTION]

/-- At the outermost level a sequence of complete items without Collection and
`FE` items, standing at the end of the buffer or in front of an End Collection
item `C0`, is parsed into the effects of the items up to the first End
Collection item. -/
theorem parse_descriptor_top_level (post : List Nat) (cur : colref)
    (hpost : post = [] ∨ ∃ s, post = 0xC0 :: s) :
    ∀ (its : List raw_item) (pre : List Nat) (fuel : Nat) (st : parse_state),
      (∀ it ∈ its, it.complete ∧ it.top_level) →
      (pre ++ (items_bytes its ++ post)).length - pre.length ≤ fuel →
      (parse_descriptor fuel (pre ++ (items_bytes its ++ post)) pre.length
        (pre ++ (items_bytes its ++ post)).length cur st).2 = run_top_level its cur st
  | [], pre, fuel, st, _, hfuel => by
    rcases hpost with rfl | ⟨s, rfl⟩
    · rw [parse_descriptor_end]
      · rfl
      · simp [items_bytes]
    · have hlen : (pre ++ (items_bytes [] ++ 0xC0 :: s)).length = pre.length + (s.length + 1) := by
        simp [items_bytes]
      obtain ⟨n, rfl⟩ : ∃ n, fuel = n + 1 := ⟨fuel - 1, by omega⟩
      rw [parse_descriptor_end_collection_item n _ _ _ _ _ (by omega) (by
        have := getD_append_add pre (items_bytes [] ++ 0xC0 :: s) 0
        rw [Nat.add_zero] at this
        rw [this]
        rfl)]
      rfl
  | it :: its, pre, fuel, st, h, hfuel => by
    obtain ⟨⟨hb, hsz⟩, hncol, hnfe⟩ := h it (List.mem_cons_self _ _)
    have hbytes : items_bytes (it :: its) = it.bytes ++ items_bytes its := by
      simp [items_bytes]
    have hblen : it.bytes.length = 1 + it.payload.length := by
      simp [raw_item.bytes, Nat.add_comm]
    have hbuf : pre ++ (items_bytes (it :: its) ++ post) =
        pre ++ (it.bytes ++ (items_bytes its ++ post)) := by
      rw [hbytes, List.append_assoc]
    have hlen : (pre ++ (items_bytes (it :: its) ++ post)).length =
        pre.length + (1 + it.payload.length + (items_bytes its ++ post).length) := by
      rw [hbuf]
      simp only [List.length_append, hblen]
    have hidx : pre.length < (pre ++ (items_bytes (it :: its) ++ post)).length := by omega
    obtain ⟨n, rfl⟩ : ∃ n, fuel = n + 1 := ⟨fuel - 1, by omega⟩
    have hget : (pre ++ (items_bytes (it :: its) ++ post)).getD pre.length 0 % 256 = it.b0 := by
      rw [hbuf]
      have := getD_append_add pre (it.bytes ++ (items_bytes its ++ post)) 0
      rw [Nat.add_zero] at this
      rw [this]
      show it.b0 % 256 = it.b0
      exact Nat.mod_eq_of_lt hb
    by_cases hend : item_type it.b0 = TAG_TYPE_MAIN ∧ item_tag it.b0 = TAG_MAIN_END_COLLECTION
    · rw [parse_descriptor_end_item n _ _ _ _ _ hidx (by rw [hget]; exact hend)]
      simp only [run_top_level, hend, and_self, if_true]
    · rw [parse_descriptor_item n _ pre.length _ cur st hidx
        (by rw [hget]; exact fun k => hnfe (long_item_byte _ hb k.1 k.2.1 k.2.2.1))
        (by rw [hget]; exact hncol) (by rw [hget]; exact hend)]
      rw [hget]
      have hread : read_item (pre ++ (items_bytes (it :: its) ++ post)) (pre.length + 1)
          (pre ++ (items_bytes (it :: its) ++ post)).length (item_size it.b0) = it.value := by
        rw [← hsz]
        have := read_item_at pre (items_bytes its ++ post) it
          (pre ++ (items_bytes (it :: its) ++ post)).length (by omega)
        rw [← hbuf] at this
        exact this
      rw [hread]
      have hpl : (pre ++ it.bytes).length = pre.length + (1 + it.payload.length) := by
        rw [List.length_append, hblen]
      have hbuf2 : (pre ++ it.bytes) ++ (items_bytes its ++ post) =
          pre ++ (items_bytes (it :: its) ++ post) := by
        rw [hbuf, List.append_assoc]
      have ih := parse_descriptor_top_level post cur hpost its (pre ++ it.bytes) n
        (it.effect cur st) (fun x hx => h x (List.mem_cons_of_mem _ hx))
        (by
          rw [hbuf2, hpl]
          omega)
      rw [hbuf2] at ih
      have e1 : pre.length + 1 + item_size it.b0 = (pre ++ it.bytes).length := by
        rw [hpl, hsz]
        omega
      rw [e1]
      simp only [run_top_level, hend, if_false]
      exact ih

theorem parse_all_top_level (its : List raw_item) (post : List Nat)
    (h : ∀ it ∈ its, it.complete ∧ it.top_level) (hpost : post = [] ∨ ∃ s, post = 0xC0 :: s) :
    parse_all (items_bytes its ++ post) = run_top_level its colref.base parse_state.init := by
  have := parse_descriptor_top_level post colref.base hpost its [] (items_bytes its ++ post).length
    parse_state.init h (by simp)
  rw [List.nil_append] at this
  exact this

/-! ## Local values across Main items -/

/-- The loop of `parse_descriptor` runs through a sequence of complete items
without Collection, End Collection and `FE` items that lies within `length`. -/
theorem parse_descriptor_run_plain (post : List Nat) (length : Nat) (cur : colref) :
    ∀ (its : List raw_item) (pre : List Nat) (fuel : Nat) (st : parse_state),
      (∀ it ∈ its, it.complete ∧ it.plain) →
      pre.length + (items_bytes its).length ≤ length → length - pre.length ≤ fuel →
      parse_descriptor fuel (pre ++ (items_bytes its ++ post)) pre.length length cur st =
        parse_descriptor fuel (pre ++ (items_bytes its ++ post))
          (pre.length + (items_bytes its).length) length cur (run_items its cur st)
  | [], pre, fuel, st, _, _, _ => by
    simp [items_bytes, run_items]
  | it :: its, pre, fuel, st, h, hlen, hfuel => by
    obtain ⟨⟨hb, hsz⟩, hnfe, hncol, hnend⟩ := h it (List.mem_cons_self _ _)
    have hbytes : items_bytes (it :: its) = it.bytes ++ items_bytes its := by
      simp [items_bytes]
    have hblen : it.bytes.length = 1 + it.payload.length := by
      simp [raw_item.bytes, Nat.add_comm]
    rw [hbytes, List.length_append, hblen] at hlen
    have hidx : pre.length < length := by omega
    obtain ⟨n, rfl⟩ : ∃ n, fuel = n + 1 := ⟨fuel - 1, by omega⟩
    have hbuf : pre ++ (items_bytes (it :: its) ++ post) =
        pre ++ (it.bytes ++ (items_bytes its ++ post)) := by
      rw [hbytes, List.append_assoc]
    have hget : (pre ++ (items_bytes (it :: its) ++ post)).getD pre.length 0 % 256 = it.b0 := by
      rw [hbuf]
      have := getD_append_add pre (it.bytes ++ (items_bytes its ++ post)) 0
      rw [Nat.add_zero] at this
      rw [this]
      show it.b0 % 256 = it.b0
      exact Nat.mod_eq_of_lt hb
    rw [parse_descriptor_item n _ pre.length length cur st hidx
      (by rw [hget]; exact fun k => hnfe (long_item_byte _ hb k.1 k.2.1 k.2.2.1))
      (by rw [hget]; exact hncol) (by rw [hget]; exact hnend)]
    rw [hget]
    have hread : read_item (pre ++ (items_bytes (it :: its) ++ post)) (pre.length + 1) length
        (item_size it.b0) = it.value := by
      rw [hbuf, ← hsz]
      exact read_item_at pre _ it length (by omega)
    rw [hread, parse_descriptor_fuel n (n + 1) _ _ _ _ _ (by omega) (by omega)]
    have ih := parse_descriptor_run_plain post length cur its (pre ++ it.bytes) (n + 1)
      (it.effect cur st) (fun x hx => h x (List.mem_cons_of_mem _ hx))
      (by rw [List.length_append, hblen]; omega)
      (by rw [List.length_append, hblen]; omega)
    rw [List.append_assoc] at ih
    rw [hbuf]
    have e1 : pre.length + 1 + item_size it.b0 = (pre ++ it.bytes).length := by
      rw [List.length_append, hblen, hsz]
      omega
    have e2 : pre.length + (it.bytes ++ items_bytes its).length =
        (pre ++ it.bytes).length + (items_bytes its).length := by
      simp only [List.length_append]
      omega
    rw [e1, hbytes, e2]
    exact ih

theorem slot_set_slot_ne (c : caps) (k j : Nat) (v : Int) (h : k ≠ j) :
    (c.set_slot k v).slot j = c.slot j := by
  simp [caps.slot, caps.set_slot, List.getD_eq_getElem?_getD, List.getElem?_set_ne h]

theorem slot_set_slot_self (c : caps) (k : Nat) (v : Int) (h : k < c.u.length) :
    (c.set_slot k v).slot k = (v % 65536).toNat := by
  simp [caps.slot, caps.set_slot, List.getD_eq_getElem?_getD, List.getElem?_set_self h]

/-- A Global item other than Pop leaves the union and the delimiter as they
are. -/
theorem global_item_local_values (bSize : Nat) (itemVal : Int) (bTag : Nat) (c : caps)
    (stack : List caps) (h : bTag ≠ TAG_GLOBAL_POP) :
    local_values (global_item bSize itemVal bTag c stack).1 = local_values c := by
  unfold global_item
  simp only [h, if_false]
  iterate 11
    refine ite_preserves (fun r : caps × List caps => local_values r.1 = local_values c)
      _ _ _ rfl ?_
  rfl

/-- A Local item other than String Index, Designator Index and Delimiter leaves
the three local values as they are. -/
theorem local_item_local_values (bSize : Nat) (itemVal : Int) (bTag : Nat) (c : caps)
    (h1 : bTag ≠ TAG_LOCAL_STRING_INDEX) (h2 : bTag ≠ TAG_LOCAL_DESIGNATOR_INDEX)
    (h3 : bTag ≠ TAG_LOCAL_DELIMITER) :
    local_values (local_item bSize itemVal bTag c) = local_values c := by
  have e : ∀ (k : Nat) (v : Int) (c' : caps), k < 10 → c'.u = (c.set_slot k v).u →
      c'.Delim = c.Delim → local_values c' = local_values c := by
    intro k v c' hk hu hd
    have s1 := slot_set_slot_ne c k slot_StringIndex v (by simp only [slot_StringIndex]; omega)
    have s2 := slot_set_slot_ne c k slot_DesignatorIndex v
      (by simp only [slot_DesignatorIndex]; omega)
    simp only [caps.slot] at s1 s2
    simp only [local_values, caps.slot, hu, hd, s1, s2]
  simp only [local_item, h1, h2, h3, if_false]
  refine ite_preserves (fun r : caps => local_values r = local_values c) _ _ _ ?_ ?_
  · by_cases hc : c.usage_count ≥ USAGE_MAX
    · simp only [hc, if_true]
    · simp only [hc, if_false]
      exact e c.usage_count _ _ (by simp only [USAGE_MAX] at hc; omega) rfl rfl
  refine ite_preserves (fun r : caps => local_values r = local_values c) _ _ _
    (e slot_UsageMin _ _ (by decide) rfl rfl) ?_
  refine ite_preserves (fun r : caps => local_values r = local_values c) _ _ _
    (e slot_UsageMax _ _ (by decide) rfl rfl) ?_
  refine ite_preserves (fun r : caps => local_values r = local_values c) _ _ _
    (e slot_DesignatorMin _ _ (by decide) rfl rfl) ?_
  refine ite_preserves (fun r : caps => local_values r = local_values c) _ _ _
    (e slot_DesignatorMax _ _ (by decide) rfl rfl) ?_
  refine ite_preserves (fun r : caps => local_values r = local_values c) _ _ _
    (e slot_StringMin _ _ (by decide) rfl rfl) ?_
  refine ite_preserves (fun r : caps => local_values r = local_values c) _ _ _
    (e slot_StringMax _ _ (by decide) rfl rfl) ?_
  rfl

theorem effect_keeps_local_values (it : raw_item) (cur : colref) (st : parse_state)
    (h : it.keeps_local_values) :
    (it.effect cur st).features = st.features ∧
      local_values (it.effect cur st).caps = local_values st.caps := by
  unfold raw_item.effect
  rcases h with ⟨h1, h2⟩ | ⟨h1, h2, h3, h4⟩
  · rw [h1]
    simp only [item_effect, TAG_TYPE_MAIN, TAG_TYPE_GLOBAL, if_true, if_false,
      Nat.succ_ne_zero, OfNat.ofNat_ne_zero, one_ne_zero]
    exact ⟨trivial, global_item_local_values _ _ _ _ _ h2⟩
  · rw [h1]
    simp only [item_effect, TAG_TYPE_MAIN, TAG_TYPE_GLOBAL, TAG_TYPE_LOCAL, if_true, if_false,
      Nat.succ_ne_zero, OfNat.ofNat_ne_zero, OfNat.ofNat_ne_one]
    exact ⟨trivial, local_item_local_values _ _ _ _ h2 h3 h4⟩

theorem run_items_keeps_local_values (cur : colref) :
    ∀ (its : List raw_item) (st : parse_state), (∀ it ∈ its, it.keeps_local_values) →
      (run_items its cur st).features = st.features ∧
        local_values (run_items its cur st).caps = local_values st.caps
  | [], _, _ => ⟨rfl, rfl⟩
  | it :: its, st, h => by
    have h1 := effect_keeps_local_values it cur st (h it (List.mem_cons_self _ _))
    have h2 := run_items_keeps_local_values cur its (it.effect cur st)
      (fun x hx => h x (List.mem_cons_of_mem _ hx))
    simp only [run_items, List.foldl] at h2 ⊢
    exact ⟨h2.1.trans h1.1, h2.2.trans h1.2⟩

/-- An Input, Output or Feature item appends a feature with the accumulator as
its snapshot and applies `new_caps` to the accumulator. -/
theorem effect_main_io (it : raw_item) (cur : colref) (st : parse_state) (h : it.is_main_io) :
    ∃ f : feature, (it.effect cur st).features = st.features ++ [f] ∧ f.caps = st.caps ∧
      (it.effect cur st).caps = new_caps st.caps := by
  unfold raw_item.effect
  obtain ⟨h1, h2⟩ := h
  rw [h1]
  rcases h2 with k | k | k <;> rw [k]
  · exact ⟨{ (parse_io_feature (item_size it.b0) it.value TAG_MAIN_INPUT st.feature_index
        (feature.alloc HIDP_REPORT_TYPE.HidP_Input)).2 with caps := st.caps, collection := cur },
      by simp only [item_effect, if_true, main_io_item], rfl,
      by simp only [item_effect, if_true, main_io_item]⟩
  · exact ⟨{ (parse_io_feature (item_size it.b0) it.value TAG_MAIN_OUTPUT st.feature_index
        (feature.alloc HIDP_REPORT_TYPE.HidP_Output)).2 with caps := st.caps, collection := cur },
      by simp [item_effect, main_io_item, TAG_MAIN_INPUT, TAG_MAIN_OUTPUT], rfl,
      by simp [item_effect, main_io_item, TAG_MAIN_INPUT, TAG_MAIN_OUTPUT]⟩
  · exact ⟨{ (parse_io_feature (item_size it.b0) it.value TAG_MAIN_FEATURE st.feature_index
        (feature.alloc HIDP_REPORT_TYPE.HidP_Feature)).2 with caps := st.caps, collection := cur },
      by simp [item_effect, main_io_item, TAG_MAIN_INPUT, TAG_MAIN_OUTPUT, TAG_MAIN_FEATURE], rfl,
      by simp [item_effect, main_io_item, TAG_MAIN_INPUT, TAG_MAIN_OUTPUT, TAG_MAIN_FEATURE]⟩

/-- What a Local item of one of the tags String Index, Designator Index and
Delimiter stores. -/
theorem effect_local_value (it : raw_item) (cur : colref) (st : parse_state)
    (h : item_type it.b0 = TAG_TYPE_LOCAL) (hu : st.caps.u.length = 15) :
    (it.effect cur st).features = st.features ∧
    (item_tag it.b0 = TAG_LOCAL_STRING_INDEX →
      (it.effect cur st).caps.slot slot_StringIndex =
        (getValue (item_size it.b0) it.value false % 65536).toNat) ∧
    (item_tag it.b0 = TAG_LOCAL_DESIGNATOR_INDEX →
      (it.effect cur st).caps.slot slot_DesignatorIndex =
        (getValue (item_size it.b0) it.value false % 65536).toNat) ∧
    (item_tag it.b0 = TAG_LOCAL_DELIMITER →
      (it.effect cur st).caps.Delim = getValue (item_size it.b0) it.value false) := by
  unfold raw_item.effect
  rw [h]
  simp only [item_effect, TAG_TYPE_MAIN, TAG_TYPE_GLOBAL, TAG_TYPE_LOCAL, if_true, if_false,
    Nat.succ_ne_zero, OfNat.ofNat_ne_zero, OfNat.ofNat_ne_one]
  refine ⟨trivial, ?_, ?_, ?_⟩
  · intro k
    rw [k]
    simp only [local_item, TAG_LOCAL_STRING_INDEX, TAG_LOCAL_USAGE, TAG_LOCAL_USAGE_MINIMUM,
      TAG_LOCAL_USAGE_MAXIMUM, TAG_LOCAL_DESIGNATOR_INDEX, TAG_LOCAL_DESIGNATOR_MINIMUM,
      TAG_LOCAL_DESIGNATOR_MAXIMUM, if_true, if_false, Nat.succ_ne_zero, OfNat.ofNat_ne_zero,
      OfNat.ofNat_ne_one, Nat.reduceEqDiff]
    exact slot_set_slot_self st.caps slot_StringIndex _ (by rw [hu]; decide)
  · intro k
    rw [k]
    simp only [local_item, TAG_LOCAL_USAGE, TAG_LOCAL_USAGE_MINIMUM,
      TAG_LOCAL_USAGE_MAXIMUM, TAG_LOCAL_DESIGNATOR_INDEX, if_true, if_false,
      Nat.succ_ne_zero, OfNat.ofNat_ne_zero, OfNat.ofNat_ne_one, Nat.reduceEqDiff]
    exact slot_set_slot_self st.caps slot_DesignatorIndex _ (by rw [hu]; decide)
  · intro k
    rw [k]
    simp only [local_item, TAG_LOCAL_STRING_INDEX, TAG_LOCAL_USAGE, TAG_LOCAL_USAGE_MINIMUM,
      TAG_LOCAL_USAGE_MAXIMUM, TAG_LOCAL_DESIGNATOR_INDEX, TAG_LOCAL_DESIGNATOR_MINIMUM,
      TAG_LOCAL_DESIGNATOR_MAXIMUM, TAG_LOCAL_STRING_MINIMUM, TAG_LOCAL_STRING_MAXIMUM,
      TAG_LOCAL_DELIMITER, if_true, if_false, Nat.succ_ne_zero, OfNat.ofNat_ne_zero,
      OfNat.ofNat_ne_one, Nat.reduceEqDiff]

theorem plain_of_type (it : raw_item)
    (h : item_type it.b0 = TAG_TYPE_GLOBAL ∨ item_type it.b0 = TAG_TYPE_LOCAL ∨
      it.is_main_io) : it.plain := by
  have hfe : item_type 0xFE = TAG_TYPE_RESERVED := by decide
  refine ⟨?_, ?_, ?_⟩
  · intro e
    simp only [raw_item.is_main_io, e, hfe] at h
    rcases h with k | k | ⟨k, -⟩ <;> exact absurd k (by decide)
  · rcases h with k | k | ⟨-, k | k | k⟩
    · rw [k]; exact fun x => absurd x.1 (by decide)
    · rw [k]; exact fun x => absurd x.1 (by decide)
    · rw [k]; exact fun x => absurd x.2 (by decide)
    · rw [k]; exact fun x => absurd x.2 (by decide)
    · rw [k]; exact fun x => absurd x.2 (by decide)
  · rcases h with k | k | ⟨-, k | k | k⟩
    · rw [k]; exact fun x => absurd x.1 (by decide)
    · rw [k]; exact fun x => absurd x.1 (by decide)
    · rw [k]; exact fun x => absurd x.2 (by decide)
    · rw [k]; exact fun x => absurd x.2 (by decide)
    · rw [k]; exact fun x => absurd x.2 (by decide)

/-! ## Truncated items -/

/-- The Collection case of `parse_descriptor`, whatever payload size the item
declares. -/
theorem parse_descriptor_collection (fuel : Nat) (descriptor : List Nat) (index length : Nat)
    (cur : colref) (st : parse_state) (h : index < length)
    (hcol : item_type (descriptor.getD index 0 % 256) = TAG_TYPE_MAIN ∧
      item_tag (descriptor.getD index 0 % 256) = TAG_MAIN_COLLECTION) :
    parse_descriptor (fuel + 1) descriptor index length cur st =
      parse_descriptor fuel descriptor
        (parse_descriptor fuel descriptor (index + 1 + 1) length
          (colref.sub st.collection_index)
          (main_collection_item (item_size (descriptor.getD index 0 % 256))
            (read_item descriptor (index + 1) length
              (item_size (descriptor.getD index 0 % 256))) cur st)).1
        length cur
        (parse_descriptor fuel descriptor (index + 1 + 1) length
          (colref.sub st.collection_index)
          (main_collection_item (item_size (descriptor.getD index 0 % 256))
            (read_item descriptor (index + 1) length
              (item_size (descriptor.getD index 0 % 256))) cur st)).2 := by
  simp only [item_type, item_tag, item_size] at hcol ⊢
  rw [parse_descriptor]
  simp only [h, if_true, hcol.1, hcol.2]
  simp [TAG_TYPE_MAIN, TAG_TYPE_RESERVED, TAG_MAIN_COLLECTION]

theorem decoded_at_end (fuel : Nat) (descriptor : List Nat) (index length : Nat)
    (h : ¬ index < length) : decoded_at fuel descriptor index length = (index, []) := by
  cases fuel with
  | zero => rfl
  | succ n =>
    rw [decoded_at]
    simp only [h, if_false]

theorem decoded_at_long (fuel : Nat) (descriptor : List Nat) (index length : Nat)
    (h : index < length)
    (hlong : item_type (descriptor.getD index 0 % 256) = TAG_TYPE_RESERVED ∧
      item_tag (descriptor.getD index 0 % 256) = 0x0F ∧
      item_size (descriptor.getD index 0 % 256) = 2 ∧ index + 1 + 2 < length) :
    decoded_at (fuel + 1) descriptor index length =
      decoded_at fuel descriptor (index + 1) length := by
  simp only [item_type, item_tag, item_size] at hlong
  rw [decoded_at]
  simp only [h, if_true, hlong, and_self]

theorem decoded_at_collection (fuel : Nat) (descriptor : List Nat) (index length : Nat)
    (h : index < length)
    (hcol : item_type (descriptor.getD index 0 % 256) = TAG_TYPE_MAIN ∧
      item_tag (descriptor.getD index 0 % 256) = TAG_MAIN_COLLECTION) :
    decoded_at (fuel + 1) descriptor index length =
      ((decoded_at fuel descriptor
          (decoded_at fuel descriptor (index + 1 + 1) length).1 length).1,
        index :: ((decoded_at fuel descriptor (index + 1 + 1) length).2 ++
          (decoded_at fuel descriptor
            (decoded_at fuel descriptor (index + 1 + 1) length).1 length).2)) := by
  simp only [item_type, item_tag] at hcol
  rw [decoded_at]
  simp only [h, if_true, hcol.1, hcol.2]
  simp [TAG_TYPE_MAIN, TAG_TYPE_RESERVED, TAG_MAIN_COLLECTION]

theorem decoded_at_end_item (fuel : Nat) (descriptor : List Nat) (index length : Nat)
    (h : index < length)
    (hend : item_type (descriptor.getD index 0 % 256) = TAG_TYPE_MAIN ∧
      item_tag (descriptor.getD index 0 % 256) = TAG_MAIN_END_COLLECTION) :
    decoded_at (fuel + 1) descriptor index length = (index + 1, [index]) := by
  simp only [item_type, item_tag] at hend
  rw [decoded_at]
  simp only [h, if_true, hend.1, hend.2]
  simp [TAG_TYPE_MAIN, TAG_TYPE_RESERVED, TAG_MAIN_COLLECTION, TAG_MAIN_END_COLLECTION]

theorem decoded_at_item (fuel : Nat) (descriptor : List Nat) (index length : Nat)
    (h : index < length)
    (hlong : ¬ (item_type (descriptor.getD index 0 % 256) = TAG_TYPE_RESERVED ∧
      item_tag (descriptor.getD index 0 % 256) = 0x0F ∧
      item_size (descriptor.getD index 0 % 256) = 2 ∧ index + 1 + 2 < length))
    (hcol : ¬ (item_type (descriptor.getD index 0 % 256) = TAG_TYPE_MAIN ∧
      item_tag (descriptor.getD index 0 % 256) = TAG_MAIN_COLLECTION))
    (hend : ¬ (item_type (descriptor.getD index 0 % 256) = TAG_TYPE_MAIN ∧
      item_tag (descriptor.getD index 0 % 256) = TAG_MAIN_END_COLLECTION)) :
    decoded_at (fuel + 1) descriptor index length =
      ((decoded_at fuel descriptor
          (index + 1 + item_size (descriptor.getD index 0 % 256)) length).1,
        index :: (decoded_at fuel descriptor
          (index + 1 + item_size (descriptor.getD index 0 % 256)) length).2) := by
  simp only [item_type, item_tag, item_size] at hlong hcol hend ⊢
  rw [decoded_at]
  simp only [h, if_true, hlong, hcol, hend, if_false]

/-- The long-item case in terms of the decoded fields. -/
theorem parse_descriptor_long (fuel : Nat) (descriptor : List Nat) (index length : Nat)
    (cur : colref) (st : parse_state) (h : index < length)
    (hlong : item_type (descriptor.getD index 0 % 256) = TAG_TYPE_RESERVED ∧
      item_tag (descriptor.getD index 0 % 256) = 0x0F ∧
      item_size (descriptor.getD index 0 % 256) = 2 ∧ index + 1 + 2 < length) :
    parse_descriptor (fuel + 1) descriptor index length cur st =
      parse_descriptor fuel descriptor (index + 1) length cur st :=
  parse_descriptor_long_item fuel descriptor index length cur st h
    (long_item_byte _ (Nat.mod_lt _ (by decide)) hlong.1 hlong.2.1 hlong.2.2.1) hlong.2.2.2

/-- The cursor `parse_descriptor` returns is the one of `decoded_at`. -/
theorem decoded_at_cursor (descriptor : List Nat) (length : Nat) :
    ∀ (fuel index : Nat) (cur : colref) (st : parse_state),
      (parse_descriptor fuel descriptor index length cur st).1 =
        (decoded_at fuel descriptor index length).1 := by
  intro fuel
  induction fuel with
  | zero => intro index cur st; rfl
  | succ n ih =>
    intro index cur st
    by_cases h : index < length
    · by_cases hlong : item_type (descriptor.getD index 0 % 256) = TAG_TYPE_RESERVED ∧
          item_tag (descriptor.getD index 0 % 256) = 0x0F ∧
          item_size (descriptor.getD index 0 % 256) = 2 ∧ index + 1 + 2 < length
      · rw [parse_descriptor_long n _ _ _ _ _ h hlong, decoded_at_long n _ _ _ h hlong]
        exact ih _ _ _
      by_cases hcol : item_type (descriptor.getD index 0 % 256) = TAG_TYPE_MAIN ∧
          item_tag (descriptor.getD index 0 % 256) = TAG_MAIN_COLLECTION
      · rw [parse_descriptor_collection n _ _ _ _ _ h hcol,
          decoded_at_collection n _ _ _ h hcol, ih, ih]
      by_cases hend : item_type (descriptor.getD index 0 % 256) = TAG_TYPE_MAIN ∧
          item_tag (descriptor.getD index 0 % 256) = TAG_MAIN_END_COLLECTION
      · rw [parse_descriptor_end_item n _ _ _ _ _ h hend, decoded_at_end_item n _ _ _ h hend]
      · rw [parse_descriptor_item n _ _ _ _ _ h hlong hcol hend,
          decoded_at_item n _ _ _ h hlong hcol hend]
        exact ih _ _ _
    · rw [parse_descriptor_end _ _ _ _ _ _ h, decoded_at_end _ _ _ _ h]

theorem decoded_at_ge (descriptor : List Nat) (length fuel index : Nat) :
    index ≤ (decoded_at fuel descriptor index length).1 := by
  rw [← decoded_at_cursor descriptor length fuel index colref.null parse_state.init]
  exact parse_descriptor_cursor _ _ _ _ _ _

/-- Any bound of at least `length - index` iterations gives the same list of
decoded items. -/
theorem decoded_at_fuel (descriptor : List Nat) (length : Nat) :
    ∀ (fuel fuel' index : Nat), length - index ≤ fuel → length - index ≤ fuel' →
      decoded_at fuel descriptor index length = decoded_at fuel' descriptor index length := by
  intro fuel
  induction fuel with
  | zero =>
    intro fuel' index h _
    rw [decoded_at_end _ _ _ _ (by omega), decoded_at_end _ _ _ _ (by omega)]
  | succ n ih =>
    intro fuel' index h h'
    by_cases hlt : index < length
    · obtain ⟨m, rfl⟩ : ∃ m, fuel' = m + 1 := ⟨fuel' - 1, by omega⟩
      by_cases hlong : item_type (descriptor.getD index 0 % 256) = TAG_TYPE_RESERVED ∧
          item_tag (descriptor.getD index 0 % 256) = 0x0F ∧
          item_size (descriptor.getD index 0 % 256) = 2 ∧ index + 1 + 2 < length
      · rw [decoded_at_long n _ _ _ hlt hlong, decoded_at_long m _ _ _ hlt hlong]
        exact ih m _ (by omega) (by omega)
      by_cases hcol : item_type (descriptor.getD index 0 % 256) = TAG_TYPE_MAIN ∧
          item_tag (descriptor.getD index 0 % 256) = TAG_MAIN_COLLECTION
      · rw [decoded_at_collection n _ _ _ hlt hcol, decoded_at_collection m _ _ _ hlt hcol]
        have hc := decoded_at_ge descriptor length m (index + 1 + 1)
        rw [ih m (index + 1 + 1) (by omega) (by omega)]
        rw [ih m _ (by omega) (by omega)]
      by_cases hend : item_type (descriptor.getD index 0 % 256) = TAG_TYPE_MAIN ∧
          item_tag (descriptor.getD index 0 % 256) = TAG_MAIN_END_COLLECTION
      · rw [decoded_at_end_item n _ _ _ hlt hend, decoded_at_end_item m _ _ _ hlt hend]
      · rw [decoded_at_item n _ _ _ hlt hlong hcol hend,
          decoded_at_item m _ _ _ hlt hlong hcol hend]
        rw [ih m _ (by omega) (by omega)]
    · rw [decoded_at_end _ _ _ _ hlt, decoded_at_end _ _ _ _ hlt]

theorem getLast_cons_of_some (a q : Nat) :
    ∀ l : List Nat, l.getLast? = some q → (a :: l).getLast? = some q
  | [], h => by simp at h
  | _ :: _, h => by
    rw [List.getLast?_cons_cons]
    exact h

theorem getLast_append_of_some (q : Nat) :
    ∀ l1 l2 : List Nat, l2.getLast? = some q → (l1 ++ l2).getLast? = some q
  | [], _, h => h
  | a :: l1, l2, h => by
    rw [List.cons_append]
    exact getLast_cons_of_some a q _ (getLast_append_of_some q l1 l2 h)

/-- An item that is not a Main item and whose declared payload reaches the end
of the buffer is the last item decoded, and the parse ends behind the
buffer. -/
theorem decoded_at_last (descriptor : List Nat) (length : Nat) :
    ∀ (fuel index q : Nat), q ∈ (decoded_at fuel descriptor index length).2 →
      item_type (descriptor.getD q 0 % 256) ≠ TAG_TYPE_MAIN →
      length ≤ q + 1 + item_size (descriptor.getD q 0 % 256) →
      (decoded_at fuel descriptor index length).2.getLast? = some q ∧
        length ≤ (decoded_at fuel descriptor index length).1 := by
  intro fuel
  induction fuel with
  | zero =>
    intro index q hq
    exact absurd hq (List.not_mem_nil _)
  | succ n ih =>
    intro index q hq hty hsz
    by_cases h : index < length
    · by_cases hlong : item_type (descriptor.getD index 0 % 256) = TAG_TYPE_RESERVED ∧
          item_tag (descriptor.getD index 0 % 256) = 0x0F ∧
          item_size (descriptor.getD index 0 % 256) = 2 ∧ index + 1 + 2 < length
      · rw [decoded_at_long n _ _ _ h hlong] at hq ⊢
        exact ih _ q hq hty hsz
      by_cases hcol : item_type (descriptor.getD index 0 % 256) = TAG_TYPE_MAIN ∧
          item_tag (descriptor.getD index 0 % 256) = TAG_MAIN_COLLECTION
      · rw [decoded_at_collection n _ _ _ h hcol] at hq ⊢
        rcases List.mem_cons.1 hq with rfl | hq
        · exact absurd hcol.1 hty
        rcases List.mem_append.1 hq with hq | hq
        · obtain ⟨k1, k2⟩ := ih _ q hq hty hsz
          rw [decoded_at_end n _ _ _ (by omega)]
          refine ⟨?_, k2⟩
          rw [List.append_nil]
          exact getLast_cons_of_some _ _ _ k1
        · obtain ⟨k1, k2⟩ := ih _ q hq hty hsz
          exact ⟨getLast_cons_of_some _ _ _ (getLast_append_of_some _ _ _ k1), k2⟩
      by_cases hend : item_type (descriptor.getD index 0 % 256) = TAG_TYPE_MAIN ∧
          item_tag (descriptor.getD index 0 % 256) = TAG_MAIN_END_COLLECTION
      · rw [decoded_at_end_item n _ _ _ h hend] at hq
        rw [List.mem_singleton.1 hq] at hty
        exact absurd hend.1 hty
      · rw [decoded_at_item n _ _ _ h hlong hcol hend] at hq ⊢
        rcases List.mem_cons.1 hq with rfl | hq
        · rw [decoded_at_end n _ _ _ (by omega)]
          exact ⟨rfl, hsz⟩
        · obtain ⟨k1, k2⟩ := ih _ q hq hty hsz
          exact ⟨getLast_cons_of_some _ _ _ k1, k2⟩
    · rw [decoded_at_end _ _ _ _ h] at hq
      exact absurd hq (List.not_mem_nil _)

theorem getD_padding (d : List Nat) (k j : Nat) (h : d.length ≤ j) :
    (d ++ List.replicate k 0).getD j 0 = 0 := by
  rw [List.getD_eq_getElem?_getD, List.getElem?_append_right h]
  by_cases hk : j - d.length < k
  · simp [List.getElem?_replicate, hk]
  · simp [List.getElem?_replicate, hk]

/-- Zero bytes appended to the buffer do not change the value read for an
item. -/
theorem read_item_padded (d : List Nat) (k i bSize : Nat) :
    read_item (d ++ List.replicate k 0) i (d.length + k) bSize =
      read_item d i d.length bSize := by
  unfold read_item
  congr 2
  apply List.map_congr_left
  intro j _
  by_cases h : i + j < d.length
  · have h' : i + j < d.length + k := by omega
    simp only [h, h', if_true]
    rw [getD_append_lt _ _ _ h]
  · simp only [h, if_false]
    rw [getD_padding d k _ (by omega)]
    simp

/-- Behind the original buffer the padded buffer holds zero bytes only, which
are decoded as Main items of tag 0 without payload and change nothing. -/
theorem parse_descriptor_padding (d : List Nat) (k : Nat) :
    ∀ (fuel index : Nat) (cur : colref) (st : parse_state), d.length ≤ index →
      (parse_descriptor fuel (d ++ List.replicate k 0) index (d.length + k) cur st).2 = st := by
  intro fuel
  induction fuel with
  | zero => intro index cur st _; rfl
  | succ n ih =>
    intro index cur st h
    by_cases hlt : index < d.length + k
    · have hb : (d ++ List.replicate k 0).getD index 0 % 256 = 0 := by
        rw [getD_padding d k _ h]
      rw [parse_descriptor_item n _ _ _ _ _ hlt
        (by rw [hb]; exact fun x => absurd x.1 (by decide))
        (by rw [hb]; exact fun x => absurd x.2 (by decide))
        (by rw [hb]; exact fun x => absurd x.2 (by decide))]
      rw [hb, ih _ _ _ (by omega)]
      exact item_effect_unknown _ _ _ _ _ _ (Or.inr (Or.inl (by decide)))
    · rw [parse_descriptor_end _ _ _ _ _ _ hlt]

/-- Appending zero bytes does not change the parse as long as no `FE` item that
ends the original buffer gets room to be taken for a long item: the state is
the same, and the cursor is the same or both parses have run to the end of the
original buffer. -/
theorem parse_descriptor_padded (d : List Nat) (k : Nat) :
    ∀ (fuel index : Nat) (cur : colref) (st : parse_state),
      (∀ q ∈ (decoded_at fuel d index d.length).2, d.getD q 0 % 256 = 0xFE →
        d.length ≤ q + 3 → d.length + k ≤ q + 3) →
      (parse_descriptor fuel (d ++ List.replicate k 0) index (d.length + k) cur st).2 =
        (parse_descriptor fuel d index d.length cur st).2 ∧
      ((parse_descriptor fuel (d ++ List.replicate k 0) index (d.length + k) cur st).1 =
          (parse_descriptor fuel d index d.length cur st).1 ∨
        (d.length ≤ (parse_descriptor fuel d index d.length cur st).1 ∧
          d.length ≤
            (parse_descriptor fuel (d ++ List.replicate k 0) index (d.length + k) cur st).1))
    := by
  intro fuel
  induction fuel with
  | zero => intro index cur st _; exact ⟨rfl, Or.inl rfl⟩
  | succ n ih =>
    intro index cur st hsafe
    by_cases h : index < d.length
    · have h' : index < d.length + k := by omega
      have hb : (d ++ List.replicate k 0).getD index 0 % 256 = d.getD index 0 % 256 := by
        rw [getD_append_lt _ _ _ h]
      by_cases hlong : item_type (d.getD index 0 % 256) = TAG_TYPE_RESERVED ∧
          item_tag (d.getD index 0 % 256) = 0x0F ∧
          item_size (d.getD index 0 % 256) = 2 ∧ index + 1 + 2 < d.length
      · rw [parse_descriptor_long n d _ _ _ _ h hlong,
          parse_descriptor_long n _ _ _ _ _ h' (by
            rw [hb]
            exact ⟨hlong.1, hlong.2.1, hlong.2.2.1, by omega⟩)]
        rw [decoded_at_long n _ _ _ h hlong] at hsafe
        exact ih _ _ _ hsafe
      have hlong' : ¬ (item_type ((d ++ List.replicate k 0).getD index 0 % 256) =
            TAG_TYPE_RESERVED ∧
          item_tag ((d ++ List.replicate k 0).getD index 0 % 256) = 0x0F ∧
          item_size ((d ++ List.replicate k 0).getD index 0 % 256) = 2 ∧
          index + 1 + 2 < d.length + k) := by
        rw [hb]
        intro x
        have hfe := long_item_byte _ (Nat.mod_lt _ (by decide)) x.1 x.2.1 x.2.2.1
        have hin : index ∈ (decoded_at (n + 1) d index d.length).2 := by
          by_cases hcol : item_type (d.getD index 0 % 256) = TAG_TYPE_MAIN ∧
              item_tag (d.getD index 0 % 256) = TAG_MAIN_COLLECTION
          · rw [hcol.1] at x
            exact absurd x.1 (by decide)
          by_cases hend : item_type (d.getD index 0 % 256) = TAG_TYPE_MAIN ∧
              item_tag (d.getD index 0 % 256) = TAG_MAIN_END_COLLECTION
          · rw [hend.1] at x
            exact absurd x.1 (by decide)
          rw [decoded_at_item n _ _ _ h hlong hcol hend]
          exact List.mem_cons_self _ _
        have hroom : ¬ index + 1 + 2 < d.length := fun y =>
          hlong ⟨x.1, x.2.1, x.2.2.1, y⟩
        have := hsafe index hin hfe (by omega)
        omega
      by_cases hcol : item_type (d.getD index 0 % 256) = TAG_TYPE_MAIN ∧
          item_tag (d.getD index 0 % 256) = TAG_MAIN_COLLECTION
      · rw [parse_descriptor_collection n d _ _ _ _ h hcol,
          parse_descriptor_collection n _ _ _ _ _ h' (by rw [hb]; exact hcol)]
        rw [hb, read_item_padded]
        rw [decoded_at_collection n _ _ _ h hcol] at hsafe
        obtain ⟨e1, e2⟩ := ih (index + 1 + 1) (colref.sub st.collection_index)
          (main_collection_item (item_size (d.getD index 0 % 256))
            (read_item d (index + 1) d.length (item_size (d.getD index 0 % 256))) cur st)
          (fun q hq => hsafe q (List.mem_cons_of_mem _ (List.mem_append_left _ hq)))
        have hc := decoded_at_cursor d d.length n (index + 1 + 1)
          (colref.sub st.collection_index)
          (main_collection_item (item_size (d.getD index 0 % 256))
            (read_item d (index + 1) d.length (item_size (d.getD index 0 % 256))) cur st)
        obtain ⟨rD, hD⟩ : ∃ r, parse_descriptor n d (index + 1 + 1) d.length
            (colref.sub st.collection_index)
            (main_collection_item (item_size (d.getD index 0 % 256))
              (read_item d (index + 1) d.length (item_size (d.getD index 0 % 256))) cur st) =
            r := ⟨_, rfl⟩
        obtain ⟨rP, hP⟩ : ∃ r, parse_descriptor n (d ++ List.replicate k 0) (index + 1 + 1)
            (d.length + k) (colref.sub st.collection_index)
            (main_collection_item (item_size (d.getD index 0 % 256))
              (read_item d (index + 1) d.length (item_size (d.getD index 0 % 256))) cur st) =
            r := ⟨_, rfl⟩
        rw [hD] at e1 e2 hc
        rw [hP] at e1 e2
        rw [hD, hP, e1]
        rcases e2 with e2 | ⟨e2, e3⟩
        · rw [e2]
          refine ih rD.1 cur rD.2 (fun q hq => hsafe q (List.mem_cons_of_mem _
            (List.mem_append_right _ ?_)))
          rw [← hc]
          exact hq
        · rw [parse_descriptor_end n d rD.1 d.length cur rD.2 (by omega)]
          exact ⟨parse_descriptor_padding d k n rP.1 cur rD.2 e3, Or.inr ⟨e2,
            Nat.le_trans e3 (parse_descriptor_cursor _ _ _ _ _ _)⟩⟩
      by_cases hend : item_type (d.getD index 0 % 256) = TAG_TYPE_MAIN ∧
          item_tag (d.getD index 0 % 256) = TAG_MAIN_END_COLLECTION
      · rw [parse_descriptor_end_item n d _ _ _ _ h hend,
          parse_descriptor_end_item n _ _ _ _ _ h' (by rw [hb]; exact hend)]
        exact ⟨rfl, Or.inl rfl⟩
      · rw [parse_descriptor_item n d _ _ _ _ h hlong hcol hend,
          parse_descriptor_item n _ _ _ _ _ h' hlong' (by rw [hb]; exact hcol)
            (by rw [hb]; exact hend)]
        rw [hb, read_item_padded]
        rw [decoded_at_item n _ _ _ h hlong hcol hend] at hsafe
        exact ih _ _ _ (fun q hq => hsafe q (List.mem_cons_of_mem _ hq))
    · rw [parse_descriptor_end (n + 1) d _ _ _ _ h]
      have hle : d.length ≤ index := by omega
      exact ⟨parse_descriptor_padding d k (n + 1) index cur st hle,
        Or.inr ⟨hle, Nat.le_trans hle (parse_descriptor_cursor _ _ _ _ _ _)⟩⟩

/-- If the last item decoded declares a payload that runs past the end of the
buffer, the buffer padded with zero bytes up to the end of that payload is
parsed into the same state. -/
theorem parse_all_padded (d : List Nat) (p : Nat)
    (hlast : (decoded_at d.length d 0 d.length).2.getLast? = some p)
    (htrunc : d.length < p + 1 + item_size (d.getD p 0 % 256)) :
    parse_all (d ++ List.replicate (p + 1 + item_size (d.getD p 0 % 256) - d.length) 0) =
      parse_all d := by
  obtain ⟨k, hk⟩ : ∃ k, p + 1 + item_size (d.getD p 0 % 256) - d.length = k := ⟨_, rfl⟩
  rw [hk]
  have hfuel := decoded_at_fuel d d.length d.length (d.length + k) 0 (by omega) (by omega)
  have hsafe : ∀ q ∈ (decoded_at (d.length + k) d 0 d.length).2, d.getD q 0 % 256 = 0xFE →
      d.length ≤ q + 3 → d.length + k ≤ q + 3 := by
    intro q hq hfe hle
    rw [← hfuel] at hq
    obtain ⟨k1, -⟩ := decoded_at_last d d.length d.length 0 q hq
      (by rw [hfe]; decide) (by
        rw [hfe]
        have : item_size 0xFE = 2 := by decide
        rw [this]
        omega)
    rw [hlast] at k1
    have hpq : p = q := Option.some.inj k1
    subst hpq
    rw [hfe] at hk htrunc
    have : item_size 0xFE = 2 := by decide
    rw [this] at hk htrunc
    omega
  obtain ⟨e1, -⟩ := parse_descriptor_padded d k (d.length + k) 0 colref.base parse_state.init
    hsafe
  unfold parse_all
  rw [List.length_append, List.length_replicate, e1]
  rw [parse_descriptor_fuel (d.length + k) d.length d 0 d.length _ _ (by omega) (by omega)]

theorem item_size_le (b : Nat) : item_size b ≤ 4 := by
  unfold item_size
  split_ifs <;> omega

/-- The value read for an item whose declared payload runs past the end of the
buffer is the little-endian integer of the bytes that are there. -/
theorem read_item_truncated (d : List Nat) (p : Nat)
    (htrunc : d.length < p + 1 + item_size (d.getD p 0 % 256)) :
    read_item d (p + 1) d.length (item_size (d.getD p 0 % 256)) =
      (little_endian (d.drop (p + 1)) : Int) := by
  have h4 := item_size_le (d.getD p 0 % 256)
  rw [read_item_little_endian, List.take_length,
    List.take_of_length_le (by rw [List.length_drop]; omega)]
  have hlt := little_endian_lt (d.drop (p + 1))
  have hpow : 256 ^ (d.drop (p + 1)).length ≤ 256 ^ 3 :=
    Nat.pow_le_pow_right (by decide) (by rw [List.length_drop]; omega)
  have hb : little_endian (d.drop (p + 1)) < 16777216 := by
    have e : 256 ^ 3 = 16777216 := by norm_num
    omega
  simp only [i32]
  omega

/-! ## Features without elements -/

theorem build_elements_constant (r : WINE_HID_REPORT) (f : feature) (off : Nat)
    (h : f.isData = false) :
    build_elements r f off = (r, wrap32 (off + f.caps.BitSize * f.caps.ReportCount)) := by
  simp only [build_elements, h, Bool.not_false, if_true]

theorem build_elements_empty (r : WINE_HID_REPORT) (f : feature) (off : Nat)
    (hd : f.isData = true) (hu : f.caps.usage_count = 0) :
    build_elements r f off = (r, off) := by
  simp only [build_elements, hd, hu, Bool.not_true, Bool.false_eq_true, if_false,
    List.range_zero, build_elements_loop]

theorem block_step_layout (S : Sizes) (s s' : block_state) (f : feature)
    (h : s.layout = s'.layout) : (block_step S s f).layout = (block_step S s' f).layout := by
  cases s
  cases s'
  simp only [block_state.layout, Prod.mk.injEq] at h
  obtain ⟨rfl, rfl, rfl, rfl, rfl⟩ := h
  simp only [block_step, block_state.layout]
  split_ifs <;> rfl

theorem foldl_block_step_layout (S : Sizes) :
    ∀ (fs : List feature) (s s' : block_state), s.layout = s'.layout →
      (fs.foldl (block_step S) s).layout = (fs.foldl (block_step S) s').layout
  | [], _, _, h => h
  | f :: fs, s, s', h => by
    simp only [List.foldl]
    exact foldl_block_step_layout S fs _ _ (block_step_layout S s s' f h)

/-- A data feature without usages that continues the current record leaves
the layout state of the block as it is. -/
theorem block_step_empty (S : Sizes) (s : block_state) (f : feature)
    (hd : f.isData = true) (hu : f.caps.usage_count = 0)
    (hid : f.caps.ReportID = s.wine_report.reportID) :
    (block_step S s f).layout = s.layout := by
  have hne : ¬ f.caps.ReportID ≠ s.wine_report.reportID := fun h => h hid
  simp only [block_step, block_state.layout, hne, if_false, build_elements_empty _ f _ hd hu]

/-- A data feature without usages that follows a feature of the same report
identifier leaves the records, the byte length and the report count of the
block as they are without it. -/
theorem build_block_empty_feature (S : Sizes) (a c : Bool) (pre fs2 : List feature)
    (h f : feature) (prev : WINE_HID_REPORT) (hd : f.isData = true)
    (hu : f.caps.usage_count = 0) (hid : f.caps.ReportID = h.caps.ReportID) :
    (build_block S a c (pre ++ h :: f :: fs2) prev).records =
        (build_block S a c (pre ++ h :: fs2) prev).records ∧
      (build_block S a c (pre ++ h :: f :: fs2) prev).ByteLength =
        (build_block S a c (pre ++ h :: fs2) prev).ByteLength ∧
      (build_block S a c (pre ++ h :: f :: fs2) prev).report_count =
        (build_block S a c (pre ++ h :: fs2) prev).report_count := by
  have key : ∀ s0 : block_state,
      ((pre ++ h :: f :: fs2).foldl (block_step S) s0).layout =
        ((pre ++ h :: fs2).foldl (block_step S) s0).layout := by
    intro s0
    have e1 : pre ++ h :: f :: fs2 = (pre ++ [h]) ++ f :: fs2 := by simp
    have e2 : pre ++ h :: fs2 = (pre ++ [h]) ++ fs2 := by simp
    rw [e1, e2]
    simp only [List.foldl_append, List.foldl_cons, List.foldl_nil]
    apply foldl_block_step_layout
    apply block_step_empty S _ f hd hu
    rw [hid]
    exact (block_step_reportID S _ h).symm
  cases pre with
  | nil =>
    have k := key
      { done := [], wine_report := new_report S
          (if a then prev.offset + prev.dwSize else prev.offset) h,
        bitOffset := 8, bitLength := 0, report_count := 1, buttons := 0, values := 0 }
    simp only [block_state.layout, Prod.mk.injEq, List.nil_append] at k
    obtain ⟨k1, k2, k3, k4, k5⟩ := k
    simp only [List.nil_append, build_block, k1, k2, k3, k4, k5, and_self]
  | cons p pre =>
    have k := key
      { done := [], wine_report := new_report S
          (if a then prev.offset + prev.dwSize else prev.offset) p,
        bitOffset := 8, bitLength := 0, report_count := 1, buttons := 0, values := 0 }
    simp only [block_state.layout, Prod.mk.injEq, List.cons_append] at k
    obtain ⟨k1, k2, k3, k4, k5⟩ := k
    simp only [List.cons_append, build_block, k1, k2, k3, k4, k5, and_self]

/-! ## Invariants of the snapshots -/

theorem set_collection_caps_every (P : caps → Prop) (st : parse_state) (cur : colref)
    (h : st.every_snapshot P) : (set_collection_caps st cur st.caps).every_snapshot P := by
  obtain ⟨h1, h2, h3, h4, h5⟩ := h
  cases cur with
  | null => exact ⟨h1, h2, h3, h4, h5⟩
  | base => exact ⟨h1, h2, h3, h1, h5⟩
  | sub k =>
    simp only [set_collection_caps]
    cases hk : st.collections[k]? with
    | none => exact ⟨h1, h2, h3, h4, h5⟩
    | some n =>
      refine ⟨h1, h2, h3, h4, fun m hm => ?_⟩
      rcases List.mem_or_eq_of_mem_set hm with hm | rfl
      · exact h5 m hm
      · exact h1

theorem main_collection_item_every (P : caps → Prop) (hnew : ∀ c, P c → P (new_caps c))
    (bSize : Nat) (itemVal : Int) (cur : colref) (st : parse_state)
    (h : st.every_snapshot P) : (main_collection_item bSize itemVal cur st).every_snapshot P := by
  have hs := set_collection_caps_every P st cur h
  have h1 := h.1
  have e : ∀ st1 : parse_state, st1.every_snapshot P →
      parse_state.every_snapshot P
        { st1 with
          collections := st1.collections ++ [parse_collection bSize itemVal
            { caps := st.caps, index := st.collection_index, type := 0, parent := cur }],
          collection_index := st.collection_index + 1, caps := new_caps st.caps } := by
    intro st1 k
    obtain ⟨-, k2, k3, k4, k5⟩ := k
    refine ⟨hnew _ h1, k2, k3, k4, fun m hm => ?_⟩
    rcases List.mem_append.1 hm with hm | hm
    · exact k5 m hm
    · rw [List.mem_singleton.1 hm]
      unfold parse_collection
      split_ifs <;> exact h1
  unfold main_collection_item
  by_cases h0 : st.collection_index = 0
  · simp only [h0, if_true]
    have := e _ hs
    rw [h0] at this
    exact this
  · simp only [h0, if_false]
    exact e _ h

theorem item_effect_every (P : caps → Prop) (hnew : ∀ c, P c → P (new_caps c))
    (hglob : ∀ bSize itemVal bTag c stack, P c → (∀ x ∈ stack, P x) →
      P (global_item bSize itemVal bTag c stack).1 ∧
        ∀ x ∈ (global_item bSize itemVal bTag c stack).2, P x)
    (hloc : ∀ bSize itemVal bTag c, P c → P (local_item bSize itemVal bTag c))
    (bType bTag bSize : Nat) (itemVal : Int) (cur : colref) (st : parse_state)
    (h : st.every_snapshot P) :
    (item_effect bType bTag bSize itemVal cur st).every_snapshot P := by
  obtain ⟨h1, h2, h3, h4, h5⟩ := h
  have hio : ∀ t, (main_io_item t bSize itemVal bTag cur st).every_snapshot P := by
    intro t
    refine ⟨hnew _ h1, h2, fun f hf => ?_, h4, h5⟩
    rcases List.mem_append.1 hf with hf | hf
    · exact h3 f hf
    · rw [List.mem_singleton.1 hf]
      exact h1
  unfold item_effect
  split_ifs
  · exact hio _
  · exact hio _
  · exact hio _
  · exact ⟨h1, h2, h3, h4, h5⟩
  · exact ⟨(hglob _ _ _ _ _ h1 h2).1, (hglob _ _ _ _ _ h1 h2).2, h3, h4, h5⟩
  · exact ⟨hloc _ _ _ _ h1, h2, h3, h4, h5⟩
  · exact ⟨h1, h2, h3, h4, h5⟩

/-- A property of snapshots that `new_caps` and the Global and Local items keep
holds for every snapshot after `parse_descriptor` if it did before. -/
theorem parse_descriptor_every (P : caps → Prop) (hnew : ∀ c, P c → P (new_caps c))
    (hglob : ∀ bSize itemVal bTag c stack, P c → (∀ x ∈ stack, P x) →
      P (global_item bSize itemVal bTag c stack).1 ∧
        ∀ x ∈ (global_item bSize itemVal bTag c stack).2, P x)
    (hloc : ∀ bSize itemVal bTag c, P c → P (local_item bSize itemVal bTag c))
    (fuel : Nat) (descriptor : List Nat) (index length : Nat) (cur : colref)
    (st : parse_state) (h : st.every_snapshot P) :
    (parse_descriptor fuel descriptor index length cur st).2.every_snapshot P :=
  parse_descriptor_preserves (parse_state.every_snapshot P)
    (fun _ _ _ _ _ _ k => item_effect_every P hnew hglob hloc _ _ _ _ _ _ k)
    (fun _ _ _ _ k => main_collection_item_every P hnew _ _ _ _ k) _ _ _ _ _ _ h

/-- The Global items: a property that does not look at the fields they set is
kept, for the accumulator and for the stack. -/
theorem global_item_keeps (P : caps → Prop)
    (hset : ∀ c : caps, P c →
      (∀ v : Nat, v < 65536 → P { c with UsagePage := v }) ∧ (∀ v, P { c with LogicalMin := v }) ∧
      (∀ v, P { c with LogicalMax := v }) ∧ (∀ v, P { c with PhysicalMin := v }) ∧
      (∀ v, P { c with PhysicalMax := v }) ∧ (∀ v, P { c with UnitsExp := v }) ∧
      (∀ v, P { c with Units := v }) ∧ (∀ v : Nat, v < 65536 → P { c with BitSize := v }) ∧
      (∀ v : Nat, v < 256 → P { c with ReportID := v }) ∧
      (∀ v : Nat, v < 65536 → P { c with ReportCount := v }))
    (bSize : Nat) (itemVal : Int) (bTag : Nat) (c : caps) (stack : List caps)
    (hc : P c) (hs : ∀ x ∈ stack, P x) :
    P (global_item bSize itemVal bTag c stack).1 ∧
      ∀ x ∈ (global_item bSize itemVal bTag c stack).2, P x := by
  obtain ⟨s1, s2, s3, s4, s5, s6, s7, s8, s9, s10⟩ := hset c hc
  have h16 : ∀ v : Int, (v % 65536).toNat < 65536 := by
    intro v
    omega
  have h8 : ∀ v : Int, (v % 256).toNat < 256 := by
    intro v
    omega
  unfold global_item
  refine ite_preserves (fun r : caps × List caps => P r.1 ∧ ∀ x ∈ r.2, P x) _ _ _
    ⟨s1 _ (h16 _), hs⟩ ?_
  refine ite_preserves (fun r : caps × List caps => P r.1 ∧ ∀ x ∈ r.2, P x) _ _ _
    ⟨s2 _, hs⟩ ?_
  refine ite_preserves (fun r : caps × List caps => P r.1 ∧ ∀ x ∈ r.2, P x) _ _ _
    ⟨s3 _, hs⟩ ?_
  refine ite_preserves (fun r : caps × List caps => P r.1 ∧ ∀ x ∈ r.2, P x) _ _ _
    ⟨s4 _, hs⟩ ?_
  refine ite_preserves (fun r : caps × List caps => P r.1 ∧ ∀ x ∈ r.2, P x) _ _ _
    ⟨s5 _, hs⟩ ?_
  refine ite_preserves (fun r : caps × List caps => P r.1 ∧ ∀ x ∈ r.2, P x) _ _ _
    ⟨s6 _, hs⟩ ?_
  refine ite_preserves (fun r : caps × List caps => P r.1 ∧ ∀ x ∈ r.2, P x) _ _ _
    ⟨s7 _, hs⟩ ?_
  refine ite_preserves (fun r : caps × List caps => P r.1 ∧ ∀ x ∈ r.2, P x) _ _ _
    ⟨s8 _ (h16 _), hs⟩ ?_
  refine ite_preserves (fun r : caps × List caps => P r.1 ∧ ∀ x ∈ r.2, P x) _ _ _
    ⟨s9 _ (h8 _), hs⟩ ?_
  refine ite_preserves (fun r : caps × List caps => P r.1 ∧ ∀ x ∈ r.2, P x) _ _ _
    ⟨s10 _ (h16 _), hs⟩ ?_
  refine ite_preserves (fun r : caps × List caps => P r.1 ∧ ∀ x ∈ r.2, P x) _ _ _ ?_ ?_
  · refine ⟨hc, fun x hx => ?_⟩
    rcases List.mem_append.1 hx with hx | hx
    · exact hs x hx
    · rw [List.mem_singleton.1 hx]
      exact hc
  refine ite_preserves (fun r : caps × List caps => P r.1 ∧ ∀ x ∈ r.2, P x) _ _ _ ?_ ⟨hc, hs⟩
  cases hl : stack.getLast? with
  | none => exact ⟨hc, hs⟩
  | some saved =>
    exact ⟨hs saved (List.mem_of_getLast?_eq_some hl),
      fun x hx => hs x (List.dropLast_subset _ hx)⟩

theorem usage_ok_new_caps (c : caps) (_h : c.usage_ok) : (new_caps c).usage_ok := by
  refine ⟨Nat.zero_le _, fun k => ?_⟩
  simp [new_caps] at k

theorem usage_ok_local_item (bSize : Nat) (itemVal : Int) (bTag : Nat) (c : caps)
    (h : c.usage_ok) : (local_item bSize itemVal bTag c).usage_ok := by
  unfold local_item
  refine ite_preserves (fun r : caps => r.usage_ok) _ _ _ ?_ ?_
  · split_ifs with hc
    · exact h
    · refine ⟨?_, fun k => ?_⟩
      · show c.usage_count + 1 ≤ USAGE_MAX
        omega
      · simp at k
  refine ite_preserves (fun r : caps => r.usage_ok) _ _ _ ⟨(by decide : (1 : Nat) ≤ 10), fun _ => rfl⟩ ?_
  refine ite_preserves (fun r : caps => r.usage_ok) _ _ _ ⟨(by decide : (1 : Nat) ≤ 10), fun _ => rfl⟩ ?_
  refine ite_preserves (fun r : caps => r.usage_ok) _ _ _ h ?_
  refine ite_preserves (fun r : caps => r.usage_ok) _ _ _ h ?_
  refine ite_preserves (fun r : caps => r.usage_ok) _ _ _ h ?_
  refine ite_preserves (fun r : caps => r.usage_ok) _ _ _ h ?_
  refine ite_preserves (fun r : caps => r.usage_ok) _ _ _ h ?_
  refine ite_preserves (fun r : caps => r.usage_ok) _ _ _ h ?_
  exact ite_preserves (fun r : caps => r.usage_ok) _ _ _ h h

/-- Every snapshot of every state `parse_descriptor` reaches from the initial
one has at most `USAGE_MAX` usages, and one if it is a range. -/
theorem parse_descriptor_usage_ok (fuel : Nat) (descriptor : List Nat) (index length : Nat)
    (cur : colref) (st : parse_state) (h : st.every_snapshot caps.usage_ok) :
    (parse_descriptor fuel descriptor index length cur st).2.every_snapshot caps.usage_ok :=
  parse_descriptor_every caps.usage_ok usage_ok_new_caps
    (fun _ _ _ c _ hc hs => global_item_keeps caps.usage_ok
      (fun _ k => ⟨fun _ _ => k, fun _ => k, fun _ => k, fun _ => k, fun _ => k, fun _ => k,
        fun _ => k, fun _ _ => k, fun _ _ => k, fun _ _ => k⟩) _ _ _ c _ hc hs)
    usage_ok_local_item _ _ _ _ _ _ h

theorem init_usage_ok : parse_state.init.every_snapshot caps.usage_ok :=
  ⟨by decide, fun _ h => absurd h (List.not_mem_nil _), fun _ h => absurd h (List.not_mem_nil _),
    by decide, fun _ h => absurd h (List.not_mem_nil _)⟩

theorem fits_set_slot (c : caps) (h : c.fits) (k : Nat) (v : Int) : (c.set_slot k v).fits := by
  obtain ⟨h1, h2, h3, h4, h5⟩ := h
  refine ⟨h1, h2, h3, h4, fun x hx => ?_⟩
  rcases List.mem_or_eq_of_mem_set hx with hx | rfl
  · exact h5 x hx
  · omega

theorem fits_local_item (bSize : Nat) (itemVal : Int) (bTag : Nat) (c : caps)
    (h : c.fits) : (local_item bSize itemVal bTag c).fits := by
  have hs : ∀ k, (c.set_slot k (getValue bSize itemVal false)).fits :=
    fun k => fits_set_slot c h k _
  unfold local_item
  refine ite_preserves (fun r : caps => r.fits) _ _ _ ?_ ?_
  · split_ifs with hc
    · exact h
    · exact hs _
  refine ite_preserves (fun r : caps => r.fits) _ _ _ (hs slot_UsageMin) ?_
  refine ite_preserves (fun r : caps => r.fits) _ _ _ (hs slot_UsageMax) ?_
  refine ite_preserves (fun r : caps => r.fits) _ _ _ (hs slot_DesignatorIndex) ?_
  refine ite_preserves (fun r : caps => r.fits) _ _ _ (hs slot_DesignatorMin) ?_
  refine ite_preserves (fun r : caps => r.fits) _ _ _ (hs slot_DesignatorMax) ?_
  refine ite_preserves (fun r : caps => r.fits) _ _ _ (hs slot_StringIndex) ?_
  refine ite_preserves (fun r : caps => r.fits) _ _ _ (hs slot_StringMin) ?_
  refine ite_preserves (fun r : caps => r.fits) _ _ _ (hs slot_StringMax) ?_
  exact ite_preserves (fun r : caps => r.fits) _ _ _ h h

/-- Every snapshot of every state `parse_descriptor` reaches from the initial
one holds values that fit the widths of its fields. -/
theorem parse_descriptor_fits (fuel : Nat) (descriptor : List Nat) (index length : Nat)
    (cur : colref) (st : parse_state) (h : st.every_snapshot caps.fits) :
    (parse_descriptor fuel descriptor index length cur st).2.every_snapshot caps.fits :=
  parse_descriptor_every caps.fits (fun _ k => k)
    (fun _ _ _ c _ hc hs => global_item_keeps caps.fits
      (fun _ k => ⟨fun _ kv => ⟨kv, k.2⟩, fun _ => k, fun _ => k, fun _ => k, fun _ => k,
        fun _ => k, fun _ => k, fun _ kv => ⟨k.1, kv, k.2.2⟩,
        fun _ kv => ⟨k.1, k.2.1, k.2.2.1, kv, k.2.2.2.2⟩,
        fun _ kv => ⟨k.1, k.2.1, kv, k.2.2.2⟩⟩) _ _ _ c _ hc hs)
    fits_local_item _ _ _ _ _ _ h

theorem init_fits : parse_state.init.every_snapshot caps.fits :=
  ⟨by decide, fun _ h => absurd h (List.not_mem_nil _), fun _ h => absurd h (List.not_mem_nil _),
    by decide, fun _ h => absurd h (List.not_mem_nil _)⟩

theorem parse_all_fits (descriptor : List Nat) (f : feature)
    (hf : f ∈ (parse_all descriptor).features) : f.caps.fits :=
  (parse_descriptor_fits _ _ _ _ _ _ init_fits).2.2.1 f hf

theorem parse_all_usage_ok (descriptor : List Nat) (f : feature)
    (hf : f ∈ (parse_all descriptor).features) : f.caps.usage_ok :=
  (parse_descriptor_usage_ok _ _ _ _ _ _ init_usage_ok).2.2.1 f hf

/-- The element written for a usage of a feature that is not of the Button
page. -/
theorem build_element_value (f : feature) (i b : Nat) (hw : f.caps.fits)
    (hv : f.caps.UsagePage ≠ HID_USAGE_PAGE_BUTTON) :
    (build_element f i b).1.ElementType = WINE_ELEMENT_TYPE.ValueElement ∧
    (build_element f i b).1.ReportCount =
      (if f.caps.usage_count > 1 then
        if f.caps.ReportCount > f.caps.usage_count then
          f.caps.ReportCount / f.caps.usage_count
        else 1
      else f.caps.ReportCount) ∧
    (build_element f i b).1.bitCount = f.caps.BitSize * (build_element f i b).1.ReportCount := by
  have hc := build_element_classified f i b hw
  have hne : (build_element f i b).1.ElementType ≠ WINE_ELEMENT_TYPE.ButtonElement :=
    fun k => hv (hc.1.1 k)
  refine ⟨(hc.2.2 hne).1, ?_, (hc.2.2 hne).2⟩
  simp only [build_element, hv, if_false]
  split_ifs <;> rfl

/-! ## Termination of `parse_descriptor` -/

theorem run_of_end (fuel : Nat) (descriptor : List Nat) (index length : Nat)
    (h : ¬ index < length) :
    run_of fuel descriptor index length =
      { cursor := index, visited := [], depth := 0, finished := true } := by
  cases fuel with
  | zero => simp [run_of, h]
  | succ n =>
    rw [run_of]
    simp only [h, if_false]

theorem run_of_long (fuel : Nat) (descriptor : List Nat) (index length : Nat)
    (h : index < length)
    (hlong : item_type (descriptor.getD index 0 % 256) = TAG_TYPE_RESERVED ∧
      item_tag (descriptor.getD index 0 % 256) = 0x0F ∧
      item_size (descriptor.getD index 0 % 256) = 2 ∧ index + 1 + 2 < length) :
    run_of (fuel + 1) descriptor index length =
      { run_of fuel descriptor (index + 1) length with
        visited := index :: (run_of fuel descriptor (index + 1) length).visited } := by
  simp only [item_type, item_tag, item_size] at hlong
  rw [run_of]
  simp only [h, if_true, hlong, and_self]

theorem run_of_collection (fuel : Nat) (descriptor : List Nat) (index length : Nat)
    (h : index < length)
    (hcol : item_type (descriptor.getD index 0 % 256) = TAG_TYPE_MAIN ∧
      item_tag (descriptor.getD index 0 % 256) = TAG_MAIN_COLLECTION) :
    run_of (fuel + 1) descriptor index length =
      { cursor := (run_of fuel descriptor
          (run_of fuel descriptor (index + 1 + 1) length).cursor length).cursor,
        visited := index :: ((run_of fuel descriptor (index + 1 + 1) length).visited ++
          (run_of fuel descriptor
            (run_of fuel descriptor (index + 1 + 1) length).cursor length).visited),
        depth := max ((run_of fuel descriptor (index + 1 + 1) length).depth + 1)
          (run_of fuel descriptor
            (run_of fuel descriptor (index + 1 + 1) length).cursor length).depth,
        finished := (run_of fuel descriptor (index + 1 + 1) length).finished &&
          (run_of fuel descriptor
            (run_of fuel descriptor (index + 1 + 1) length).cursor length).finished } := by
  simp only [item_type, item_tag] at hcol
  rw [run_of]
  simp only [h, if_true, hcol.1, hcol.2]
  simp [TAG_TYPE_MAIN, TAG_TYPE_RESERVED]

theorem run_of_end_item (fuel : Nat) (descriptor : List Nat) (index length : Nat)
    (h : index < length)
    (hend : item_type (descriptor.getD index 0 % 256) = TAG_TYPE_MAIN ∧
      item_tag (descriptor.getD index 0 % 256) = TAG_MAIN_END_COLLECTION) :
    run_of (fuel + 1) descriptor index length =
      { cursor := index + 1, visited := [index], depth := 0, finished := true } := by
  simp only [item_type, item_tag] at hend
  rw [run_of]
  simp only [h, if_true, hend.1, hend.2]
  simp [TAG_TYPE_MAIN, TAG_TYPE_RESERVED, TAG_MAIN_COLLECTION, TAG_MAIN_END_COLLECTION]

theorem run_of_item (fuel : Nat) (descriptor : List Nat) (index length : Nat)
    (h : index < length)
    (hlong : ¬ (item_type (descriptor.getD index 0 % 256) = TAG_TYPE_RESERVED ∧
      item_tag (descriptor.getD index 0 % 256) = 0x0F ∧
      item_size (descriptor.getD index 0 % 256) = 2 ∧ index + 1 + 2 < length))
    (hcol : ¬ (item_type (descriptor.getD index 0 % 256) = TAG_TYPE_MAIN ∧
      item_tag (descriptor.getD index 0 % 256) = TAG_MAIN_COLLECTION))
    (hend : ¬ (item_type (descriptor.getD index 0 % 256) = TAG_TYPE_MAIN ∧
      item_tag (descriptor.getD index 0 % 256) = TAG_MAIN_END_COLLECTION)) :
    run_of (fuel + 1) descriptor index length =
      { run_of fuel descriptor
          (index + 1 + item_size (descriptor.getD index 0 % 256)) length with
        visited := index :: (run_of fuel descriptor
          (index + 1 + item_size (descriptor.getD index 0 % 256)) length).visited } := by
  simp only [item_type, item_tag, item_size] at hlong hcol hend ⊢
  rw [run_of]
  simp only [h, if_true, hlong, hcol, hend, if_false]

/-- The recorded cursor is the cursor `parse_descriptor` returns. -/
theorem run_of_cursor (descriptor : List Nat) (length : Nat) :
    ∀ (fuel index : Nat) (cur : colref) (st : parse_state),
      (parse_descriptor fuel descriptor index length cur st).1 =
        (run_of fuel descriptor index length).cursor := by
  intro fuel
  induction fuel with
  | zero => intro index cur st; rfl
  | succ n ih =>
    intro index cur st
    by_cases h : index < length
    · by_cases hlong : item_type (descriptor.getD index 0 % 256) = TAG_TYPE_RESERVED ∧
          item_tag (descriptor.getD index 0 % 256) = 0x0F ∧
          item_size (descriptor.getD index 0 % 256) = 2 ∧ index + 1 + 2 < length
      · rw [parse_descriptor_long n _ _ _ _ _ h hlong, run_of_long n _ _ _ h hlong]
        exact ih _ _ _
      by_cases hcol : item_type (descriptor.getD index 0 % 256) = TAG_TYPE_MAIN ∧
          item_tag (descriptor.getD index 0 % 256) = TAG_MAIN_COLLECTION
      · rw [parse_descriptor_collection n _ _ _ _ _ h hcol,
          run_of_collection n _ _ _ h hcol, ih, ih]
      by_cases hend : item_type (descriptor.getD index 0 % 256) = TAG_TYPE_MAIN ∧
          item_tag (descriptor.getD index 0 % 256) = TAG_MAIN_END_COLLECTION
      · rw [parse_descriptor_end_item n _ _ _ _ _ h hend, run_of_end_item n _ _ _ h hend]
      · rw [parse_descriptor_item n _ _ _ _ _ h hlong hcol hend,
          run_of_item n _ _ _ h hlong hcol hend]
        exact ih _ _ _
    · rw [parse_descriptor_end _ _ _ _ _ _ h, run_of_end _ _ _ _ h]

/-- A strictly increasing list of numbers from `lo` up to, not including, `hi`
has at most `hi - lo` entries. -/
theorem length_le_of_increasing :
    ∀ (l : List Nat) (lo hi : Nat), l.Pairwise (fun a b => a < b) →
      (∀ q ∈ l, lo ≤ q ∧ q < hi) → l.length ≤ hi - lo := by
  intro l
  induction l with
  | nil => intro lo hi _ _; exact Nat.zero_le _
  | cons a t ih =>
    intro lo hi hp hb
    rw [List.pairwise_cons] at hp
    have ha := hb a (List.mem_cons_self _ _)
    have := ih (a + 1) hi hp.2 (fun q hq => ⟨hp.1 q hq, (hb q (List.mem_cons_of_mem _ hq)).2⟩)
    simp only [List.length_cons]
    omega

/-- The shape of a run: the cursor only grows, every iteration starts at a
cursor greater than all before, inside the buffer, and the nesting is at most
the number of Collection items among the iterations. -/
theorem run_of_shape (descriptor : List Nat) (length : Nat) :
    ∀ (fuel index : Nat),
      index ≤ (run_of fuel descriptor index length).cursor ∧
      (index < length → 0 < fuel → index < (run_of fuel descriptor index length).cursor) ∧
      (run_of fuel descriptor index length).visited.Pairwise (fun a b => a < b) ∧
      (∀ q ∈ (run_of fuel descriptor index length).visited,
        index ≤ q ∧ q < length ∧ q < (run_of fuel descriptor index length).cursor) ∧
      (run_of fuel descriptor index length).depth ≤
        ((run_of fuel descriptor index length).visited.filter
          (collection_at descriptor)).length ∧
      (length - index ≤ fuel → (run_of fuel descriptor index length).finished = true) := by
  intro fuel
  induction fuel with
  | zero =>
    intro index
    refine ⟨Nat.le_refl _, fun _ h => absurd h (Nat.lt_irrefl _), List.Pairwise.nil,
      fun q hq => absurd hq (List.not_mem_nil _), Nat.le_refl _, fun h => ?_⟩
    simp only [run_of, decide_eq_true_eq]
    omega
  | succ n ih =>
    intro index
    by_cases h : index < length
    · by_cases hlong : item_type (descriptor.getD index 0 % 256) = TAG_TYPE_RESERVED ∧
          item_tag (descriptor.getD index 0 % 256) = 0x0F ∧
          item_size (descriptor.getD index 0 % 256) = 2 ∧ index + 1 + 2 < length
      · rw [run_of_long n _ _ _ h hlong]
        dsimp only
        obtain ⟨k1, -, k3, k4, k5, k6⟩ := ih (index + 1)
        have hnc : collection_at descriptor index = false := by
          simp only [collection_at, decide_eq_false_iff_not]
          intro k
          rw [k.1] at hlong
          exact absurd hlong.1 (by decide)
        refine ⟨by omega, fun _ _ => by omega, ?_, ?_, ?_,
          fun hf => k6 (by omega)⟩
        · exact List.pairwise_cons.2 ⟨fun q hq => by have := (k4 q hq).1; omega, k3⟩
        · intro q hq
          rcases List.mem_cons.1 hq with rfl | hq
          · exact ⟨Nat.le_refl _, h, by omega⟩
          · have := k4 q hq
            exact ⟨by omega, this.2.1, this.2.2⟩
        · show _ ≤ (List.filter _ (index :: _)).length
          rw [List.filter_cons_of_neg (by simp [hnc])]
          exact k5
      by_cases hcol : item_type (descriptor.getD index 0 % 256) = TAG_TYPE_MAIN ∧
          item_tag (descriptor.getD index 0 % 256) = TAG_MAIN_COLLECTION
      · rw [run_of_collection n _ _ _ h hcol]
        dsimp only
        obtain ⟨k1, -, k3, k4, k5, k6⟩ := ih (index + 1 + 1)
        obtain ⟨j1, -, j3, j4, j5, j6⟩ :=
          ih (run_of n descriptor (index + 1 + 1) length).cursor
        have hc : collection_at descriptor index = true := by
          simp only [collection_at, decide_eq_true_eq]
          exact hcol
        refine ⟨by omega, fun _ _ => by omega, ?_, ?_, ?_,
          fun hf => ?_⟩
        · refine List.pairwise_cons.2 ⟨fun q hq => ?_, List.pairwise_append.2 ⟨k3, j3, ?_⟩⟩
          · rcases List.mem_append.1 hq with hq | hq
            · have := (k4 q hq).1
              omega
            · have := (j4 q hq).1
              omega
          · intro a ha b hb
            have := (k4 a ha).2.2
            have := (j4 b hb).1
            omega
        · intro q hq
          rcases List.mem_cons.1 hq with rfl | hq
          · exact ⟨Nat.le_refl _, h, by omega⟩
          rcases List.mem_append.1 hq with hq | hq
          · have := k4 q hq
            exact ⟨by omega, this.2.1, by omega⟩
          · have := j4 q hq
            exact ⟨by omega, this.2.1, this.2.2⟩
        · show max _ _ ≤ (List.filter _ (index :: _)).length
          rw [List.filter_cons_of_pos (by simp [hc]), List.filter_append, List.length_cons,
            List.length_append]
          exact max_le (by omega) (by omega)
        · show (_ && _) = true
          rw [k6 (by omega), j6 (by omega)]
          rfl
      by_cases hend : item_type (descriptor.getD index 0 % 256) = TAG_TYPE_MAIN ∧
          item_tag (descriptor.getD index 0 % 256) = TAG_MAIN_END_COLLECTION
      · rw [run_of_end_item n _ _ _ h hend]
        dsimp only
        refine ⟨Nat.le_succ _, fun _ _ => Nat.lt_succ_self _, List.pairwise_singleton _ _, ?_,
          Nat.zero_le _, fun _ => rfl⟩
        intro q hq
        rw [List.mem_singleton.1 hq]
        exact ⟨Nat.le_refl _, h, Nat.lt_succ_self _⟩
      · rw [run_of_item n _ _ _ h hlong hcol hend]
        dsimp only
        obtain ⟨k1, -, k3, k4, k5, k6⟩ :=
          ih (index + 1 + item_size (descriptor.getD index 0 % 256))
        have hnc : collection_at descriptor index = false := by
          simp only [collection_at, decide_eq_false_iff_not]
          exact hcol
        refine ⟨by omega, fun _ _ => by omega, ?_, ?_, ?_,
          fun hf => k6 (by omega)⟩
        · exact List.pairwise_cons.2 ⟨fun q hq => by have := (k4 q hq).1; omega, k3⟩
        · intro q hq
          rcases List.mem_cons.1 hq with rfl | hq
          · exact ⟨Nat.le_refl _, h, by omega⟩
          · have := k4 q hq
            exact ⟨by omega, this.2.1, this.2.2⟩
        · show _ ≤ (List.filter _ (index :: _)).length
          rw [List.filter_cons_of_neg (by simp [hnc])]
          exact k5
    · rw [run_of_end _ _ _ _ h]
      exact ⟨Nat.le_refl _, fun k => absurd k h, List.Pairwise.nil,
        fun q hq => absurd hq (List.not_mem_nil _), Nat.le_refl _, fun _ => rfl⟩

/-! ## Number of elements written -/

theorem build_elements_length (r : WINE_HID_REPORT) (f : feature) (off : Nat) :
    (build_elements r f off).1.Elements.length =
      r.Elements.length + if f.isData then f.caps.usage_count else 0 := by
  cases hd : f.isData with
  | false =>
    rw [build_elements_constant r f off hd]
    simp
  | true =>
    obtain ⟨new, h1, h2, -, -⟩ := build_elements_spec r f off hd
    rw [h1]
    simp [h2]

theorem block_step_written (S : Sizes) (s : block_state) (f : feature) :
    written (block_step S s f).done + (block_step S s f).wine_report.Elements.length =
      (written s.done + s.wine_report.Elements.length) +
        if f.isData then f.caps.usage_count else 0 := by
  unfold block_step
  by_cases hid : f.caps.ReportID ≠ s.wine_report.reportID
  · simp only [hid, ne_eq, not_false_eq_true, if_true]
    rw [build_elements_length]
    simp only [written, List.map_append, List.sum_append, List.map_cons, List.map_nil,
      List.sum_cons, List.sum_nil, close_report, new_report, List.length_nil]
    omega
  · simp only [hid, if_false]
    rw [build_elements_length]
    omega

theorem foldl_block_step_written (S : Sizes) :
    ∀ (fs : List feature) (s : block_state),
      written (fs.foldl (block_step S) s).done +
          (fs.foldl (block_step S) s).wine_report.Elements.length =
        (written s.done + s.wine_report.Elements.length) + data_usages fs
  | [], s => rfl
  | f :: fs, s => by
    simp only [List.foldl]
    rw [foldl_block_step_written S fs (block_step S s f), block_step_written]
    cases hd : f.isData with
    | false =>
      simp only [data_usages, List.filter_cons, hd, Bool.false_eq_true, if_false]
      omega
    | true =>
      simp only [data_usages, List.filter_cons, hd, if_true, List.map_cons, List.sum_cons]
      omega

/-- The records of a block hold one element for every usage of every data
feature of the block. -/
theorem build_block_written (S : Sizes) (a c : Bool) (fs : List feature)
    (prev : WINE_HID_REPORT) : written (build_block S a c fs prev).records = data_usages fs := by
  cases fs with
  | nil => rfl
  | cons f0 rest =>
    have k := foldl_block_step_written S (f0 :: rest)
      { done := [],
        wine_report := new_report S (if a then prev.offset + prev.dwSize else prev.offset) f0,
        bitOffset := 8, bitLength := 0, report_count := 1, buttons := 0, values := 0 }
    simp only [build_block]
    simp only [written, List.map_append, List.sum_append, List.map_cons, List.map_nil,
      List.sum_cons, List.sum_nil, List.map_nil, new_report, List.length_nil] at k ⊢
    cases c
    · simp only [Bool.false_eq_true, if_false]
      omega
    · simp only [if_true, close_report]
      omega

theorem data_usages_cons (g : feature) (l : List feature) :
    data_usages (g :: l) = (if g.isData then g.caps.usage_count else 0) + data_usages l := by
  cases hd : g.isData
  · simp [data_usages, hd]
  · simp [data_usages, hd]

/-- Every feature is of one of the three directions. -/
theorem data_usages_partition (fs : List feature) :
    data_usages (features_of_type HIDP_REPORT_TYPE.HidP_Input fs) +
        data_usages (features_of_type HIDP_REPORT_TYPE.HidP_Output fs) +
        data_usages (features_of_type HIDP_REPORT_TYPE.HidP_Feature fs) =
      data_usages fs := by
  induction fs with
  | nil => rfl
  | cons f t ih =>
    simp only [features_of_type] at ih ⊢
    rw [data_usages_cons f t, ← ih]
    cases ht : f.type
    · rw [List.filter_cons_of_pos (by simp [ht]), List.filter_cons_of_neg (by simp [ht]),
        List.filter_cons_of_neg (by simp [ht]), data_usages_cons]
      omega
    · rw [List.filter_cons_of_neg (by simp [ht]), List.filter_cons_of_pos (by simp [ht]),
        List.filter_cons_of_neg (by simp [ht]), data_usages_cons]
      omega
    · rw [List.filter_cons_of_neg (by simp [ht]), List.filter_cons_of_neg (by simp [ht]),
        List.filter_cons_of_pos (by simp [ht]), data_usages_cons]
      omega

theorem data_usages_le (fs : List feature) :
    data_usages fs ≤ (fs.map fun f => f.caps.usage_count).sum ∧
    (data_usages fs = (fs.map fun f => f.caps.usage_count).sum ↔
      ∀ f ∈ fs, f.caps.usage_count ≠ 0 → f.isData = true) := by
  induction fs with
  | nil => simp [data_usages]
  | cons f t ih =>
    obtain ⟨h1, h2⟩ := ih
    cases hd : f.isData with
    | false =>
      have e : data_usages (f :: t) = data_usages t := by
        simp [data_usages, hd]
      rw [e]
      simp only [List.map_cons, List.sum_cons, List.mem_cons, forall_eq_or_imp, hd,
        Bool.false_eq_true, imp_false, not_not]
      refine ⟨by omega, fun k => ⟨by omega, h2.1 (by omega)⟩, fun k => ?_⟩
      have := h2.2 k.2
      omega
    | true =>
      have e : data_usages (f :: t) = f.caps.usage_count + data_usages t := by
        simp [data_usages, hd]
      rw [e]
      simp only [List.map_cons, List.sum_cons, List.mem_cons, forall_eq_or_imp, hd,
        implies_true, true_and]
      refine ⟨by omega, fun k => h2.1 (by omega), fun k => ?_⟩
      have := h2.2 k
      omega

/-! ## Records of sorted features -/

theorem block_step_ids_ne (S : Sizes) (s : block_state) (f : feature)
    (hne : f.caps.ReportID ≠ s.wine_report.reportID) :
    (block_step S s f).ids = s.ids ++ [f.caps.ReportID] ∧
    (block_step S s f).report_count = wrap32 (s.report_count + 1) ∧
    (block_step S s f).done.length = s.done.length + 1 := by
  have h1 := block_step_reportID S s f
  have h2 : (block_step S s f).done = s.done ++ [close_report S s.wine_report] := by
    unfold block_step
    simp only [hne, ne_eq, not_false_eq_true, if_true]
  have h3 : (block_step S s f).report_count = wrap32 (s.report_count + 1) := by
    unfold block_step
    simp only [hne, ne_eq, not_false_eq_true, if_true]
  refine ⟨?_, h3, by rw [h2]; simp⟩
  simp only [block_state.ids, h1, h2, List.map_append, List.map_cons, List.map_nil,
    close_report]

theorem block_step_ids_eq (S : Sizes) (s : block_state) (f : feature)
    (heq : f.caps.ReportID = s.wine_report.reportID) :
    (block_step S s f).ids = s.ids ∧
    (block_step S s f).report_count = s.report_count ∧
    (block_step S s f).done.length = s.done.length := by
  have h1 := block_step_reportID S s f
  have hn : ¬ f.caps.ReportID ≠ s.wine_report.reportID := fun k => k heq
  have h2 : (block_step S s f).done = s.done := by
    unfold block_step
    simp only [hn, if_false]
  have h3 : (block_step S s f).report_count = s.report_count := by
    unfold block_step
    simp only [hn, if_false]
  refine ⟨?_, h3, by rw [h2]⟩
  simp only [block_state.ids, h1, h2, heq]

/-- The loop of a block over features whose report identifiers do not descend:
the identifiers of the records ascend strictly, they are the identifiers met,
and the report counter is the number of records. -/
theorem foldl_block_step_ids (S : Sizes) :
    ∀ (fs : List feature) (s : block_state),
      (report_ids_of fs).Pairwise (fun a b => a ≤ b) →
      (∀ f ∈ fs, s.wine_report.reportID ≤ f.caps.ReportID ∧ f.caps.ReportID < 256) →
      s.ids.Pairwise (fun a b => a < b) →
      s.report_count = s.done.length + 1 →
      (fs.foldl (block_step S) s).ids.Pairwise (fun a b => a < b) ∧
      (∀ id, id ∈ (fs.foldl (block_step S) s).ids ↔ id ∈ s.ids ∨ id ∈ report_ids_of fs) ∧
      (fs.foldl (block_step S) s).report_count = (fs.foldl (block_step S) s).done.length + 1
  | [], s, _, _, hp, hrc => ⟨hp, fun id => by simp [report_ids_of], hrc⟩
  | f :: fs, s, hs, hb, hp, hrc => by
    simp only [report_ids_of, List.map_cons, List.pairwise_cons] at hs
    have hf := hb f (List.mem_cons_self _ _)
    have hlast : ∀ x ∈ s.ids, x ≤ s.wine_report.reportID := by
      intro x hx
      rcases List.mem_append.1 hx with hx | hx
      · exact Nat.le_of_lt ((List.pairwise_append.1 hp).2.2 x hx _ (List.mem_singleton_self _))
      · rw [List.mem_singleton.1 hx]
    have hb' : ∀ g ∈ fs, (block_step S s f).wine_report.reportID ≤ g.caps.ReportID ∧
        g.caps.ReportID < 256 := by
      intro g hg
      rw [block_step_reportID]
      exact ⟨hs.1 _ (List.mem_map_of_mem _ hg), (hb g (List.mem_cons_of_mem _ hg)).2⟩
    simp only [List.foldl]
    by_cases hne : f.caps.ReportID ≠ s.wine_report.reportID
    · obtain ⟨e1, e2, e3⟩ := block_step_ids_ne S s f hne
      have hp' : (block_step S s f).ids.Pairwise (fun a b => a < b) := by
        rw [e1]
        refine List.pairwise_append.2 ⟨hp, List.pairwise_singleton _ _, fun a ha b hb2 => ?_⟩
        rw [List.mem_singleton.1 hb2]
        have := hlast a ha
        omega
      have hlen : (block_step S s f).ids.length ≤ 256 - 0 :=
        length_le_of_increasing _ 0 256 hp' (fun q hq => by
          rw [e1] at hq
          rcases List.mem_append.1 hq with hq | hq
          · have := hlast q hq
            omega
          · rw [List.mem_singleton.1 hq]
            omega)
      have hrc' : (block_step S s f).report_count = (block_step S s f).done.length + 1 := by
        rw [e2, e3, hrc]
        simp only [block_state.ids, List.length_append, List.length_map, List.length_singleton,
          e3] at hlen
        exact Nat.mod_eq_of_lt (by omega)
      obtain ⟨k1, k2, k3⟩ := foldl_block_step_ids S fs (block_step S s f) hs.2 hb' hp' hrc'
      refine ⟨k1, fun id => ?_, k3⟩
      rw [k2, e1]
      simp only [List.mem_append, List.mem_singleton, report_ids_of, List.map_cons,
        List.mem_cons]
      tauto
    · have heq : f.caps.ReportID = s.wine_report.reportID := not_not.1 hne
      obtain ⟨e1, e2, e3⟩ := block_step_ids_eq S s f heq
      obtain ⟨k1, k2, k3⟩ := foldl_block_step_ids S fs (block_step S s f) hs.2 hb'
        (by rw [e1]; exact hp) (by rw [e2, e3, hrc])
      refine ⟨k1, fun id => ?_, k3⟩
      rw [k2, e1]
      simp only [report_ids_of, List.map_cons, List.mem_cons]
      constructor
      · rintro (h | h)
        · exact Or.inl h
        · exact Or.inr (Or.inr h)
      · rintro (h | h | h)
        · exact Or.inl h
        · refine Or.inl ?_
          rw [h, heq]
          exact List.mem_append_right _ (List.mem_singleton_self _)
        · exact Or.inr h

/-- A block over features whose report identifiers do not descend writes its
records with strictly ascending identifiers, one for each identifier of its
features, and counts them. -/
theorem build_block_sorted (S : Sizes) (a c : Bool) (fs : List feature)
    (prev : WINE_HID_REPORT) (hs : (report_ids_of fs).Pairwise (fun a b => a ≤ b))
    (hb : ∀ f ∈ fs, f.caps.ReportID < 256) :
    ((build_block S a c fs prev).records.map fun r => r.reportID).Pairwise
      (fun a b => a < b) ∧
    (∀ id, id ∈ ((build_block S a c fs prev).records.map fun r => r.reportID) ↔
      id ∈ report_ids_of fs) ∧
    (build_block S a c fs prev).report_count = (build_block S a c fs prev).records.length := by
  cases fs with
  | nil =>
    exact ⟨List.Pairwise.nil, fun id => by simp [build_block, report_ids_of], rfl⟩
  | cons f0 rest =>
    have hs0 := hs
    simp only [report_ids_of, List.map_cons, List.pairwise_cons] at hs0
    obtain ⟨k1, k2, k3⟩ := foldl_block_step_ids S (f0 :: rest)
      { done := [],
        wine_report := new_report S (if a then prev.offset + prev.dwSize else prev.offset) f0,
        bitOffset := 8, bitLength := 0, report_count := 1, buttons := 0, values := 0 }
      hs
      (fun f hf => by
        refine ⟨?_, hb f hf⟩
        rcases List.mem_cons.1 hf with rfl | hf
        · exact Nat.le_refl _
        · exact hs0.1 _ (List.mem_map_of_mem _ hf))
      (List.pairwise_singleton _ _) rfl
    have e : ((build_block S a c (f0 :: rest) prev).records.map fun r => r.reportID) =
        (List.foldl (block_step S)
          { done := [],
            wine_report := new_report S
              (if a then prev.offset + prev.dwSize else prev.offset) f0,
            bitOffset := 8, bitLength := 0, report_count := 1, buttons := 0, values := 0 }
          (f0 :: rest)).ids := by
      simp only [build_block, block_state.ids, List.map_append, List.map_cons, List.map_nil]
      cases c
      · simp only [Bool.false_eq_true, if_false]
      · simp only [if_true, close_report]
    refine ⟨by rw [e]; exact k1, fun id => ?_, ?_⟩
    · rw [e, k2]
      simp only [block_state.ids, new_report, List.map_nil, List.nil_append,
        List.mem_singleton, report_ids_of, List.map_cons, List.mem_cons]
      tauto
    · simp only [build_block, List.length_append, List.length_singleton]
      exact k3

/-- The comparison of `compare_reports` orders by report identifier first. -/
theorem compare_reports_le (f g : feature) :
    compare_reports f g ≤ 0 ↔
      f.caps.ReportID < g.caps.ReportID ∨
        (f.caps.ReportID = g.caps.ReportID ∧ f.index ≤ g.index) := by
  unfold compare_reports
  simp only []
  split_ifs with h <;> omega

/-- The array `qsort` returns has report identifiers that do not descend. -/
theorem qsort_sorted (fs : List feature) :
    (report_ids_of (qsort fs)).Pairwise (fun a b => a ≤ b) := by
  have ht : IsTotal feature (fun a b => compare_reports a b ≤ 0) :=
    ⟨fun a b => by
      rw [compare_reports_le, compare_reports_le]
      omega⟩
  have htr : IsTrans feature (fun a b => compare_reports a b ≤ 0) :=
    ⟨fun a b c => by
      rw [compare_reports_le, compare_reports_le, compare_reports_le]
      omega⟩
  have k : (qsort fs).Pairwise (fun a b => compare_reports a b ≤ 0) :=
    List.sorted_insertionSort (fun a b => compare_reports a b ≤ 0) fs
  unfold report_ids_of
  rw [List.pairwise_map]
  refine k.imp ?_
  intro a b hab
  rw [compare_reports_le] at hab
  omega

theorem sorted_features_fits (descriptor : List Nat) (f : feature)
    (hf : f ∈ sorted_features (parse_all descriptor)) : f.caps.fits :=
  parse_all_fits descriptor f (List.mem_of_mem_take ((mem_sorted_features _ f).1 hf))

/-- The records of a block over the features of one direction of a sorted
array. -/
theorem build_block_of_sorted (S : Sizes) (a c : Bool) (prev : WINE_HID_REPORT)
    (t : HIDP_REPORT_TYPE) (fs : List feature) (hb : ∀ f ∈ fs, f.caps.ReportID < 256) :
    ((build_block S a c (features_of_type t (qsort fs)) prev).records.map
      fun r => r.reportID).Pairwise (fun a b => a < b) ∧
    (∀ id, id ∈ ((build_block S a c (features_of_type t (qsort fs)) prev).records.map
        fun r => r.reportID) ↔ id ∈ report_ids_of (features_of_type t fs)) ∧
    (build_block S a c (features_of_type t (qsort fs)) prev).records.length =
      (report_ids_of (features_of_type t fs)).dedup.length ∧
    (build_block S a c (features_of_type t (qsort fs)) prev).report_count =
      (report_ids_of (features_of_type t fs)).dedup.length := by
  have hs : (report_ids_of (features_of_type t (qsort fs))).Pairwise (fun a b => a ≤ b) := by
    have k := qsort_sorted fs
    unfold report_ids_of at k ⊢
    rw [List.pairwise_map] at k ⊢
    exact k.filter _
  have hperm : (report_ids_of (features_of_type t (qsort fs))).Perm
      (report_ids_of (features_of_type t fs)) :=
    ((List.perm_insertionSort _ fs).filter _).map _
  obtain ⟨k1, k2, k3⟩ := build_block_sorted S a c (features_of_type t (qsort fs)) prev hs
    (fun f hf => hb f ((List.perm_insertionSort _ fs).mem_iff.1 (List.mem_of_mem_filter hf)))
  have k2' : ∀ id, id ∈ ((build_block S a c (features_of_type t (qsort fs)) prev).records.map
      fun r => r.reportID) ↔ id ∈ report_ids_of (features_of_type t fs) :=
    fun id => (k2 id).trans hperm.mem_iff
  have hlen : (build_block S a c (features_of_type t (qsort fs)) prev).records.length =
      (report_ids_of (features_of_type t fs)).dedup.length := by
    have hn : ((build_block S a c (features_of_type t (qsort fs)) prev).records.map
        fun r => r.reportID).Nodup := k1.imp (fun hab => Nat.ne_of_lt hab)
    have hp := (List.perm_ext_iff_of_nodup hn
      (List.nodup_dedup (report_ids_of (features_of_type t fs)))).2
      (fun id => (k2' id).trans List.mem_dedup.symm)
    rw [← hp.length_eq, List.length_map]
  exact ⟨k1, k2', hlen, k3.trans hlen⟩

/-- The bit count of the element of a usage range of the Button page: the
32-bit value of `UsageMax - UsageMin + 1`, spelled out. -/
theorem build_element_button_range (f : feature) (i b : Nat) (hw : f.caps.fits)
    (hp : f.caps.UsagePage = HID_USAGE_PAGE_BUTTON) (hr : f.caps.IsRange = true) :
    (f.caps.slot slot_UsageMin ≤ f.caps.slot slot_UsageMax →
      (build_element f i b).1.bitCount =
        f.caps.slot slot_UsageMax - f.caps.slot slot_UsageMin + 1) ∧
    (f.caps.slot slot_UsageMin = f.caps.slot slot_UsageMax + 1 →
      (build_element f i b).1.bitCount = 0) ∧
    (f.caps.slot slot_UsageMax + 1 < f.caps.slot slot_UsageMin →
      (build_element f i b).1.bitCount =
        4294967296 - (f.caps.slot slot_UsageMin - f.caps.slot slot_UsageMax - 1)) := by
  have hc := build_element_classified f i b hw
  have hu := ((hc.2.1 (hc.1.2 hp)).2 hr).1
  have h1 := slot_lt f.caps hw slot_UsageMin
  have h2 := slot_lt f.caps hw slot_UsageMax
  rw [hu]
  unfold u32
  refine ⟨fun h => ?_, fun h => ?_, fun h => ?_⟩ <;> omega

/-- Where the buffer holds a complete Local item, then Global items other than
Pop and Local items other than String Index, Designator Index and Delimiter, an
Input, Output or Feature item, again such Global and Local items, and a second
Input, Output or Feature item, `parse_descriptor` appends two features, and if
the first Local item is a String Index, Designator Index or Delimiter item the
value it stored (as a `USHORT` for the two indices) is in the snapshot of the
first feature and still in the snapshot of the second: `new_caps` does not
clear it. -/
theorem local_values_kept (fuel : Nat) (pre post : List Nat) (length : Nat)
    (cur : colref) (st : parse_state) (loc m1 m2 : raw_item) (mid1 mid2 : List raw_item)
    (hu : st.caps.u.length = 15)
    (hloc : loc.complete ∧ item_type loc.b0 = TAG_TYPE_LOCAL)
    (hmid : ∀ it ∈ mid1 ++ mid2, it.complete ∧ it.keeps_local_values)
    (hm : (m1.complete ∧ m1.is_main_io) ∧ (m2.complete ∧ m2.is_main_io))
    (hlen : pre.length + (items_bytes (loc :: (mid1 ++ m1 :: (mid2 ++ [m2])))).length ≤ length)
    (hfuel : length - pre.length ≤ fuel) :
    ∃ (st' : parse_state) (f1 f2 : feature),
      parse_descriptor fuel (pre ++ (items_bytes (loc :: (mid1 ++ m1 :: (mid2 ++ [m2]))) ++ post)) pre.length length cur st =
        parse_descriptor fuel (pre ++ (items_bytes (loc :: (mid1 ++ m1 :: (mid2 ++ [m2]))) ++ post))
          (pre.length + (items_bytes (loc :: (mid1 ++ m1 :: (mid2 ++ [m2])))).length) length cur st' ∧
      st'.features = st.features ++ [f1, f2] ∧
      (item_tag loc.b0 = TAG_LOCAL_STRING_INDEX →
        f1.caps.slot slot_StringIndex =
            (getValue (item_size loc.b0) loc.value false % 65536).toNat ∧
          f2.caps.slot slot_StringIndex =
            (getValue (item_size loc.b0) loc.value false % 65536).toNat) ∧
      (item_tag loc.b0 = TAG_LOCAL_DESIGNATOR_INDEX →
        f1.caps.slot slot_DesignatorIndex =
            (getValue (item_size loc.b0) loc.value false % 65536).toNat ∧
          f2.caps.slot slot_DesignatorIndex =
            (getValue (item_size loc.b0) loc.value false % 65536).toNat) ∧
      (item_tag loc.b0 = TAG_LOCAL_DELIMITER →
        f1.caps.Delim = getValue (item_size loc.b0) loc.value false ∧
          f2.caps.Delim = getValue (item_size loc.b0) loc.value false) := by
  have hplain : ∀ it ∈ (loc :: (mid1 ++ m1 :: (mid2 ++ [m2]))), it.complete ∧ it.plain := by
    intro it hit
    rcases List.mem_cons.1 hit with rfl | hit
    · exact ⟨hloc.1, plain_of_type _ (Or.inr (Or.inl hloc.2))⟩
    rcases List.mem_append.1 hit with k | hit
    · have := hmid it (List.mem_append_left _ k)
      exact ⟨this.1, plain_of_type _
        (this.2.elim (fun x => Or.inl x.1) fun x => Or.inr (Or.inl x.1))⟩
    rcases List.mem_cons.1 hit with rfl | hit
    · exact ⟨hm.1.1, plain_of_type _ (Or.inr (Or.inr hm.1.2))⟩
    rcases List.mem_append.1 hit with k | hit
    · have := hmid it (List.mem_append_right _ k)
      exact ⟨this.1, plain_of_type _
        (this.2.elim (fun x => Or.inl x.1) fun x => Or.inr (Or.inl x.1))⟩
    · rw [List.mem_singleton.1 hit]
      exact ⟨hm.2.1, plain_of_type _ (Or.inr (Or.inr hm.2.2))⟩
  have hrun := parse_descriptor_run_plain post length cur (loc :: (mid1 ++ m1 :: (mid2 ++ [m2]))) pre fuel st hplain hlen hfuel
  obtain ⟨l1, l2, l3, l4⟩ := effect_local_value loc cur st hloc.2 hu
  obtain ⟨a1, a2⟩ := run_items_keeps_local_values cur mid1 (loc.effect cur st)
    (fun it hit => (hmid it (List.mem_append_left _ hit)).2)
  obtain ⟨f1, b1, b2, b3⟩ := effect_main_io m1 cur
    (run_items mid1 cur (loc.effect cur st)) hm.1.2
  obtain ⟨c1, c2⟩ := run_items_keeps_local_values cur mid2
    (m1.effect cur (run_items mid1 cur (loc.effect cur st)))
    (fun it hit => (hmid it (List.mem_append_right _ hit)).2)
  obtain ⟨f2, d1, d2, -⟩ := effect_main_io m2 cur
    (run_items mid2 cur (m1.effect cur (run_items mid1 cur (loc.effect cur st)))) hm.2.2
  have hst : run_items (loc :: (mid1 ++ m1 :: (mid2 ++ [m2]))) cur st =
      m2.effect cur (run_items mid2 cur (m1.effect cur
        (run_items mid1 cur (loc.effect cur st)))) := by
    show run_items (mid1 ++ m1 :: (mid2 ++ [m2])) cur (loc.effect cur st) = _
    rw [run_items_append]
    show run_items (mid2 ++ [m2]) cur (m1.effect cur _) = _
    rw [run_items_append]
    rfl
  have v1 : local_values f1.caps = local_values (loc.effect cur st).caps := by
    rw [b2, a2]
  have v2 : local_values f2.caps = local_values (loc.effect cur st).caps := by
    rw [d2, c2, b3]
    exact a2
  refine ⟨_, f1, f2, hrun, ?_, ?_, ?_, ?_⟩
  · rw [hst, d1, c1, b1, a1, l1, List.append_assoc]
    rfl
  · intro k
    exact ⟨(congrArg (fun p => p.1) v1).trans (l2 k), (congrArg (fun p => p.1) v2).trans (l2 k)⟩
  · intro k
    exact ⟨(congrArg (fun p => p.2.1) v1).trans (l3 k),
      (congrArg (fun p => p.2.1) v2).trans (l3 k)⟩
  · intro k
    exact ⟨(congrArg (fun p => p.2.2) v1).trans (l4 k),
      (congrArg (fun p => p.2.2) v2).trans (l4 k)⟩

/-! ## Claims -/

/-- C1: the one-byte descriptor `0x80` is an Input item without payload.  The
parser links one Input feature into the feature list, but `parse_io_feature`
returns before counting it, and `ParseDescriptor` returns `NULL`. -/
theorem C1_zero_size_input_returns_null (S : Sizes) (junk : Nat → Nat) :
    (parse_all [0x80]).features.map (fun f => f.type) = [HIDP_REPORT_TYPE.HidP_Input] ∧
    (parse_all [0x80]).feature_index = 0 ∧
    ParseDescriptor S junk [0x80] = none := by
  refine ⟨by decide, by decide, ?_⟩
  rfl

/-- C2: for the descriptor `09 01 75 08 95 01 B1 02` (one data Feature item
with one usage) the only record of the Feature section holds one element and
its `dwSize` is the size of the fixed part alone, whereas the same field
declared as an Input item (`81 02`) gets the fixed part plus one element. -/
theorem C2_last_feature_record_not_closed (S : Sizes) (junk : Nat → Nat) :
    (∃ d r, ParseDescriptor S junk [0x09, 0x01, 0x75, 0x08, 0x95, 0x01, 0xB1, 0x02] = some d ∧
      d.feature_records = [r] ∧ r.Elements.length = 1 ∧ r.elementCount = 1 ∧
      r.dwSize = S.report - S.element) ∧
    (∃ d r, ParseDescriptor S junk [0x09, 0x01, 0x75, 0x08, 0x95, 0x01, 0x81, 0x02] = some d ∧
      d.input_records = [r] ∧ r.Elements.length = 1 ∧ r.elementCount = 1 ∧
      r.dwSize = wrap32 (S.report - S.element + S.element * 1)) := by
  refine ⟨⟨_, _, rfl, rfl, rfl, rfl, rfl⟩, ⟨_, _, rfl, rfl, rfl, rfl, rfl⟩⟩

/-- C3: for `09 01 75 08 95 01 81 02 85 05 09 01 81 02` (two data Input items,
the first with report identifier 0, the second with 5) there are two
(direction, identifier) groups and two report records are written, but the
size is computed with `report_count = 1`. -/
theorem C3_size_counts_one_report_for_two_groups (S : Sizes) (junk : Nat → Nat) :
    report_groups (parse_all [0x09, 0x01, 0x75, 0x08, 0x95, 0x01, 0x81, 0x02,
      0x85, 0x05, 0x09, 0x01, 0x81, 0x02]).features = 2 ∧
    ∃ d, ParseDescriptor S junk [0x09, 0x01, 0x75, 0x08, 0x95, 0x01, 0x81, 0x02,
        0x85, 0x05, 0x09, 0x01, 0x81, 0x02] = some d ∧
      d.dwInputReportCount = 2 ∧
      d.input_records.map (fun r => r.reportID) = [0, 5] ∧
      d.dwSize = wrap32 (S.preparsed + 2 * S.element + 1 * S.report) := by
  refine ⟨by decide, _, rfl, rfl, rfl, rfl⟩

set_option maxRecDepth 100000 in
/-- C4: for thirty-two Input items with the report identifiers 0, 1, .., 31 the
size is computed with `report_count = 1`, for every choice of the structure
sizes, while thirty-two report records (without elements) are written.  With
the structure sizes 188, 96 and 84 the buffer has 284 bytes and the records,
which start at byte 92, end at byte 476. -/
theorem C4_records_written_past_the_buffer (junk : Nat → Nat) :
    (∀ S : Sizes, ∃ d, ParseDescriptor S junk thirty_two_reports = some d ∧
      count_reports junk (sorted_features (parse_all thirty_two_reports))
        (features_of_type HIDP_REPORT_TYPE.HidP_Input
          (sorted_features (parse_all thirty_two_reports)))
        (features_of_type HIDP_REPORT_TYPE.HidP_Output
          (sorted_features (parse_all thirty_two_reports)))
        (features_of_type HIDP_REPORT_TYPE.HidP_Feature
          (sorted_features (parse_all thirty_two_reports))) = 1 ∧
      d.dwSize = wrap32 (S.preparsed + 0 * S.element + 1 * S.report) ∧
      d.dwInputReportCount + d.dwOutputReportCount + d.dwFeatureReportCount = 32 ∧
      d.input_records.map (fun r => r.Elements.length) = List.replicate 32 0) ∧
    ∃ d, ParseDescriptor (Sizes.mk 188 96 84) junk thirty_two_reports = some d ∧
      d.dwSize = 284 ∧
      (188 - 96) + (d.input_records.map (record_extent (Sizes.mk 188 96 84))).sum = 476 := by
  have hidx : (parse_all thirty_two_reports).feature_index ≠ 0 := by decide
  have hfirst : first_ReportID (sorted_features (parse_all thirty_two_reports)) = 0 := by
    decide
  have hout : (features_of_type HIDP_REPORT_TYPE.HidP_Output
      (sorted_features (parse_all thirty_two_reports))).length = 0 := by decide
  have hfeat : (features_of_type HIDP_REPORT_TYPE.HidP_Feature
      (sorted_features (parse_all thirty_two_reports))).length = 0 := by decide
  have husage : count_usages (sorted_features (parse_all thirty_two_reports)) = 0 := by
    decide
  have hgen : ∀ S : Sizes, ∃ d, ParseDescriptor S junk thirty_two_reports = some d ∧
      count_reports junk (sorted_features (parse_all thirty_two_reports))
        (features_of_type HIDP_REPORT_TYPE.HidP_Input
          (sorted_features (parse_all thirty_two_reports)))
        (features_of_type HIDP_REPORT_TYPE.HidP_Output
          (sorted_features (parse_all thirty_two_reports)))
        (features_of_type HIDP_REPORT_TYPE.HidP_Feature
          (sorted_features (parse_all thirty_two_reports))) = 1 ∧
      d.dwSize = wrap32 (S.preparsed + 0 * S.element + 1 * S.report) ∧
      d.dwInputReportCount + d.dwOutputReportCount + d.dwFeatureReportCount = 32 ∧
      d.input_records.map (fun r => r.Elements.length) = List.replicate 32 0 := by
    intro S
    have hcount : count_reports junk (sorted_features (parse_all thirty_two_reports))
        (features_of_type HIDP_REPORT_TYPE.HidP_Input
          (sorted_features (parse_all thirty_two_reports)))
        (features_of_type HIDP_REPORT_TYPE.HidP_Output
          (sorted_features (parse_all thirty_two_reports)))
        (features_of_type HIDP_REPORT_TYPE.HidP_Feature
          (sorted_features (parse_all thirty_two_reports))) = 1 := by
      simp only [count_reports, hfirst, hout, hfeat, ne_eq, not_true_eq_false, if_false,
        Nat.add_zero]
    have hview := ParseDescriptor_view input_records_view input_records_view_strip S junk
      thirty_two_reports
    simp only [ParseDescriptor, hidx, ne_eq, not_false_eq_true, if_true] at hview ⊢
    have hv : input_records_view _ = (32, List.replicate 32 0) :=
      Option.some.inj (hview.trans (by decide))
    simp only [input_records_view, Prod.mk.injEq] at hv
    refine ⟨_, rfl, hcount, ?_, hv.1, hv.2⟩
    simp only [build_PreparseData, hcount, husage]
  refine ⟨hgen, ?_⟩
  obtain ⟨d, h1, -, h3, -, h5⟩ := hgen (Sizes.mk 188 96 84)
  refine ⟨d, h1, by rw [h3]; decide, ?_⟩
  have e : d.input_records.map (record_extent (Sizes.mk 188 96 84)) =
      (d.input_records.map fun r => r.Elements.length).map fun n => (96 - 84) + n * 84 := by
    rw [List.map_map]
    rfl
  rw [e, h5]
  decide

/-- C5: for `81 02 85 05 81 02 85 03 81 02` (three Input items with the report
identifiers 0, 5 and 3) the first feature has identifier 0, so the sort is
skipped although later features have non-zero identifiers: the list handed to
the partition step is in encounter order and not sorted by identifier. -/
theorem C5_sort_skipped_when_first_id_is_zero (S : Sizes) (junk : Nat → Nat) :
    (sorted_features (parse_all [0x81, 0x02, 0x85, 0x05, 0x81, 0x02, 0x85, 0x03, 0x81, 0x02])).map
      (fun f => (f.caps.ReportID, f.index)) = [(0, 0), (5, 1), (3, 2)] ∧
    ∃ d, ParseDescriptor S junk [0x81, 0x02, 0x85, 0x05, 0x81, 0x02, 0x85, 0x03, 0x81, 0x02]
        = some d ∧
      d.input_records.map (fun r => r.reportID) = [0, 5, 3] := by
  refine ⟨by decide, _, rfl, rfl⟩

/-- C6, the claim as stated fails: for `05 09 09 01 75 08 95 01 81 02` no
layout has byte length 1 and a single Value element of 8 bits. -/
theorem C6_scenario_A_as_stated_fails :
    ¬ ∃ (S : Sizes) (junk : Nat → Nat) (d : WINE_HIDP_PREPARSED_DATA)
        (r : WINE_HID_REPORT) (e : WINE_HID_ELEMENT),
      ParseDescriptor S junk [0x05, 0x09, 0x09, 0x01, 0x75, 0x08, 0x95, 0x01, 0x81, 0x02]
        = some d ∧
      d.dwInputReportCount = 1 ∧ d.input_records = [r] ∧ r.reportID = 0 ∧
      d.InputReportByteLength = 1 ∧ r.Elements = [e] ∧
      e.ElementType = WINE_ELEMENT_TYPE.ValueElement ∧
      e.valueStartBit = 8 ∧ e.bitCount = 8 := by
  rintro ⟨S, junk, d, r, e, hd, -, -, -, hlen, -⟩
  have h := congrArg (Option.map fun d => d.InputReportByteLength)
    (ParseDescriptor_strip S Sizes.zero junk (fun _ => 0)
      [0x05, 0x09, 0x09, 0x01, 0x75, 0x08, 0x95, 0x01, 0x81, 0x02])
  rw [hd] at h
  have h2 : d.InputReportByteLength = 2 := Option.some.inj (h.trans (by decide))
  omega

/-- C6, amended: for `05 09 09 01 75 08 95 01 81 02` the layout has exactly one
Input report, with report identifier 0, the byte length is 2, and the report
has exactly one element, a Button element at bit 8 with bit count 1. -/
theorem C6_scenario_A (S : Sizes) (junk : Nat → Nat) :
    ∃ (d : WINE_HIDP_PREPARSED_DATA) (r : WINE_HID_REPORT) (e : WINE_HID_ELEMENT),
      ParseDescriptor S junk [0x05, 0x09, 0x09, 0x01, 0x75, 0x08, 0x95, 0x01, 0x81, 0x02]
        = some d ∧
      d.dwInputReportCount = 1 ∧ d.input_records = [r] ∧ r.reportID = 0 ∧
      d.InputReportByteLength = 2 ∧ r.Elements = [e] ∧
      e.ElementType = WINE_ELEMENT_TYPE.ButtonElement ∧
      e.valueStartBit = 8 ∧ e.bitCount = 1 := by
  refine ⟨_, _, _, rfl, rfl, rfl, rfl, ?_, rfl, rfl, rfl, rfl⟩
  have h := congrArg (Option.map fun d => d.InputReportByteLength)
    (ParseDescriptor_strip S Sizes.zero junk (fun _ => 0)
      [0x05, 0x09, 0x09, 0x01, 0x75, 0x08, 0x95, 0x01, 0x81, 0x02])
  exact Option.some.inj (h.trans (by decide))

/-- C7, the claim as stated fails: for a single 4-bit field the elements sum to
4 bits while the byte length is 2, and for 65535 fields of 65535 bits the
16-bit byte length has wrapped; in neither case is the sum
`InputReportByteLength * 8 - 8`. -/
theorem C7_bit_total_as_stated_fails :
    (¬ ∃ (S : Sizes) (junk : Nat → Nat) (d : WINE_HIDP_PREPARSED_DATA) (rep : WINE_HID_REPORT),
      ParseDescriptor S junk nibble_field = some d ∧ d.input_records = [rep] ∧
      total_bits rep.Elements = d.InputReportByteLength * 8 - 8) ∧
    (¬ ∃ (S : Sizes) (junk : Nat → Nat) (d : WINE_HIDP_PREPARSED_DATA) (rep : WINE_HID_REPORT),
      ParseDescriptor S junk huge_field = some d ∧ d.input_records = [rep] ∧
      total_bits rep.Elements = d.InputReportByteLength * 8 - 8) := by
  constructor
  · rintro ⟨S, junk, d, rep, hd, hr, ht⟩
    have h := ParseDescriptor_view input_bits_view input_bits_view_strip S junk nibble_field
    rw [hd] at h
    have h2 : input_bits_view d = ([4], 2) := Option.some.inj (h.trans (by decide))
    simp only [input_bits_view, hr, List.map_cons, List.map_nil, Prod.mk.injEq,
      List.cons.injEq, and_true] at h2
    omega
  · rintro ⟨S, junk, d, rep, hd, hr, ht⟩
    have h := ParseDescriptor_view input_bits_view input_bits_view_strip S junk huge_field
    rw [hd] at h
    have h2 : input_bits_view d = ([4294836225], 49154) :=
      Option.some.inj (h.trans (by decide))
    simp only [input_bits_view, hr, List.map_cons, List.map_nil, Prod.mk.injEq,
      List.cons.injEq, and_true] at h2
    omega

/-- C7, amended: if the features of a descriptor are data Input features that
share one report identifier, there is exactly one Input report, and when its
elements sum to at most 524272 bits the byte length is one byte for the report
identifier plus the sum rounded up to whole bytes; the sum equals
`InputReportByteLength * 8 - 8` when it is a multiple of 8. -/
theorem C7_bit_total_rounded_up (S : Sizes) (junk : Nat → Nat) (descriptor : List Nat)
    (r : Nat) (hne : (parse_all descriptor).features ≠ [])
    (h : ∀ f ∈ (parse_all descriptor).features,
      f.isData = true ∧ f.type = HIDP_REPORT_TYPE.HidP_Input ∧ f.caps.ReportID = r) :
    ∃ (d : WINE_HIDP_PREPARSED_DATA) (rep : WINE_HID_REPORT),
      ParseDescriptor S junk descriptor = some d ∧ d.dwInputReportCount = 1 ∧
      d.input_records = [rep] ∧
      (total_bits rep.Elements ≤ 524272 →
        d.InputReportByteLength = 1 + (total_bits rep.Elements + 7) / 8 ∧
        (total_bits rep.Elements % 8 = 0 →
          total_bits rep.Elements = d.InputReportByteLength * 8 - 8)) := by
  obtain ⟨d, rep, b, h1, h2, -, h4, h5, h6⟩ :=
    ParseDescriptor_single_group S junk descriptor HIDP_REPORT_TYPE.HidP_Input r hne h
  refine ⟨d, rep, h1, h6, h2, fun hle => ?_⟩
  obtain ⟨hb, -⟩ := chained_exact rep.Elements 8 b h4 (by omega)
  have hL : d.InputReportByteLength = 1 + (total_bits rep.Elements + 7) / 8 := by
    have e : byte_length_of HIDP_REPORT_TYPE.HidP_Input d = d.InputReportByteLength := rfl
    rw [← e, h5, hb]
    unfold wrap32
    omega
  refine ⟨hL, fun hm => ?_⟩
  rw [hL]
  omega

/-- C7, an instance: the single 4-bit field gives byte length 2. -/
theorem C7_bit_total_rounded_up_witness :
    ((parse_all nibble_field).features ≠ [] ∧
      ∀ f ∈ (parse_all nibble_field).features,
        f.isData = true ∧ f.type = HIDP_REPORT_TYPE.HidP_Input ∧ f.caps.ReportID = 0) ∧
    ∃ (d : WINE_HIDP_PREPARSED_DATA) (rep : WINE_HID_REPORT),
      ParseDescriptor (Sizes.mk 188 96 84) (fun _ => 0) nibble_field = some d ∧
      d.dwInputReportCount = 1 ∧ d.input_records = [rep] ∧
      (total_bits rep.Elements ≤ 524272 →
        d.InputReportByteLength = 1 + (total_bits rep.Elements + 7) / 8 ∧
        (total_bits rep.Elements % 8 = 0 →
          total_bits rep.Elements = d.InputReportByteLength * 8 - 8)) :=
  ⟨⟨by decide, by decide⟩,
    C7_bit_total_rounded_up (Sizes.mk 188 96 84) (fun _ => 0) nibble_field 0
      (by decide) (by decide)⟩

/-- C8: if the features of a descriptor are data features of one direction that
share one report identifier, the section of that direction holds one report
record, and provided the 32-bit cursor does not overflow its elements lie one
behind the other from bit 8 on, each starting at the start bit of its
predecessor plus the predecessor's bit count, so the start bits ascend. -/
theorem C8_elements_contiguous (S : Sizes) (junk : Nat → Nat) (descriptor : List Nat)
    (t : HIDP_REPORT_TYPE) (r : Nat) (hne : (parse_all descriptor).features ≠ [])
    (h : ∀ f ∈ (parse_all descriptor).features,
      f.isData = true ∧ f.type = t ∧ f.caps.ReportID = r) :
    ∃ (d : WINE_HIDP_PREPARSED_DATA) (rep : WINE_HID_REPORT),
      ParseDescriptor S junk descriptor = some d ∧ records_of t d = [rep] ∧
      rep.reportID = r ∧
      (8 + total_bits rep.Elements < 4294967296 →
        contiguous_from 8 rep.Elements ∧
        (rep.Elements.map fun e => e.valueStartBit).Sorted (· ≤ ·)) := by
  obtain ⟨d, rep, b, h1, h2, h3, h4, -, -⟩ :=
    ParseDescriptor_single_group S junk descriptor t r hne h
  refine ⟨d, rep, h1, h2, h3, fun hlt => ?_⟩
  obtain ⟨-, hc⟩ := chained_exact rep.Elements 8 b h4 hlt
  exact ⟨hc, (contiguous_sorted _ _ hc).1⟩

/-- C8, an instance: `05 01 09 30 09 31 75 08 95 02 81 02 09 32 75 04 95 01 81
02` gives one Input record with three elements, of 8, 8 and 4 bits, which start
at the bits 8, 16 and 24. -/
theorem C8_elements_contiguous_witness :
    ((parse_all three_fields).features ≠ [] ∧
      ∀ f ∈ (parse_all three_fields).features,
        f.isData = true ∧ f.type = HIDP_REPORT_TYPE.HidP_Input ∧ f.caps.ReportID = 0) ∧
    ∃ (d : WINE_HIDP_PREPARSED_DATA) (rep : WINE_HID_REPORT),
      ParseDescriptor (Sizes.mk 188 96 84) (fun _ => 0) three_fields = some d ∧
      records_of HIDP_REPORT_TYPE.HidP_Input d = [rep] ∧ rep.reportID = 0 ∧
      (rep.Elements.map fun e => (e.valueStartBit, e.bitCount)) = [(8, 8), (16, 8), (24, 4)] ∧
      contiguous_from 8 rep.Elements ∧
      (rep.Elements.map fun e => e.valueStartBit).Sorted (· ≤ ·) := by
  obtain ⟨d, rep, h1, h2, h3, h4⟩ :=
    C8_elements_contiguous (Sizes.mk 188 96 84) (fun _ => 0) three_fields
      HIDP_REPORT_TYPE.HidP_Input 0 (by decide) (by decide)
  have k : (ParseDescriptor (Sizes.mk 188 96 84) (fun _ => 0) three_fields).map
      (fun d => (records_of HIDP_REPORT_TYPE.HidP_Input d).map fun r =>
        (r.Elements.map fun e => (e.valueStartBit, e.bitCount), total_bits r.Elements)) =
      some [([(8, 8), (16, 8), (24, 4)], 20)] := by decide
  rw [h1] at k
  simp only [Option.map_some', h2, List.map_cons, List.map_nil, Option.some.injEq,
    List.cons.injEq, Prod.mk.injEq, and_true] at k
  have hlt : 8 + total_bits rep.Elements < 4294967296 := by
    rw [k.2]
    decide
  exact ⟨⟨by decide, by decide⟩, d, rep, h1, h2, h3, k.1, (h4 hlt).1, (h4 hlt).2⟩

/-- C9, the claim as stated fails: `05 09 19 05 29 03 75 01 95 03 81 02` gives
one Button element for the usage range with minimum 5 and maximum 3, and its
bit count is 4294967295, which is not `UsageMax - UsageMin + 1 = -1`. -/
theorem C9_classification_as_stated_fails :
    ∃ (d : WINE_HIDP_PREPARSED_DATA) (e : WINE_HID_ELEMENT),
      ParseDescriptor (Sizes.mk 188 96 84) (fun _ => 0) reversed_range = some d ∧
      (d.input_records.map fun r => r.Elements) = [[e]] ∧
      e.ElementType = WINE_ELEMENT_TYPE.ButtonElement ∧ e.IsRange = true ∧
      e.UsageMin = 5 ∧ e.UsageMax = 3 ∧ e.bitCount = 4294967295 ∧
      ¬ ((e.bitCount : Int) = (e.UsageMax : Int) - (e.UsageMin : Int) + 1) :=
  ⟨_, _, rfl, rfl, by decide, by decide, by decide, by decide, by decide, by decide⟩

/-- C9, amended: for a data feature whose fields hold values of their C types,
`build_elements` appends `usage_count` elements; each is a Button element
exactly when the usage page is the Button page; a Button element has bit count
1 for a discrete selector, and for a range the unsigned 32-bit value of
`UsageMax - UsageMin + 1`: that number when `UsageMin ≤ UsageMax`, 0 when
`UsageMin = UsageMax + 1`, and `2^32 - (UsageMin - UsageMax - 1)` when
`UsageMin > UsageMax + 1`; every other element is a Value element whose bit
count is the bit size times the report count stored in the element. -/
theorem C9_classification (wine_report : WINE_HID_REPORT) (f : feature) (bitOffset : Nat)
    (hd : f.isData = true) (hw : f.caps.fits) :
    ∃ new : List WINE_HID_ELEMENT,
      (build_elements wine_report f bitOffset).1.Elements = wine_report.Elements ++ new ∧
      new.length = f.caps.usage_count ∧
      ∀ e ∈ new,
        (e.ElementType = WINE_ELEMENT_TYPE.ButtonElement ↔
          f.caps.UsagePage = HID_USAGE_PAGE_BUTTON) ∧
        (e.ElementType = WINE_ELEMENT_TYPE.ButtonElement →
          (f.caps.IsRange = false → e.bitCount = 1) ∧
          (f.caps.IsRange = true →
            (f.caps.slot slot_UsageMin ≤ f.caps.slot slot_UsageMax →
              e.bitCount = f.caps.slot slot_UsageMax - f.caps.slot slot_UsageMin + 1) ∧
            (f.caps.slot slot_UsageMin = f.caps.slot slot_UsageMax + 1 → e.bitCount = 0) ∧
            (f.caps.slot slot_UsageMax + 1 < f.caps.slot slot_UsageMin →
              e.bitCount =
                4294967296 - (f.caps.slot slot_UsageMin - f.caps.slot slot_UsageMax - 1)))) ∧
        (e.ElementType ≠ WINE_ELEMENT_TYPE.ButtonElement →
          e.ElementType = WINE_ELEMENT_TYPE.ValueElement ∧
          e.bitCount = f.caps.BitSize * e.ReportCount) := by
  obtain ⟨new, h1, h2, -, h4⟩ := build_elements_spec wine_report f bitOffset hd
  refine ⟨new, by rw [h1], h2, fun e he => ?_⟩
  obtain ⟨i, b, rfl⟩ := h4 e he
  have hc := build_element_classified f i b hw
  exact ⟨hc.1, fun hb => ⟨(hc.2.1 hb).1,
    fun hr => build_element_button_range f i b hw (hc.1.1 hb) hr⟩, hc.2.2⟩

/-- C9, an instance: a feature of the Button page with the usage range 1 to 3,
whose one element has bit count 3. -/
theorem C9_classification_witness :
    (button_range.isData = true ∧ button_range.caps.fits) ∧
    (button_range.caps.IsRange = true ∧ button_range.caps.slot slot_UsageMin = 1 ∧
      button_range.caps.slot slot_UsageMax = 3 ∧
      ((build_elements WINE_HID_REPORT.zero button_range 8).1.Elements.map
        fun e => e.bitCount) = [3]) ∧
    ∃ new : List WINE_HID_ELEMENT,
      (build_elements WINE_HID_REPORT.zero button_range 8).1.Elements =
        WINE_HID_REPORT.zero.Elements ++ new ∧
      new.length = button_range.caps.usage_count ∧
      ∀ e ∈ new,
        (e.ElementType = WINE_ELEMENT_TYPE.ButtonElement ↔
          button_range.caps.UsagePage = HID_USAGE_PAGE_BUTTON) ∧
        (e.ElementType = WINE_ELEMENT_TYPE.ButtonElement →
          (button_range.caps.IsRange = false → e.bitCount = 1) ∧
          (button_range.caps.IsRange = true →
            (button_range.caps.slot slot_UsageMin ≤ button_range.caps.slot slot_UsageMax →
              e.bitCount = button_range.caps.slot slot_UsageMax -
                button_range.caps.slot slot_UsageMin + 1) ∧
            (button_range.caps.slot slot_UsageMin = button_range.caps.slot slot_UsageMax + 1 →
              e.bitCount = 0) ∧
            (button_range.caps.slot slot_UsageMax + 1 < button_range.caps.slot slot_UsageMin →
              e.bitCount = 4294967296 -
                (button_range.caps.slot slot_UsageMin -
                  button_range.caps.slot slot_UsageMax - 1)))) ∧
        (e.ElementType ≠ WINE_ELEMENT_TYPE.ButtonElement →
          e.ElementType = WINE_ELEMENT_TYPE.ValueElement ∧
          e.bitCount = button_range.caps.BitSize * e.ReportCount) :=
  ⟨⟨by decide, by decide⟩, ⟨by decide, by decide, by decide, by decide⟩,
    C9_classification WINE_HID_REPORT.zero button_range 8 (by decide) (by decide)⟩

/-- C10: in `85 01 09 01 81 02 09 02 81 02 09 03 80 09 04 81 02` four Input
features with report identifier 1 are met, with the usages 1, 2, 3, 4.  The
third item has no payload, so `parse_io_feature` leaves its ordinal at 0 and
does not count it: three features reach the sort, which puts the third feature
before the second. -/
theorem C10_zero_size_item_sorted_ahead :
    (parse_all zero_size_third).features.map
        (fun f => (f.caps.slot 0, f.type, f.caps.ReportID, f.index)) =
      [(1, HIDP_REPORT_TYPE.HidP_Input, 1, 0), (2, HIDP_REPORT_TYPE.HidP_Input, 1, 1),
       (3, HIDP_REPORT_TYPE.HidP_Input, 1, 0), (4, HIDP_REPORT_TYPE.HidP_Input, 1, 2)] ∧
    (parse_all zero_size_third).feature_index = 3 ∧
    (features_of_type HIDP_REPORT_TYPE.HidP_Input
        (sorted_features (parse_all zero_size_third))).map (fun f => f.caps.slot 0) =
      [1, 3, 2] := by
  refine ⟨by decide, by decide, by decide⟩

/-- C11: after a Global Push item, a Global item other than Push and Pop (every
item that overwrites a field is one), a Global Pop item and an Input, Output or
Feature item, the feature list has one more feature, whose snapshot is the
accumulator as it was before the Push, and the stack is as before the Push. -/
theorem C11_push_pop (st : parse_state) (cur : colref) (g m : Nat) (s1 s2 s3 s4 : Nat)
    (v1 v2 v3 v4 : Int) (hg : g ≠ TAG_GLOBAL_PUSH ∧ g ≠ TAG_GLOBAL_POP)
    (hm : m = TAG_MAIN_INPUT ∨ m = TAG_MAIN_OUTPUT ∨ m = TAG_MAIN_FEATURE) :
    ∃ f : feature,
      (item_effect TAG_TYPE_MAIN m s4 v4 cur
        (item_effect TAG_TYPE_GLOBAL TAG_GLOBAL_POP s3 v3 cur
          (item_effect TAG_TYPE_GLOBAL g s2 v2 cur
            (item_effect TAG_TYPE_GLOBAL TAG_GLOBAL_PUSH s1 v1 cur st)))).features =
        st.features ++ [f] ∧
      f.caps = st.caps ∧
      (item_effect TAG_TYPE_MAIN m s4 v4 cur
        (item_effect TAG_TYPE_GLOBAL TAG_GLOBAL_POP s3 v3 cur
          (item_effect TAG_TYPE_GLOBAL g s2 v2 cur
            (item_effect TAG_TYPE_GLOBAL TAG_GLOBAL_PUSH s1 v1 cur st)))).stack = st.stack := by
  have hG : ∀ (tag s : Nat) (v : Int) (x : parse_state),
      item_effect TAG_TYPE_GLOBAL tag s v cur x =
        { x with caps := (global_item s v tag x.caps x.stack).1,
                 stack := (global_item s v tag x.caps x.stack).2 } := by
    intro tag s v x
    simp [item_effect, TAG_TYPE_GLOBAL, TAG_TYPE_MAIN]
  rw [hG TAG_GLOBAL_PUSH, hG g, hG TAG_GLOBAL_POP]
  simp only [global_item_push, global_item_stack _ _ g _ _ hg.1 hg.2, global_item_pop_top]
  rcases hm with hm | hm | hm <;> subst hm <;>
    exact ⟨_, by simp [item_effect, main_io_item, TAG_TYPE_MAIN, TAG_MAIN_INPUT,
      TAG_MAIN_OUTPUT, TAG_MAIN_FEATURE]; rfl, rfl, rfl⟩

/-- C11, an instance: Push, Report Size 8, Pop and an Input item from the initial
state. -/
theorem C11_push_pop_witness :
    ((TAG_GLOBAL_REPORT_SIZE ≠ TAG_GLOBAL_PUSH ∧ TAG_GLOBAL_REPORT_SIZE ≠ TAG_GLOBAL_POP) ∧
      (TAG_MAIN_INPUT = TAG_MAIN_INPUT ∨ TAG_MAIN_INPUT = TAG_MAIN_OUTPUT ∨
        TAG_MAIN_INPUT = TAG_MAIN_FEATURE)) ∧
    ∃ f : feature,
      (item_effect TAG_TYPE_MAIN TAG_MAIN_INPUT 1 2 colref.base
        (item_effect TAG_TYPE_GLOBAL TAG_GLOBAL_POP 0 0 colref.base
          (item_effect TAG_TYPE_GLOBAL TAG_GLOBAL_REPORT_SIZE 1 8 colref.base
            (item_effect TAG_TYPE_GLOBAL TAG_GLOBAL_PUSH 0 0 colref.base
              parse_state.init)))).features = parse_state.init.features ++ [f] ∧
      f.caps = parse_state.init.caps ∧
      (item_effect TAG_TYPE_MAIN TAG_MAIN_INPUT 1 2 colref.base
        (item_effect TAG_TYPE_GLOBAL TAG_GLOBAL_POP 0 0 colref.base
          (item_effect TAG_TYPE_GLOBAL TAG_GLOBAL_REPORT_SIZE 1 8 colref.base
            (item_effect TAG_TYPE_GLOBAL TAG_GLOBAL_PUSH 0 0 colref.base
              parse_state.init)))).stack = parse_state.init.stack :=
  ⟨⟨by decide, by decide⟩,
    C11_push_pop parse_state.init colref.base TAG_GLOBAL_REPORT_SIZE TAG_MAIN_INPUT 0 1 0 1
      0 8 0 2 (by decide) (by decide)⟩

/-- C12: when more than ten Local Usage items are decoded one after the other
from an accumulator with an empty usage list, the accumulator ends with
`usage_count = 10`, a discrete selector and the first ten values, in order, in
the slots `Usage[0..9]`; it is the accumulator the first ten items alone leave
behind, every later item changing nothing, and a Main item decoded next
creates a feature with this snapshot. -/
theorem C12_usage_overflow (c : caps) (vals : List (Nat × Int)) (hc : c.usage_count = 0)
    (hu : c.u.length = 15) (hn : 10 < vals.length) :
    (usage_items vals c).usage_count = 10 ∧
    (usage_items vals c).IsRange = false ∧
    (usage_items vals c).u.take 10 = (vals.take 10).map usage_value ∧
    usage_items vals c = usage_items (vals.take 10) c ∧
    (∀ (k : Nat) (p : Nat × Int), 10 ≤ k →
      local_item p.1 p.2 TAG_LOCAL_USAGE (usage_items (vals.take k) c) =
        usage_items (vals.take k) c) ∧
    ∀ (t : HIDP_REPORT_TYPE) (bSize : Nat) (itemVal : Int) (bTag : Nat) (cur : colref)
      (st : parse_state), st.caps = usage_items vals c →
      ∃ f : feature, (main_io_item t bSize itemVal bTag cur st).features = st.features ++ [f] ∧
        f.caps.usage_count = 10 ∧ f.caps.IsRange = false ∧
        f.caps.u.take 10 = (vals.take 10).map usage_value := by
  have hlen : (vals.take 10).length = 10 := by
    rw [List.length_take]
    omega
  obtain ⟨r1, r2, r3, r4⟩ := usage_items_room c hc hu (vals.take 10) (by
    rw [hlen]
    exact Nat.le_refl _)
  rw [hlen] at r1 r3
  have hne : vals.take 10 ≠ [] := by
    intro e
    rw [e] at hlen
    exact absurd hlen (by decide)
  have hsplit : ∀ k, 10 ≤ k → usage_items (vals.take k) c = usage_items (vals.take 10) c := by
    intro k hk
    have e : vals.take k = vals.take 10 ++ (vals.drop 10).take (k - 10) := by
      have := List.take_add vals 10 (k - 10)
      rw [show 10 + (k - 10) = k by omega] at this
      exact this
    rw [e]
    unfold usage_items
    rw [List.foldl_append]
    exact usage_items_full _ _ (by
      show USAGE_MAX ≤ (usage_items (vals.take 10) c).usage_count
      rw [r1]
      exact Nat.le_refl _)
  have hall : usage_items vals c = usage_items (vals.take 10) c := by
    have := hsplit vals.length (by omega)
    rw [List.take_length] at this
    exact this
  refine ⟨by rw [hall, r1], by rw [hall]; exact r4 hne, by rw [hall]; exact r3, hall, ?_, ?_⟩
  · intro k p hk
    rw [hsplit k hk]
    exact local_usage_full _ _ _ (by rw [r1]; exact Nat.le_refl _)
  · intro t bSize itemVal bTag cur st hst
    refine ⟨_, rfl, ?_, ?_, ?_⟩
    · show st.caps.usage_count = 10
      rw [hst, hall, r1]
    · show st.caps.IsRange = false
      rw [hst, hall]
      exact r4 hne
    · show st.caps.u.take 10 = _
      rw [hst, hall]
      exact r3

/-- C12, an instance: eleven Local Usage items with the values 1 to 11. -/
theorem C12_usage_overflow_witness :
    (caps.zero.usage_count = 0 ∧ caps.zero.u.length = 15 ∧
      10 < ([(1, 1), (1, 2), (1, 3), (1, 4), (1, 5), (1, 6), (1, 7), (1, 8), (1, 9), (1, 10),
        (1, 11)] : List (Nat × Int)).length) ∧
    (usage_items [(1, 1), (1, 2), (1, 3), (1, 4), (1, 5), (1, 6), (1, 7), (1, 8), (1, 9),
        (1, 10), (1, 11)] caps.zero).usage_count = 10 ∧
    (usage_items [(1, 1), (1, 2), (1, 3), (1, 4), (1, 5), (1, 6), (1, 7), (1, 8), (1, 9),
        (1, 10), (1, 11)] caps.zero).u.take 10 = [1, 2, 3, 4, 5, 6, 7, 8, 9, 10] :=
  ⟨⟨by decide, by decide, by decide⟩,
    (C12_usage_overflow caps.zero [(1, 1), (1, 2), (1, 3), (1, 4), (1, 5), (1, 6), (1, 7),
      (1, 8), (1, 9), (1, 10), (1, 11)] (by decide) (by decide) (by decide)).1,
    (C12_usage_overflow caps.zero [(1, 1), (1, 2), (1, 3), (1, 4), (1, 5), (1, 6), (1, 7),
      (1, 8), (1, 9), (1, 10), (1, 11)] (by decide) (by decide) (by decide)).2.2.1⟩

/-- C15: for the empty descriptor `ParseDescriptor` returns `NULL`. -/
theorem C15_empty_descriptor (S : Sizes) (junk : Nat → Nat) :
    ParseDescriptor S junk [] = none := rfl

/-- C20: a Global Pop item decoded while the stack is empty leaves the whole
state as it is, and the parse goes on with the item behind its payload; decoded
while the stack is `below ++ [top]`, it makes `top` the accumulator and leaves
`below` as the stack.  A Global Push item puts the accumulator at that end of
the stack, so `top` is the entry pushed last. -/
theorem C20_pop (fuel : Nat) (descriptor : List Nat) (index length : Nat) (cur : colref)
    (st : parse_state) (h : index < length)
    (ht : item_type (descriptor.getD index 0 % 256) = TAG_TYPE_GLOBAL)
    (hg : item_tag (descriptor.getD index 0 % 256) = TAG_GLOBAL_POP) :
    (st.stack = [] →
      parse_descriptor (fuel + 1) descriptor index length cur st =
        parse_descriptor fuel descriptor
          (index + 1 + item_size (descriptor.getD index 0 % 256)) length cur st) ∧
    (∀ (below : List caps) (top : caps), st.stack = below ++ [top] →
      parse_descriptor (fuel + 1) descriptor index length cur st =
        parse_descriptor fuel descriptor
          (index + 1 + item_size (descriptor.getD index 0 % 256)) length cur
          { st with caps := top, stack := below }) ∧
    (∀ (bSize : Nat) (itemVal : Int) (c : caps) (stack : List caps),
      global_item bSize itemVal TAG_GLOBAL_PUSH c stack = (c, stack ++ [c])) := by
  have hstep := parse_descriptor_item fuel descriptor index length cur st h
    (by rw [ht]; exact fun e => absurd e.1 (by decide))
    (by rw [ht]; exact fun e => absurd e.1 (by decide))
    (by rw [ht]; exact fun e => absurd e.1 (by decide))
  rw [ht, hg] at hstep
  have heff : ∀ (s : Nat) (v : Int),
      item_effect TAG_TYPE_GLOBAL TAG_GLOBAL_POP s v cur st =
        { st with caps := (global_item s v TAG_GLOBAL_POP st.caps st.stack).1,
                  stack := (global_item s v TAG_GLOBAL_POP st.caps st.stack).2 } := by
    intro s v
    simp [item_effect, TAG_TYPE_GLOBAL, TAG_TYPE_MAIN]
  rw [heff] at hstep
  refine ⟨fun he => ?_, fun below top he => ?_, global_item_push⟩
  · rw [hstep, he, global_item_pop_empty]
    congr 1
    cases st
    simp_all
  · rw [hstep, he, global_item_pop_top]

/-- C20, an instance: the one-byte descriptor `B4`, a Global Pop item, parsed
from the initial state. -/
theorem C20_pop_witness :
    (0 < 1 ∧ item_type (([0xB4] : List Nat).getD 0 0 % 256) = TAG_TYPE_GLOBAL ∧
      item_tag (([0xB4] : List Nat).getD 0 0 % 256) = TAG_GLOBAL_POP ∧
      parse_state.init.stack = []) ∧
    parse_descriptor (0 + 1) [0xB4] 0 1 colref.base parse_state.init =
      parse_descriptor 0 [0xB4]
        (0 + 1 + item_size (([0xB4] : List Nat).getD 0 0 % 256)) 1 colref.base
        parse_state.init :=
  ⟨⟨by decide, by decide, by decide, by decide⟩,
    (C20_pop 0 [0xB4] 0 1 colref.base parse_state.init (by decide) (by decide)
      (by decide)).1 (by decide)⟩

/-- C16: for `05 09 09 01 75 01 95 01 81 03`, a constant Input item of the
Button page with one usage, `count_elements` counts one Button while
`build_elements` writes no element: the header says `NumberInputButtonCaps = 1`
and the only Input record is empty. -/
theorem C16_constant_feature_counted (S : Sizes) (junk : Nat → Nat) :
    ∃ d, ParseDescriptor S junk constant_button = some d ∧
      d.NumberInputButtonCaps = 1 ∧ d.input_records.map (fun r => r.Elements) = [[]] := by
  have h := ParseDescriptor_view input_buttons_view input_buttons_view_strip S junk
    constant_button
  obtain ⟨d, hd⟩ : ∃ d, ParseDescriptor S junk constant_button = some d := ⟨_, rfl⟩
  rw [hd] at h
  have h2 : input_buttons_view d = (1, [[]]) := Option.some.inj (h.trans (by decide))
  simp only [input_buttons_view, Prod.mk.injEq] at h2
  exact ⟨d, hd, h2.1, h2.2⟩

/-- C19: the device usage page and usage of the header are those of the root
collection's snapshot.  A Collection item gives its new node a copy of the
accumulator; the snapshot of the root is that of the first sub-collection ever
created, whatever follows, and is zero when no Collection item was decoded. -/
theorem C19_device_usage (S : Sizes) (junk : Nat → Nat) (descriptor : List Nat)
    (d : WINE_HIDP_PREPARSED_DATA) (h : ParseDescriptor S junk descriptor = some d) :
    ((parse_all descriptor).collections = [] → d.UsagePage = 0 ∧ d.Usage = 0) ∧
    (∀ (c : collection) (rest : List collection),
      (parse_all descriptor).collections = c :: rest →
        d.UsagePage = c.caps.UsagePage ∧ d.Usage = c.caps.slot 0) ∧
    (parse_all descriptor).collection_index = (parse_all descriptor).collections.length ∧
    ∀ (bSize : Nat) (itemVal : Int) (cur : colref) (st : parse_state),
      (main_collection_item bSize itemVal cur st).collections.getLast?.map (fun c => c.caps) =
        some st.caps := by
  obtain ⟨h1, h2⟩ := parse_all_base_linked descriptor
  have hd : d.UsagePage = (parse_all descriptor).base.caps.UsagePage ∧
      d.Usage = (parse_all descriptor).base.caps.slot 0 := by
    unfold ParseDescriptor at h
    by_cases hp : (parse_all descriptor).feature_index ≠ 0
    · simp only [hp, ne_eq, not_false_eq_true, if_true, Option.some.injEq] at h
      rw [← h]
      exact ⟨rfl, rfl⟩
    · simp only [hp, if_false] at h
      exact absurd h (by simp)
  refine ⟨fun hc => ?_, fun c rest hc => ?_, h1, fun bSize itemVal cur st => ?_⟩
  · rw [hc] at h2
    rw [hd.1, hd.2, h2]
    exact ⟨rfl, rfl⟩
  · rw [hc] at h2
    rw [hd.1, hd.2, h2]
    exact ⟨rfl, rfl⟩
  · have hcaps : ∀ c : collection, (parse_collection bSize itemVal c).caps = c.caps := by
      intro c
      unfold parse_collection
      split <;> rfl
    simp [main_collection_item, hcaps]

/-- C19, an instance: usage page 1 and usage 2 ahead of one collection. -/
theorem C19_device_usage_witness :
    ∃ d, ParseDescriptor (Sizes.mk 188 96 84) (fun _ => 0) one_collection = some d ∧
      d.UsagePage = 1 ∧ d.Usage = 2 ∧
      ((parse_all one_collection).collections = [] → d.UsagePage = 0 ∧ d.Usage = 0) ∧
      (∀ (c : collection) (rest : List collection),
        (parse_all one_collection).collections = c :: rest →
          d.UsagePage = c.caps.UsagePage ∧ d.Usage = c.caps.slot 0) :=
  ⟨_, rfl, by decide, by decide,
    (C19_device_usage (Sizes.mk 188 96 84) (fun _ => 0) one_collection _ rfl).1,
    (C19_device_usage (Sizes.mk 188 96 84) (fun _ => 0) one_collection _ rfl).2.1⟩

/-- C13: if a descriptor declares exactly two features, both data Input
features, with different report identifiers, the layout has
`dwInputReportCount = 2` and two Input records; they carry the two report
identifiers, in one order or the other, and each holds the elements of its own
feature, laid out from bit 8. -/
theorem C13_two_reports (S : Sizes) (junk : Nat → Nat) (descriptor : List Nat)
    (f1 f2 : feature) (hfs : (parse_all descriptor).features = [f1, f2])
    (h1 : f1.isData = true ∧ f1.type = HIDP_REPORT_TYPE.HidP_Input)
    (h2 : f2.isData = true ∧ f2.type = HIDP_REPORT_TYPE.HidP_Input)
    (hne : f1.caps.ReportID ≠ f2.caps.ReportID) :
    ∃ (d : WINE_HIDP_PREPARSED_DATA) (g1 g2 : feature) (r1 r2 : WINE_HID_REPORT),
      ParseDescriptor S junk descriptor = some d ∧
      ((g1 = f1 ∧ g2 = f2) ∨ (g1 = f2 ∧ g2 = f1)) ∧
      d.dwInputReportCount = 2 ∧ d.input_records = [r1, r2] ∧
      r1.reportID = g1.caps.ReportID ∧ r2.reportID = g2.caps.ReportID ∧
      r1.Elements = elements_of g1 ∧ r2.Elements = elements_of g2 := by
  have hall : ∀ f ∈ (parse_all descriptor).features, f.isData = true := by
    intro f hf
    rw [hfs] at hf
    simp only [List.mem_cons, List.mem_singleton, List.not_mem_nil, or_false] at hf
    rcases hf with hf | hf
    · rw [hf]; exact h1.1
    · rw [hf]; exact h2.1
  have hidx := feature_index_eq_length descriptor hall
  rw [hfs] at hidx
  have hidx2 : (parse_all descriptor).feature_index = 2 := hidx
  have hpos : (parse_all descriptor).feature_index ≠ 0 := by
    rw [hidx2]
    decide
  obtain ⟨g1, g2, hs, hg⟩ : ∃ g1 g2, sorted_features (parse_all descriptor) = [g1, g2] ∧
      ((g1 = f1 ∧ g2 = f2) ∨ (g1 = f2 ∧ g2 = f1)) := by
    rcases sorted_features_two _ f1 f2 hfs hidx2 with h | h
    · exact ⟨f1, f2, h, Or.inl ⟨rfl, rfl⟩⟩
    · exact ⟨f2, f1, h, Or.inr ⟨rfl, rfl⟩⟩
  have ht : g1.type = HIDP_REPORT_TYPE.HidP_Input ∧ g2.type = HIDP_REPORT_TYPE.HidP_Input := by
    rcases hg with ⟨a, b⟩ | ⟨a, b⟩
    · rw [a, b]; exact ⟨h1.2, h2.2⟩
    · rw [a, b]; exact ⟨h2.2, h1.2⟩
  have hne' : g1.caps.ReportID ≠ g2.caps.ReportID := by
    rcases hg with ⟨a, b⟩ | ⟨a, b⟩
    · rw [a, b]; exact hne
    · rw [a, b]; exact fun e => hne e.symm
  have hin : features_of_type HIDP_REPORT_TYPE.HidP_Input [g1, g2] = [g1, g2] :=
    features_of_type_eq_self _ _ (by
      intro f hf
      simp only [List.mem_cons, List.mem_singleton, List.not_mem_nil, or_false] at hf
      rcases hf with hf | hf
      · rw [hf]; exact ht.1
      · rw [hf]; exact ht.2)
  obtain ⟨r1, r2, k1, k2, k3, k4, k5, k6⟩ :=
    build_block_two S false true g1 g2 WINE_HID_REPORT.zero hne'
  simp only [ParseDescriptor, hpos, ne_eq, not_false_eq_true, if_true]
  refine ⟨_, g1, g2, r1, r2, rfl, hg, ?_, ?_, k3, k4, k5, k6⟩
  · simp only [build_PreparseData, hs, hin]
    exact k2
  · simp only [build_PreparseData, hs, hin]
    exact k1

/-- C13, an instance: an 8-bit field in report 5 followed by a 4-bit field in
report 3; the sort puts report 3 first. -/
theorem C13_two_reports_witness :
    ∃ f1 f2 : feature, (parse_all two_reports).features = [f1, f2] ∧
      (f1.isData = true ∧ f1.type = HIDP_REPORT_TYPE.HidP_Input) ∧
      (f2.isData = true ∧ f2.type = HIDP_REPORT_TYPE.HidP_Input) ∧
      f1.caps.ReportID ≠ f2.caps.ReportID ∧
      ∃ (d : WINE_HIDP_PREPARSED_DATA) (g1 g2 : feature) (r1 r2 : WINE_HID_REPORT),
        ParseDescriptor (Sizes.mk 188 96 84) (fun _ => 0) two_reports = some d ∧
        ((g1 = f1 ∧ g2 = f2) ∨ (g1 = f2 ∧ g2 = f1)) ∧
        d.dwInputReportCount = 2 ∧ d.input_records = [r1, r2] ∧
        r1.reportID = g1.caps.ReportID ∧ r2.reportID = g2.caps.ReportID ∧
        r1.Elements = elements_of g1 ∧ r2.Elements = elements_of g2 :=
  ⟨_, _, rfl, by decide, by decide, by decide,
    C13_two_reports (Sizes.mk 188 96 84) (fun _ => 0) two_reports _ _ rfl (by decide)
      (by decide) (by decide)⟩

/-- C17: in a layout that is returned, when there is an Output feature
`dwOutputReportOffset` is the sum of the `dwSize` fields of the Input records,
and when there is a Feature-direction feature `dwFeatureReportOffset` is the
sum of the `dwSize` fields of the Input and Output records (both as `DWORD`s,
the sum itself below 2^32); the records of the Input, Output and Feature
sections, in this order, lie one behind the other from displacement 0 on. -/
theorem C17_section_offsets (S : Sizes) (junk : Nat → Nat) (descriptor : List Nat)
    (d : WINE_HIDP_PREPARSED_DATA) (h : ParseDescriptor S junk descriptor = some d) :
    (features_of_type HIDP_REPORT_TYPE.HidP_Output
        (sorted_features (parse_all descriptor)) ≠ [] →
      d.dwOutputReportOffset = wrap32 (total_size d.input_records) ∧
      (total_size d.input_records < 4294967296 →
        d.dwOutputReportOffset = total_size d.input_records)) ∧
    (features_of_type HIDP_REPORT_TYPE.HidP_Feature
        (sorted_features (parse_all descriptor)) ≠ [] →
      d.dwFeatureReportOffset =
        wrap32 (total_size d.input_records + total_size d.output_records) ∧
      (total_size d.input_records + total_size d.output_records < 4294967296 →
        d.dwFeatureReportOffset =
          total_size d.input_records + total_size d.output_records)) ∧
    ∃ e, consecutive 0 (d.input_records ++ d.output_records ++ d.feature_records) e := by
  obtain ⟨-, hd⟩ := ParseDescriptor_some S junk descriptor d h
  obtain ⟨k1, k2, k3⟩ := build_PreparseData_offsets S junk
    (sorted_features (parse_all descriptor))
    (features_of_type HIDP_REPORT_TYPE.HidP_Input (sorted_features (parse_all descriptor)))
    (features_of_type HIDP_REPORT_TYPE.HidP_Output (sorted_features (parse_all descriptor)))
    (features_of_type HIDP_REPORT_TYPE.HidP_Feature (sorted_features (parse_all descriptor)))
    (parse_all descriptor).base
  rw [← hd] at k1 k2 k3
  refine ⟨fun ho => ⟨k1 ho, fun hlt => ?_⟩, fun hf => ⟨k2 hf, fun hlt => ?_⟩, k3⟩
  · rw [k1 ho]
    exact Nat.mod_eq_of_lt hlt
  · rw [k2 hf]
    exact Nat.mod_eq_of_lt hlt

/-- C17, an instance: one Input, one Output and one Feature item. -/
theorem C17_section_offsets_witness :
    ∃ d, ParseDescriptor (Sizes.mk 188 96 84) (fun _ => 0) three_directions = some d ∧
      (features_of_type HIDP_REPORT_TYPE.HidP_Output
          (sorted_features (parse_all three_directions)) ≠ [] →
        d.dwOutputReportOffset = wrap32 (total_size d.input_records) ∧
        (total_size d.input_records < 4294967296 →
          d.dwOutputReportOffset = total_size d.input_records)) ∧
      (features_of_type HIDP_REPORT_TYPE.HidP_Feature
          (sorted_features (parse_all three_directions)) ≠ [] →
        d.dwFeatureReportOffset =
          wrap32 (total_size d.input_records + total_size d.output_records) ∧
        (total_size d.input_records + total_size d.output_records < 4294967296 →
          d.dwFeatureReportOffset =
            total_size d.input_records + total_size d.output_records)) ∧
      ∃ e, consecutive 0 (d.input_records ++ d.output_records ++ d.feature_records) e :=
  ⟨_, rfl, C17_section_offsets (Sizes.mk 188 96 84) (fun _ => 0) three_directions _ rfl⟩

/-- C18, the claim as stated fails: for one constant Input item of 65535 fields
of 8 bits the Input direction has a feature and the final bit cursor of its
record is 524288, yet `InputReportByteLength`, a 16-bit field, is 0 and not
65536. -/
theorem C18_byte_length_as_stated_fails :
    ∃ d : WINE_HIDP_PREPARSED_DATA,
      ParseDescriptor (Sizes.mk 188 96 84) (fun _ => 0) wide_constant = some d ∧
      features_of_type HIDP_REPORT_TYPE.HidP_Input
        (sorted_features (parse_all wide_constant)) ≠ [] ∧
      max_cursor (features_of_type HIDP_REPORT_TYPE.HidP_Input
        (sorted_features (parse_all wide_constant))) = 524288 ∧
      byte_length_of HIDP_REPORT_TYPE.HidP_Input d = 0 :=
  ⟨_, rfl, by decide, by decide, by decide⟩

/-- C18, amended: in a layout that is returned, the report byte length of a
direction is 0 when the direction has no feature, and when the largest final
bit cursor `B` of the direction's report records (8 plus the bits of the
record's features, constant ones included) is at most 524280 it is `B` rounded
up to whole bytes, which is at least 1 when the direction has a feature. -/
theorem C18_byte_length (S : Sizes) (junk : Nat → Nat) (descriptor : List Nat)
    (d : WINE_HIDP_PREPARSED_DATA) (t : HIDP_REPORT_TYPE)
    (h : ParseDescriptor S junk descriptor = some d) :
    (features_of_type t (sorted_features (parse_all descriptor)) = [] →
      byte_length_of t d = 0) ∧
    (max_cursor (features_of_type t (sorted_features (parse_all descriptor))) ≤ 524280 →
      byte_length_of t d =
        (max_cursor (features_of_type t (sorted_features (parse_all descriptor))) + 7) / 8 ∧
      (features_of_type t (sorted_features (parse_all descriptor)) ≠ [] →
        1 ≤ byte_length_of t d)) := by
  obtain ⟨-, rfl⟩ := ParseDescriptor_some S junk descriptor d h
  obtain ⟨a, c, prev, e⟩ := byte_length_of_build S junk
    (sorted_features (parse_all descriptor))
    (features_of_type HIDP_REPORT_TYPE.HidP_Input (sorted_features (parse_all descriptor)))
    (features_of_type HIDP_REPORT_TYPE.HidP_Output (sorted_features (parse_all descriptor)))
    (features_of_type HIDP_REPORT_TYPE.HidP_Feature (sorted_features (parse_all descriptor)))
    (parse_all descriptor).base t
  rw [e]
  cases t <;> exact build_block_byte_length_small S a c _ prev

/-- C18, an instance: for the single 4-bit field the cursor ends at 12 and the
Input byte length is 2. -/
theorem C18_byte_length_witness :
    ∃ d : WINE_HIDP_PREPARSED_DATA,
      ParseDescriptor (Sizes.mk 188 96 84) (fun _ => 0) nibble_field = some d ∧
      max_cursor (features_of_type HIDP_REPORT_TYPE.HidP_Input
        (sorted_features (parse_all nibble_field))) = 12 ∧
      byte_length_of HIDP_REPORT_TYPE.HidP_Input d =
        (max_cursor (features_of_type HIDP_REPORT_TYPE.HidP_Input
          (sorted_features (parse_all nibble_field))) + 7) / 8 ∧
      1 ≤ byte_length_of HIDP_REPORT_TYPE.HidP_Input d :=
  ⟨_, rfl, by decide,
    ((C18_byte_length (Sizes.mk 188 96 84) (fun _ => 0) nibble_field _
      HIDP_REPORT_TYPE.HidP_Input rfl).2 (by decide)).1,
    ((C18_byte_length (Sizes.mk 188 96 84) (fun _ => 0) nibble_field _
      HIDP_REPORT_TYPE.HidP_Input rfl).2 (by decide)).2 (by decide)⟩

/-- C14: for a buffer made of a Collection item with a 1-byte payload followed
by complete Global and Local items and, among them, one Input item that has a
payload with bit 0 clear, with no End Collection item, `ParseDescriptor`
returns a layout; the parse stores exactly one feature, a data Input feature;
the layout has one Input record, holding the elements of that feature; and
the buffer with a closing End Collection item `C0` appended gives the same
layout. -/
theorem C14_open_collection (S : Sizes) (junk : Nat → Nat) (c : Nat)
    (before after : List raw_item) (inp : raw_item)
    (hb : ∀ it ∈ before ++ after,
      it.complete ∧ (item_type it.b0 = TAG_TYPE_GLOBAL ∨ item_type it.b0 = TAG_TYPE_LOCAL))
    (hi : inp.complete ∧ item_type inp.b0 = TAG_TYPE_MAIN ∧ item_tag inp.b0 = TAG_MAIN_INPUT)
    (hd : item_size inp.b0 ≠ 0 ∧ bit_set inp.value 0x01 = false) :
    ∃ (d : WINE_HIDP_PREPARSED_DATA) (f : feature) (rep : WINE_HID_REPORT),
      ParseDescriptor S junk ([0xA1, c] ++ items_bytes (before ++ inp :: after)) = some d ∧
      (parse_all ([0xA1, c] ++ items_bytes (before ++ inp :: after))).features = [f] ∧
      f.isData = true ∧ f.type = HIDP_REPORT_TYPE.HidP_Input ∧
      d.input_records = [rep] ∧ rep.Elements = elements_of f ∧
      ParseDescriptor S junk
        ([0xA1, c] ++ items_bytes (before ++ inp :: after) ++ [0xC0]) = some d := by
  have hflat : ∀ it ∈ before ++ inp :: after, it.complete ∧ it.flat := by
    intro it hit
    rcases List.mem_append.1 hit with h | h
    · have := hb it (List.mem_append_left _ h)
      exact ⟨this.1, this.2.elim Or.inl fun k => Or.inr (Or.inl k)⟩
    · rcases List.mem_cons.1 h with rfl | h
      · exact ⟨hi.1, Or.inr (Or.inr hi.2)⟩
      · have := hb it (List.mem_append_right _ h)
        exact ⟨this.1, this.2.elim Or.inl fun k => Or.inr (Or.inl k)⟩
  have e1 := parse_all_open_collection c (before ++ inp :: after) [] hflat (Or.inl rfl)
  have e2 := parse_all_open_collection c (before ++ inp :: after) [0xC0] hflat (Or.inr rfl)
  rw [List.append_nil] at e1
  rw [← List.append_assoc] at e2
  have hsame : parse_all ([0xA1, c] ++ items_bytes (before ++ inp :: after) ++ [0xC0]) =
      parse_all ([0xA1, c] ++ items_bytes (before ++ inp :: after)) := e2.trans e1.symm
  have hPD : ParseDescriptor S junk
      ([0xA1, c] ++ items_bytes (before ++ inp :: after) ++ [0xC0]) =
      ParseDescriptor S junk ([0xA1, c] ++ items_bytes (before ++ inp :: after)) := by
    unfold ParseDescriptor
    rw [hsame]
  obtain ⟨b1, b2⟩ := run_items_global_local (colref.sub 0) before
    (main_collection_item 1 (raw_item.value ⟨0xA1, [c]⟩) colref.base parse_state.init)
    (fun it hit => (hb it (List.mem_append_left _ hit)).2)
  obtain ⟨f, f1, f2, f3, f4⟩ := item_effect_input_data (item_size inp.b0) inp.value
    (colref.sub 0) (run_items before (colref.sub 0)
      (main_collection_item 1 (raw_item.value ⟨0xA1, [c]⟩) colref.base parse_state.init))
    hd.1 hd.2
  obtain ⟨a1, a2⟩ := run_items_global_local (colref.sub 0) after
    (inp.effect (colref.sub 0) (run_items before (colref.sub 0)
      (main_collection_item 1 (raw_item.value ⟨0xA1, [c]⟩) colref.base parse_state.init)))
    (fun it hit => (hb it (List.mem_append_right _ hit)).2)
  have hrun : run_items (before ++ inp :: after) (colref.sub 0)
      (main_collection_item 1 (raw_item.value ⟨0xA1, [c]⟩) colref.base parse_state.init) =
      run_items after (colref.sub 0) (inp.effect (colref.sub 0)
        (run_items before (colref.sub 0)
          (main_collection_item 1 (raw_item.value ⟨0xA1, [c]⟩) colref.base
            parse_state.init))) := by
    rw [run_items_append]
    rfl
  have heff : inp.effect (colref.sub 0) (run_items before (colref.sub 0)
      (main_collection_item 1 (raw_item.value ⟨0xA1, [c]⟩) colref.base parse_state.init)) =
      item_effect TAG_TYPE_MAIN TAG_MAIN_INPUT (item_size inp.b0) inp.value (colref.sub 0)
        (run_items before (colref.sub 0)
          (main_collection_item 1 (raw_item.value ⟨0xA1, [c]⟩) colref.base
            parse_state.init)) := by
    unfold raw_item.effect
    rw [hi.2.1, hi.2.2]
  have h0 : (main_collection_item 1 (raw_item.value ⟨0xA1, [c]⟩) colref.base
      parse_state.init).features = [] ∧
      (main_collection_item 1 (raw_item.value ⟨0xA1, [c]⟩) colref.base
      parse_state.init).feature_index = 0 := ⟨rfl, rfl⟩
  have hfs : (parse_all ([0xA1, c] ++ items_bytes (before ++ inp :: after))).features = [f] := by
    rw [e1, hrun, a1, heff, f3, b1, h0.1]
    rfl
  have hidx : (parse_all ([0xA1, c] ++ items_bytes (before ++ inp :: after))).feature_index =
      1 := by
    rw [e1, hrun, a2, heff, f4, b2, h0.2]
  obtain ⟨d, rep, k1, k2, k3⟩ := ParseDescriptor_one S junk _ f hfs hidx f2
  exact ⟨d, f, rep, k1, hfs, f1, f2, k2, k3, hPD.trans k1⟩

/-- C14, an instance: `A1 01 05 01 09 30 75 08 95 01 81 02 65 00`, an
application collection with one 8-bit Input field and a Unit item behind it,
never closed. -/
theorem C14_open_collection_witness :
    ((∀ it ∈ axis_globals ++ [⟨0x65, [0x00]⟩],
      it.complete ∧ (item_type it.b0 = TAG_TYPE_GLOBAL ∨ item_type it.b0 = TAG_TYPE_LOCAL)) ∧
      ((⟨0x81, [0x02]⟩ : raw_item).complete ∧ item_type 0x81 = TAG_TYPE_MAIN ∧
        item_tag 0x81 = TAG_MAIN_INPUT) ∧
      item_size 0x81 ≠ 0 ∧ bit_set (raw_item.value ⟨0x81, [0x02]⟩) 0x01 = false) ∧
    ∃ (d : WINE_HIDP_PREPARSED_DATA) (f : feature) (rep : WINE_HID_REPORT),
      ParseDescriptor (Sizes.mk 188 96 84) (fun _ => 0)
        ([0xA1, 0x01] ++ items_bytes (axis_globals ++ ⟨0x81, [0x02]⟩ :: [⟨0x65, [0x00]⟩])) =
        some d ∧
      (parse_all ([0xA1, 0x01] ++
        items_bytes (axis_globals ++ ⟨0x81, [0x02]⟩ :: [⟨0x65, [0x00]⟩]))).features = [f] ∧
      f.isData = true ∧ f.type = HIDP_REPORT_TYPE.HidP_Input ∧
      d.input_records = [rep] ∧ rep.Elements = elements_of f ∧
      ParseDescriptor (Sizes.mk 188 96 84) (fun _ => 0)
        ([0xA1, 0x01] ++ items_bytes (axis_globals ++ ⟨0x81, [0x02]⟩ :: [⟨0x65, [0x00]⟩]) ++
          [0xC0]) = some d :=
  ⟨⟨by decide, by decide, by decide, by decide⟩,
    C14_open_collection (Sizes.mk 188 96 84) (fun _ => 0) 0x01 axis_globals
      [⟨0x65, [0x00]⟩] ⟨0x81, [0x02]⟩ (by decide) (by decide) (by decide)⟩

/-- C27: with `allow_negative` set, `getValue` returns for size 1 the
two's-complement value of the low 8 bits of the source, a value from -128 to
127, and for size 2 that of the low 16 bits, a value from -32768 to 32767; for
size 4 it returns the source unchanged. -/
theorem C27_signed_value (source : Int) :
    (getValue 1 source true = sign_extend 8 source ∧
      -128 ≤ getValue 1 source true ∧ getValue 1 source true < 128) ∧
    (getValue 2 source true = sign_extend 16 source ∧
      -32768 ≤ getValue 2 source true ∧ getValue 2 source true < 32768) ∧
    ∀ allow_negative : Bool, getValue 4 source allow_negative = source := by
  refine ⟨?_, ?_, fun b => by simp [getValue]⟩
  · rw [getValue_one]
    simp only [sign_extend, true_and]
    norm_num
    split_ifs <;> omega
  · rw [getValue_two]
    simp only [sign_extend, true_and]
    norm_num
    split_ifs <;> omega

/-- C28, the claim as stated fails: for the 4-byte payload `FF FF FF FF` the
value read is -1 and `getValue` with `allow_negative` clear returns it
unchanged, a negative value. -/
theorem C28_unsigned_value_as_stated_fails :
    read_item [0xFF, 0xFF, 0xFF, 0xFF] 0 4 4 = -1 ∧
    getValue 4 (read_item [0xFF, 0xFF, 0xFF, 0xFF] 0 4 4) false = -1 ∧
    ¬ 0 ≤ getValue 4 (read_item [0xFF, 0xFF, 0xFF, 0xFF] 0 4 4) false := by
  decide

/-- C28, amended: with `allow_negative` clear, `getValue` returns for sizes 1
and 2 the source modulo 256 and 65536, a non-negative value; applied to the
value read from a payload of at most 2 bytes it returns the little-endian
unsigned value of the payload; for a payload of 4 bytes it returns that value
as a signed 32-bit integer, which is the unsigned value modulo 2^32. -/
theorem C28_unsigned_value (source : Int) (payload : List Nat) :
    (getValue 1 source false = source % 256 ∧ getValue 2 source false = source % 65536 ∧
      0 ≤ getValue 1 source false ∧ 0 ≤ getValue 2 source false) ∧
    (payload.length ≤ 2 →
      getValue payload.length (read_item payload 0 payload.length payload.length) false =
        little_endian payload) ∧
    (payload.length = 4 →
      getValue 4 (read_item payload 0 4 4) false = i32 (little_endian payload) ∧
      u32 (getValue 4 (read_item payload 0 4 4) false) = little_endian payload) := by
  refine ⟨?_, ?_, ?_⟩
  · rw [getValue_one, getValue_two]
    simp only [Bool.false_eq_true, false_and, if_false, true_and]
    exact ⟨Int.emod_nonneg _ (by decide), Int.emod_nonneg _ (by decide)⟩
  · intro h
    have hlt := little_endian_lt payload
    rw [read_item_payload]
    obtain ⟨x, hx⟩ : ∃ x, little_endian payload = x := ⟨_, rfl⟩
    rw [hx] at hlt ⊢
    have hn : payload.length = 0 ∨ payload.length = 1 ∨ payload.length = 2 := by omega
    rcases hn with hn | hn | hn
    · rw [hn] at hlt ⊢
      have hx0 : x = 0 := by omega
      subst hx0
      decide
    · rw [hn] at hlt ⊢
      rw [getValue_one]
      simp only [Bool.false_eq_true, false_and, if_false, i32]
      omega
    · rw [hn] at hlt ⊢
      rw [getValue_two]
      simp only [Bool.false_eq_true, false_and, if_false, i32]
      omega
  · intro h
    have hlt := little_endian_lt payload
    have e := read_item_payload payload
    rw [h] at e hlt
    rw [e]
    obtain ⟨x, hx⟩ : ∃ x, little_endian payload = x := ⟨_, rfl⟩
    rw [hx] at hlt ⊢
    refine ⟨by simp [getValue], ?_⟩
    have e4 : getValue 4 (i32 (x : Int)) false = i32 (x : Int) := by simp [getValue]
    rw [e4]
    have hlt2 : x < 4294967296 := by
      norm_num at hlt
      exact hlt
    have hh : (((x : Int) + 2147483648) % 4294967296 - 2147483648) % 4294967296 = (x : Int) := by
      omega
    simp only [u32, i32, hh]
    exact Int.toNat_natCast x

/-- C28, an instance: the payload `34 12` read as Report Count gives 0x1234, and
the payload `FF FF FF FF` gives -1, which is 4294967295 as an unsigned 32-bit
integer. -/
theorem C28_unsigned_value_witness :
    getValue 2 (read_item [0x34, 0x12] 0 2 2) false = little_endian [0x34, 0x12] ∧
    little_endian [0x34, 0x12] = 0x1234 ∧
    u32 (getValue 4 (read_item [0xFF, 0xFF, 0xFF, 0xFF] 0 4 4) false) =
      little_endian [0xFF, 0xFF, 0xFF, 0xFF] :=
  ⟨(C28_unsigned_value 0 [0x34, 0x12]).2.1 (by decide), by decide,
    ((C28_unsigned_value 0 [0xFF, 0xFF, 0xFF, 0xFF]).2.2 rfl).2⟩

/-- C21, what the code does: in the long item `FE 05 10 81 02 00 00 00` only the
prefix byte is skipped; the data-size byte `05` and the long tag `10` are
decoded as a Usage Page item and the data bytes `81 02` as an Input item, so
the parse stores a counted data Input feature of usage page 0x10 and
`ParseDescriptor` returns a layout. -/
theorem C21_long_item_bytes_decoded :
    parse_descriptor 8 long_item_example 0 8 colref.base parse_state.init =
      parse_descriptor 7 long_item_example 1 8 colref.base parse_state.init ∧
    (∃ f : feature, (parse_all long_item_example).features = [f] ∧
      f.type = HIDP_REPORT_TYPE.HidP_Input ∧ f.isData = true ∧ f.caps.UsagePage = 0x10) ∧
    (parse_all long_item_example).feature_index = 1 ∧
    ParseDescriptor (Sizes.mk 188 96 84) (fun _ => 0) long_item_example ≠ none := by
  refine ⟨parse_descriptor_long_item 7 long_item_example 0 8 _ _ (by decide) (by decide)
    (by decide), ⟨_, rfl, by decide, by decide, by decide⟩, by decide, by decide⟩

/-- C25: when the loop of `parse_descriptor` stands on an item of Reserved type
that is not taken for a long item, on a Main item whose tag is none of Input,
Output, Feature, Collection and End Collection, on a Global item with a tag
above Pop or on a Local item with a tag above Delimiter, it goes on behind the
declared payload of the item with the whole state (accumulator, stack,
collections, features, counters) as it was. -/
theorem C25_unknown_item_ignored (fuel : Nat) (descriptor : List Nat) (index length : Nat)
    (cur : colref) (st : parse_state) (b : Nat) (h : index < length)
    (hb : descriptor.getD index 0 % 256 = b)
    (hu : (item_type b = TAG_TYPE_RESERVED ∧
        ¬ (item_tag b = 0x0F ∧ item_size b = 2 ∧ index + 1 + 2 < length)) ∨
      (item_type b = TAG_TYPE_MAIN ∧ item_tag b ≠ TAG_MAIN_INPUT ∧
        item_tag b ≠ TAG_MAIN_OUTPUT ∧ item_tag b ≠ TAG_MAIN_FEATURE ∧
        item_tag b ≠ TAG_MAIN_COLLECTION ∧ item_tag b ≠ TAG_MAIN_END_COLLECTION) ∨
      (item_type b = TAG_TYPE_GLOBAL ∧ TAG_GLOBAL_POP < item_tag b) ∨
      (item_type b = TAG_TYPE_LOCAL ∧ TAG_LOCAL_DELIMITER < item_tag b)) :
    parse_descriptor (fuel + 1) descriptor index length cur st =
      parse_descriptor fuel descriptor (index + 1 + item_size b) length cur st := by
  subst hb
  have hlong : ¬ (item_type (descriptor.getD index 0 % 256) = TAG_TYPE_RESERVED ∧
      item_tag (descriptor.getD index 0 % 256) = 0x0F ∧
      item_size (descriptor.getD index 0 % 256) = 2 ∧ index + 1 + 2 < length) := by
    rcases hu with ⟨-, k⟩ | ⟨k, -⟩ | ⟨k, -⟩ | ⟨k, -⟩
    · exact fun x => k x.2
    · rw [k]; exact fun x => absurd x.1 (by decide)
    · rw [k]; exact fun x => absurd x.1 (by decide)
    · rw [k]; exact fun x => absurd x.1 (by decide)
  have hcol : ¬ (item_type (descriptor.getD index 0 % 256) = TAG_TYPE_MAIN ∧
      item_tag (descriptor.getD index 0 % 256) = TAG_MAIN_COLLECTION) := by
    rcases hu with ⟨k, -⟩ | ⟨-, -, -, -, k, -⟩ | ⟨k, -⟩ | ⟨k, -⟩
    · rw [k]; exact fun x => absurd x.1 (by decide)
    · exact fun x => k x.2
    · rw [k]; exact fun x => absurd x.1 (by decide)
    · rw [k]; exact fun x => absurd x.1 (by decide)
  have hend : ¬ (item_type (descriptor.getD index 0 % 256) = TAG_TYPE_MAIN ∧
      item_tag (descriptor.getD index 0 % 256) = TAG_MAIN_END_COLLECTION) := by
    rcases hu with ⟨k, -⟩ | ⟨-, -, -, -, -, k⟩ | ⟨k, -⟩ | ⟨k, -⟩
    · rw [k]; exact fun x => absurd x.1 (by decide)
    · exact fun x => k x.2
    · rw [k]; exact fun x => absurd x.1 (by decide)
    · rw [k]; exact fun x => absurd x.1 (by decide)
  rw [parse_descriptor_item fuel descriptor index length cur st h hlong hcol hend]
  rw [item_effect_unknown _ _ _ _ _ _ (by
    rcases hu with ⟨k, -⟩ | ⟨k, k1, k2, k3, -, -⟩ | k | k
    · exact Or.inl k
    · exact Or.inr (Or.inl ⟨k, k1, k2, k3⟩)
    · exact Or.inr (Or.inr (Or.inl k))
    · exact Or.inr (Or.inr (Or.inr k)))]

/-- C25, an instance: in `F1 07 81 02` the item `F1 07` (Main, tag 0x0F) is
passed over and the loop goes on at the Input item behind it. -/
theorem C25_unknown_item_ignored_witness :
    parse_descriptor 4 [0xF1, 0x07, 0x81, 0x02] 0 4 colref.base parse_state.init =
      parse_descriptor 3 [0xF1, 0x07, 0x81, 0x02] (0 + 1 + item_size 0xF1) 4 colref.base
        parse_state.init :=
  C25_unknown_item_ignored 3 [0xF1, 0x07, 0x81, 0x02] 0 4 colref.base parse_state.init 0xF1
    (by decide) (by decide) (Or.inr (Or.inl (by decide)))

/-- C29, the claim as stated fails: the Input item `81 80` has bit 7 of its
control value set and yet its feature is not volatile, and the Input item
`81 02` has bit 8 clear and yet its feature is not a bit field. -/
theorem C29_flags_as_stated_fails :
    (∃ f : feature, (parse_all [0x81, 0x80]).features = [f] ∧
      read_item [0x81, 0x80] 1 2 1 = 0x80 ∧ (0x80 : Int).testBit 7 = true ∧
      f.Volatile = false) ∧
    (∃ f : feature, (parse_all [0x81, 0x02]).features = [f] ∧
      read_item [0x81, 0x02] 1 2 1 = 0x02 ∧ (0x02 : Int).testBit 8 = false ∧
      f.BitField = false) :=
  ⟨⟨_, rfl, by decide, by decide, by decide⟩, ⟨_, rfl, by decide, by decide, by decide⟩⟩

/-- C29, amended: when the loop of `parse_descriptor` stands on an Input, Output
or Feature item that declares a payload, it appends one feature whose flags
come from the control value `v` read for the item: is-data iff bit 0 is clear,
is-array iff bit 1 is clear, absolute iff bit 2 is clear, wrap iff bit 3 is
set, linear iff bit 4 is clear, preferred-state iff bit 5 is clear, has-null
iff bit 6 is set, volatile iff the item is not an Input item and bit 7 is set,
bit-field iff the declared payload is longer than one byte and bit 8 is
clear. -/
theorem C29_flags (fuel : Nat) (descriptor : List Nat) (index length : Nat)
    (cur : colref) (st : parse_state) (b : Nat) (h : index < length)
    (hb : descriptor.getD index 0 % 256 = b)
    (hm : item_type b = TAG_TYPE_MAIN ∧ (item_tag b = TAG_MAIN_INPUT ∨
      item_tag b = TAG_MAIN_OUTPUT ∨ item_tag b = TAG_MAIN_FEATURE))
    (hs : item_size b ≠ 0) :
    ∃ (st' : parse_state) (f : feature),
      parse_descriptor (fuel + 1) descriptor index length cur st =
        parse_descriptor fuel descriptor (index + 1 + item_size b) length cur st' ∧
      st'.features = st.features ++ [f] ∧
      f.isData = !(read_item descriptor (index + 1) length (item_size b)).testBit 0 ∧
      f.isArray = !(read_item descriptor (index + 1) length (item_size b)).testBit 1 ∧
      f.IsAbsolute = !(read_item descriptor (index + 1) length (item_size b)).testBit 2 ∧
      f.Wrap = (read_item descriptor (index + 1) length (item_size b)).testBit 3 ∧
      f.Linear = !(read_item descriptor (index + 1) length (item_size b)).testBit 4 ∧
      f.prefState = !(read_item descriptor (index + 1) length (item_size b)).testBit 5 ∧
      f.HasNull = (read_item descriptor (index + 1) length (item_size b)).testBit 6 ∧
      f.Volatile = (decide (item_tag b ≠ TAG_MAIN_INPUT) &&
        (read_item descriptor (index + 1) length (item_size b)).testBit 7) ∧
      f.BitField = (decide (1 < item_size b) &&
        !(read_item descriptor (index + 1) length (item_size b)).testBit 8) := by
  subst hb
  obtain ⟨hm1, hm2⟩ := hm
  have hstep := parse_descriptor_item fuel descriptor index length cur st h
    (by rw [hm1]; exact fun x => absurd x.1 (by decide))
    (by rcases hm2 with k | k | k <;> rw [k] <;> exact fun x => absurd x.2 (by decide))
    (by rcases hm2 with k | k | k <;> rw [k] <;> exact fun x => absurd x.2 (by decide))
  rw [hstep, hm1]
  rcases hm2 with k | k | k
  · rw [k]
    exact ⟨_, { (parse_io_feature (item_size (descriptor.getD index 0 % 256))
        (read_item descriptor (index + 1) length (item_size (descriptor.getD index 0 % 256)))
        TAG_MAIN_INPUT st.feature_index (feature.alloc HIDP_REPORT_TYPE.HidP_Input)).2 with
        caps := st.caps, collection := cur }, rfl,
      by simp only [item_effect, if_true, main_io_item],
      parse_io_feature_flags _ _ _ _ _ hs⟩
  · rw [k]
    exact ⟨_, { (parse_io_feature (item_size (descriptor.getD index 0 % 256))
        (read_item descriptor (index + 1) length (item_size (descriptor.getD index 0 % 256)))
        TAG_MAIN_OUTPUT st.feature_index (feature.alloc HIDP_REPORT_TYPE.HidP_Output)).2 with
        caps := st.caps, collection := cur }, rfl,
      by simp [item_effect, main_io_item, TAG_MAIN_INPUT, TAG_MAIN_OUTPUT],
      parse_io_feature_flags _ _ _ _ _ hs⟩
  · rw [k]
    exact ⟨_, { (parse_io_feature (item_size (descriptor.getD index 0 % 256))
        (read_item descriptor (index + 1) length (item_size (descriptor.getD index 0 % 256)))
        TAG_MAIN_FEATURE st.feature_index (feature.alloc HIDP_REPORT_TYPE.HidP_Feature)).2 with
        caps := st.caps, collection := cur }, rfl,
      by simp [item_effect, main_io_item, TAG_MAIN_INPUT, TAG_MAIN_OUTPUT, TAG_MAIN_FEATURE],
      parse_io_feature_flags _ _ _ _ _ hs⟩

/-- C29, an instance: the Output item `91 82` (control value 0x82, bits 1 and
7 set). -/
theorem C29_flags_witness :
    ∃ (st' : parse_state) (f : feature),
      parse_descriptor (1 + 1) [0x91, 0x82] 0 2 colref.base parse_state.init =
        parse_descriptor 1 [0x91, 0x82] (0 + 1 + item_size 0x91) 2 colref.base st' ∧
      st'.features = parse_state.init.features ++ [f] ∧
      f.isData = !(read_item [0x91, 0x82] (0 + 1) 2 (item_size 0x91)).testBit 0 ∧
      f.isArray = !(read_item [0x91, 0x82] (0 + 1) 2 (item_size 0x91)).testBit 1 ∧
      f.IsAbsolute = !(read_item [0x91, 0x82] (0 + 1) 2 (item_size 0x91)).testBit 2 ∧
      f.Wrap = (read_item [0x91, 0x82] (0 + 1) 2 (item_size 0x91)).testBit 3 ∧
      f.Linear = !(read_item [0x91, 0x82] (0 + 1) 2 (item_size 0x91)).testBit 4 ∧
      f.prefState = !(read_item [0x91, 0x82] (0 + 1) 2 (item_size 0x91)).testBit 5 ∧
      f.HasNull = (read_item [0x91, 0x82] (0 + 1) 2 (item_size 0x91)).testBit 6 ∧
      f.Volatile = (decide (item_tag 0x91 ≠ TAG_MAIN_INPUT) &&
        (read_item [0x91, 0x82] (0 + 1) 2 (item_size 0x91)).testBit 7) ∧
      f.BitField = (decide (1 < item_size 0x91) &&
        !(read_item [0x91, 0x82] (0 + 1) 2 (item_size 0x91)).testBit 8) :=
  C29_flags 1 [0x91, 0x82] 0 2 colref.base parse_state.init 0x91 (by decide) (by decide)
    (by decide) (by decide)

/-- C30: when the loop of `parse_descriptor` stands on an Input, Output or
Feature item, whatever its payload, it appends one feature whose snapshot is
the accumulator as it was, and goes on behind the item with an accumulator
that has `usage_count` 0 and the three range flags false, while its Global
fields (usage page, logical and physical minimum and maximum, unit exponent,
unit, bit size, report identifier, report count) and the stack are as
before. -/
theorem C30_main_item_reset (fuel : Nat) (descriptor : List Nat) (index length : Nat)
    (cur : colref) (st : parse_state) (b : Nat) (h : index < length)
    (hb : descriptor.getD index 0 % 256 = b)
    (hm : item_type b = TAG_TYPE_MAIN ∧ (item_tag b = TAG_MAIN_INPUT ∨
      item_tag b = TAG_MAIN_OUTPUT ∨ item_tag b = TAG_MAIN_FEATURE)) :
    ∃ (st' : parse_state) (f : feature),
      parse_descriptor (fuel + 1) descriptor index length cur st =
        parse_descriptor fuel descriptor (index + 1 + item_size b) length cur st' ∧
      st'.features = st.features ++ [f] ∧ f.caps = st.caps ∧
      st'.caps.usage_count = 0 ∧ st'.caps.IsRange = false ∧
      st'.caps.IsStringRange = false ∧ st'.caps.IsDesignatorRange = false ∧
      st'.caps.UsagePage = st.caps.UsagePage ∧
      st'.caps.LogicalMin = st.caps.LogicalMin ∧ st'.caps.LogicalMax = st.caps.LogicalMax ∧
      st'.caps.PhysicalMin = st.caps.PhysicalMin ∧
      st'.caps.PhysicalMax = st.caps.PhysicalMax ∧
      st'.caps.UnitsExp = st.caps.UnitsExp ∧ st'.caps.Units = st.caps.Units ∧
      st'.caps.BitSize = st.caps.BitSize ∧ st'.caps.ReportID = st.caps.ReportID ∧
      st'.caps.ReportCount = st.caps.ReportCount ∧ st'.stack = st.stack := by
  subst hb
  obtain ⟨hm1, hm2⟩ := hm
  have hstep := parse_descriptor_item fuel descriptor index length cur st h
    (by rw [hm1]; exact fun x => absurd x.1 (by decide))
    (by rcases hm2 with k | k | k <;> rw [k] <;> exact fun x => absurd x.2 (by decide))
    (by rcases hm2 with k | k | k <;> rw [k] <;> exact fun x => absurd x.2 (by decide))
  rw [hstep, hm1]
  rcases hm2 with k | k | k
  · rw [k]
    exact ⟨_, { (parse_io_feature (item_size (descriptor.getD index 0 % 256))
        (read_item descriptor (index + 1) length (item_size (descriptor.getD index 0 % 256)))
        TAG_MAIN_INPUT st.feature_index (feature.alloc HIDP_REPORT_TYPE.HidP_Input)).2 with
        caps := st.caps, collection := cur }, rfl,
      by simp only [item_effect, if_true, main_io_item],
      rfl, rfl, rfl, rfl, rfl, rfl, rfl, rfl, rfl, rfl, rfl, rfl, rfl, rfl, rfl, rfl⟩
  · rw [k]
    exact ⟨_, { (parse_io_feature (item_size (descriptor.getD index 0 % 256))
        (read_item descriptor (index + 1) length (item_size (descriptor.getD index 0 % 256)))
        TAG_MAIN_OUTPUT st.feature_index (feature.alloc HIDP_REPORT_TYPE.HidP_Output)).2 with
        caps := st.caps, collection := cur }, rfl,
      by simp [item_effect, main_io_item, TAG_MAIN_INPUT, TAG_MAIN_OUTPUT],
      rfl, rfl, rfl, rfl, rfl, rfl, rfl, rfl, rfl, rfl, rfl, rfl, rfl, rfl, rfl, rfl⟩
  · rw [k]
    exact ⟨_, { (parse_io_feature (item_size (descriptor.getD index 0 % 256))
        (read_item descriptor (index + 1) length (item_size (descriptor.getD index 0 % 256)))
        TAG_MAIN_FEATURE st.feature_index (feature.alloc HIDP_REPORT_TYPE.HidP_Feature)).2 with
        caps := st.caps, collection := cur }, rfl,
      by simp [item_effect, main_io_item, TAG_MAIN_INPUT, TAG_MAIN_OUTPUT, TAG_MAIN_FEATURE],
      rfl, rfl, rfl, rfl, rfl, rfl, rfl, rfl, rfl, rfl, rfl, rfl, rfl, rfl, rfl, rfl⟩

/-- C30, an instance: the Feature item `B0`, which has no payload. -/
theorem C30_main_item_reset_witness :
    ∃ (st' : parse_state) (f : feature),
      parse_descriptor (0 + 1) [0xB0] 0 1 colref.base parse_state.init =
        parse_descriptor 0 [0xB0] (0 + 1 + item_size 0xB0) 1 colref.base st' ∧
      st'.features = parse_state.init.features ++ [f] ∧ f.caps = parse_state.init.caps ∧
      st'.caps.usage_count = 0 ∧ st'.caps.IsRange = false ∧
      st'.caps.IsStringRange = false ∧ st'.caps.IsDesignatorRange = false ∧
      st'.caps.UsagePage = parse_state.init.caps.UsagePage ∧
      st'.caps.LogicalMin = parse_state.init.caps.LogicalMin ∧
      st'.caps.LogicalMax = parse_state.init.caps.LogicalMax ∧
      st'.caps.PhysicalMin = parse_state.init.caps.PhysicalMin ∧
      st'.caps.PhysicalMax = parse_state.init.caps.PhysicalMax ∧
      st'.caps.UnitsExp = parse_state.init.caps.UnitsExp ∧
      st'.caps.Units = parse_state.init.caps.Units ∧
      st'.caps.BitSize = parse_state.init.caps.BitSize ∧
      st'.caps.ReportID = parse_state.init.caps.ReportID ∧
      st'.caps.ReportCount = parse_state.init.caps.ReportCount ∧
      st'.stack = parse_state.init.stack :=
  C30_main_item_reset 0 [0xB0] 0 1 colref.base parse_state.init 0xB0 (by decide) (by decide)
    (by decide)

/-- C23: an End Collection item at the outermost level ends the parse, so the
bytes behind it have no effect: `ParseDescriptor` returns null on `C0`
followed by any bytes, and for a sequence of complete items without Collection
and `FE` items, the buffer that continues with `C0` and any bytes is parsed
into the same state, hence the same features and the same result, as the
sequence alone. -/
theorem C23_root_end_collection (S : Sizes) (junk : Nat → Nat) (its : List raw_item)
    (s : List Nat) (h : ∀ it ∈ its, it.complete ∧ it.top_level) :
    ParseDescriptor S junk ([0xC0] ++ s) = none ∧
    parse_all (items_bytes its ++ [0xC0] ++ s) = parse_all (items_bytes its) ∧
    (parse_all (items_bytes its ++ [0xC0] ++ s)).features =
      (parse_all (items_bytes its)).features ∧
    ParseDescriptor S junk (items_bytes its ++ [0xC0] ++ s) =
      ParseDescriptor S junk (items_bytes its) := by
  have h0 : parse_all ([0xC0] ++ s) = parse_state.init :=
    parse_all_top_level [] (0xC0 :: s) (fun it hit => absurd hit (List.not_mem_nil _))
      (Or.inr ⟨s, rfl⟩)
  have h1 : parse_all (items_bytes its ++ [0xC0] ++ s) =
      run_top_level its colref.base parse_state.init := by
    rw [List.append_assoc]
    exact parse_all_top_level its ([0xC0] ++ s) h (Or.inr ⟨s, rfl⟩)
  have h2 : parse_all (items_bytes its) = run_top_level its colref.base parse_state.init := by
    have := parse_all_top_level its [] h (Or.inl rfl)
    rw [List.append_nil] at this
    exact this
  have h3 : parse_all (items_bytes its ++ [0xC0] ++ s) = parse_all (items_bytes its) :=
    h1.trans h2.symm
  refine ⟨?_, h3, by rw [h3], ?_⟩
  · unfold ParseDescriptor
    rw [h0]
    rfl
  · unfold ParseDescriptor
    rw [h3]

/-- C23, an instance: `05 01 09 30 75 08 95 01 81 02` followed by `C0` and a
second Input item `81 02`, which is never decoded. -/
theorem C23_root_end_collection_witness :
    (∀ it ∈ axis_globals ++ [⟨0x81, [0x02]⟩], it.complete ∧ it.top_level) ∧
    ParseDescriptor (Sizes.mk 188 96 84) (fun _ => 0) ([0xC0] ++ [0x81, 0x02]) = none ∧
    parse_all (items_bytes (axis_globals ++ [⟨0x81, [0x02]⟩]) ++ [0xC0] ++ [0x81, 0x02]) =
      parse_all (items_bytes (axis_globals ++ [⟨0x81, [0x02]⟩])) ∧
    (parse_all (items_bytes (axis_globals ++ [⟨0x81, [0x02]⟩]) ++ [0xC0] ++
      [0x81, 0x02])).features =
      (parse_all (items_bytes (axis_globals ++ [⟨0x81, [0x02]⟩]))).features ∧
    ParseDescriptor (Sizes.mk 188 96 84) (fun _ => 0)
      (items_bytes (axis_globals ++ [⟨0x81, [0x02]⟩]) ++ [0xC0] ++ [0x81, 0x02]) =
      ParseDescriptor (Sizes.mk 188 96 84) (fun _ => 0)
        (items_bytes (axis_globals ++ [⟨0x81, [0x02]⟩])) :=
  ⟨by decide, C23_root_end_collection (Sizes.mk 188 96 84) (fun _ => 0)
    (axis_globals ++ [⟨0x81, [0x02]⟩]) [0x81, 0x02] (by decide)⟩

/-- C26: when the loop of `parse_descriptor` stands on a prefix byte `b`,
whatever the item, the declared size is 0, 1, 2 or 4 for `b & 3` = 0, 1, 2, 3,
and the payload loop reads as value the little-endian integer of those bytes of
the declared payload that lie within `length`, as a 32-bit integer.  The
iteration acts on the type `(b >> 2) & 3`, the tag `b >> 4`, that size and that
value: a long item is skipped by its prefix alone, a Collection item opens the
nested parse with the size and the value, an End Collection item returns, and
for every other item the effect of the type, tag, size and value is applied and
the loop goes on at `index + 1 + size`. -/
theorem C26_item_decoding (fuel : Nat) (descriptor : List Nat) (index length : Nat)
    (cur : colref) (st : parse_state) (b : Nat) (h : index < length)
    (hb : descriptor.getD index 0 % 256 = b) :
    ((b &&& 3 = 0 → declared_size b = 0) ∧ (b &&& 3 = 1 → declared_size b = 1) ∧
      (b &&& 3 = 2 → declared_size b = 2) ∧ (b &&& 3 = 3 → declared_size b = 4)) ∧
    read_item descriptor (index + 1) length (declared_size b) =
      i32 (little_endian
        (((descriptor.take length).drop (index + 1)).take (declared_size b))) ∧
    parse_descriptor (fuel + 1) descriptor index length cur st =
      (if (b >>> 2) &&& 3 = TAG_TYPE_RESERVED ∧ b >>> 4 = 0x0F ∧
          declared_size b = 2 ∧ index + 1 + 2 < length then
        parse_descriptor fuel descriptor (index + 1) length cur st
      else if (b >>> 2) &&& 3 = TAG_TYPE_MAIN ∧ b >>> 4 = TAG_MAIN_COLLECTION then
        parse_descriptor fuel descriptor
          (parse_descriptor fuel descriptor (index + 1 + 1) length
            (colref.sub st.collection_index)
            (main_collection_item (declared_size b)
              (i32 (little_endian
                (((descriptor.take length).drop (index + 1)).take (declared_size b))))
              cur st)).1
          length cur
          (parse_descriptor fuel descriptor (index + 1 + 1) length
            (colref.sub st.collection_index)
            (main_collection_item (declared_size b)
              (i32 (little_endian
                (((descriptor.take length).drop (index + 1)).take (declared_size b))))
              cur st)).2
      else if (b >>> 2) &&& 3 = TAG_TYPE_MAIN ∧ b >>> 4 = TAG_MAIN_END_COLLECTION then
        (index + 1, st)
      else
        parse_descriptor fuel descriptor (index + 1 + declared_size b) length cur
          (item_effect ((b >>> 2) &&& 3) (b >>> 4) (declared_size b)
            (i32 (little_endian
              (((descriptor.take length).drop (index + 1)).take (declared_size b))))
            cur st)) := by
  have hlt : b < 256 := by
    rw [← hb]
    exact Nat.mod_lt _ (by decide)
  refine ⟨⟨fun k => ?_, fun k => ?_, fun k => ?_, fun k => ?_⟩,
    read_item_little_endian _ _ _ _, ?_⟩
  · simp [declared_size, k]
  · simp [declared_size, k]
  · simp [declared_size, k]
  · simp [declared_size, k]
  simp only [shift_type_eq, shift_tag_eq b hlt, declared_size_eq]
  rw [← read_item_little_endian]
  subst hb
  by_cases hlong : item_type (descriptor.getD index 0 % 256) = TAG_TYPE_RESERVED ∧
      item_tag (descriptor.getD index 0 % 256) = 0x0F ∧
      item_size (descriptor.getD index 0 % 256) = 2 ∧ index + 1 + 2 < length
  · rw [if_pos hlong]
    exact parse_descriptor_long fuel descriptor index length cur st h hlong
  rw [if_neg hlong]
  by_cases hcol : item_type (descriptor.getD index 0 % 256) = TAG_TYPE_MAIN ∧
      item_tag (descriptor.getD index 0 % 256) = TAG_MAIN_COLLECTION
  · rw [if_pos hcol]
    exact parse_descriptor_collection fuel descriptor index length cur st h hcol
  rw [if_neg hcol]
  by_cases hend : item_type (descriptor.getD index 0 % 256) = TAG_TYPE_MAIN ∧
      item_tag (descriptor.getD index 0 % 256) = TAG_MAIN_END_COLLECTION
  · rw [if_pos hend]
    exact parse_descriptor_end_item fuel descriptor index length cur st h hend
  rw [if_neg hend]
  exact parse_descriptor_item fuel descriptor index length cur st h hlong hcol hend

/-- C26, an instance: the Logical Maximum item `26 34 12` (type 1, tag 2, two
payload bytes, value 0x1234), after which the loop stands at 3. -/
theorem C26_item_decoding_witness :
    (0 < 3 ∧ [0x26, 0x34, 0x12].getD 0 0 % 256 = 0x26) ∧
    (declared_size 0x26 = 2 ∧ (0x26 >>> 2) &&& 3 = 1 ∧ 0x26 >>> 4 = 2 ∧
      little_endian ((([0x26, 0x34, 0x12].take 3).drop (0 + 1)).take (declared_size 0x26)) =
        0x1234 ∧
      (parse_descriptor (2 + 1) [0x26, 0x34, 0x12] 0 3 colref.base parse_state.init).1 = 3 ∧
      (parse_descriptor (2 + 1) [0x26, 0x34, 0x12] 0 3 colref.base
        parse_state.init).2.caps.LogicalMax = 0x1234) ∧
    (((0x26 &&& 3 = 0 → declared_size 0x26 = 0) ∧ (0x26 &&& 3 = 1 → declared_size 0x26 = 1) ∧
      (0x26 &&& 3 = 2 → declared_size 0x26 = 2) ∧ (0x26 &&& 3 = 3 → declared_size 0x26 = 4)) ∧
    read_item [0x26, 0x34, 0x12] (0 + 1) 3 (declared_size 0x26) =
      i32 (little_endian
        ((([0x26, 0x34, 0x12].take 3).drop (0 + 1)).take (declared_size 0x26))) ∧
    parse_descriptor (2 + 1) [0x26, 0x34, 0x12] 0 3 colref.base parse_state.init =
      (if (0x26 >>> 2) &&& 3 = TAG_TYPE_RESERVED ∧ 0x26 >>> 4 = 0x0F ∧
          declared_size 0x26 = 2 ∧ 0 + 1 + 2 < 3 then
        parse_descriptor 2 [0x26, 0x34, 0x12] (0 + 1) 3 colref.base parse_state.init
      else if (0x26 >>> 2) &&& 3 = TAG_TYPE_MAIN ∧ 0x26 >>> 4 = TAG_MAIN_COLLECTION then
        parse_descriptor 2 [0x26, 0x34, 0x12]
          (parse_descriptor 2 [0x26, 0x34, 0x12] (0 + 1 + 1) 3
            (colref.sub parse_state.init.collection_index)
            (main_collection_item (declared_size 0x26)
              (i32 (little_endian
                ((([0x26, 0x34, 0x12].take 3).drop (0 + 1)).take (declared_size 0x26))))
              colref.base parse_state.init)).1
          3 colref.base
          (parse_descriptor 2 [0x26, 0x34, 0x12] (0 + 1 + 1) 3
            (colref.sub parse_state.init.collection_index)
            (main_collection_item (declared_size 0x26)
              (i32 (little_endian
                ((([0x26, 0x34, 0x12].take 3).drop (0 + 1)).take (declared_size 0x26))))
              colref.base parse_state.init)).2
      else if (0x26 >>> 2) &&& 3 = TAG_TYPE_MAIN ∧ 0x26 >>> 4 = TAG_MAIN_END_COLLECTION then
        (0 + 1, parse_state.init)
      else
        parse_descriptor 2 [0x26, 0x34, 0x12] (0 + 1 + declared_size 0x26) 3 colref.base
          (item_effect ((0x26 >>> 2) &&& 3) (0x26 >>> 4) (declared_size 0x26)
            (i32 (little_endian
              ((([0x26, 0x34, 0x12].take 3).drop (0 + 1)).take (declared_size 0x26))))
            colref.base parse_state.init))) :=
  ⟨⟨by decide, by decide⟩, by decide,
    C26_item_decoding 2 [0x26, 0x34, 0x12] 0 3 colref.base parse_state.init 0x26
      (by decide) (by decide)⟩

/-- C24, what the code does: in `05 01 75 08 95 01 09 30 69 05 81 02 09 31 81
02` a String Index item of value 5 precedes the first Input item and no String
Index item precedes the second.  `new_caps` has cleared the usage count and the
string range flag after the first Input item, but not the string index: the
snapshot of the second feature has string index 5, not 0, and the element
written for it carries it. -/
theorem C24_string_index_not_reset :
    ∃ (f1 f2 : feature) (d : WINE_HIDP_PREPARSED_DATA),
      (parse_all stale_string_index).features = [f1, f2] ∧
      f1.caps.slot slot_StringIndex = 5 ∧ f2.caps.slot slot_StringIndex = 5 ∧
      ¬ f2.caps.slot slot_StringIndex = 0 ∧
      ParseDescriptor (Sizes.mk 188 96 84) (fun _ => 0) stale_string_index = some d ∧
      (d.input_records.map fun r => r.Elements.map fun e => (e.UsageMin, e.StringMin)) =
        [[(0x30, 5), (0x31, 5)]] :=
  ⟨_, _, _, rfl, by decide, by decide, by decide, rfl, by decide⟩

/-- C22: if the last item `parse_descriptor` decodes in a buffer declares a
payload that runs past the end of the buffer, the value read for it is the
little-endian integer of the payload bytes that are there, and the buffer
extended with zero bytes up to the end of the declared payload is parsed into
the same state, so that `ParseDescriptor` returns the same result on both. -/
theorem C22_truncated_item (S : Sizes) (junk : Nat → Nat) (d : List Nat) (p : Nat)
    (hlast : (decoded_at d.length d 0 d.length).2.getLast? = some p)
    (htrunc : d.length < p + 1 + item_size (d.getD p 0 % 256)) :
    read_item d (p + 1) d.length (item_size (d.getD p 0 % 256)) =
      (little_endian (d.drop (p + 1)) : Int) ∧
    parse_all (d ++ List.replicate (p + 1 + item_size (d.getD p 0 % 256) - d.length) 0) =
      parse_all d ∧
    ParseDescriptor S junk
        (d ++ List.replicate (p + 1 + item_size (d.getD p 0 % 256) - d.length) 0) =
      ParseDescriptor S junk d := by
  have h := parse_all_padded d p hlast htrunc
  refine ⟨read_item_truncated d p htrunc, h, ?_⟩
  unfold ParseDescriptor
  rw [h]

/-- C22, an instance: in `75 08 95 01 82 02` the Input item `82` declares two
payload bytes and one is there; its value is 2 and the result is the one for
`75 08 95 01 82 02 00`. -/
theorem C22_truncated_item_witness :
    ((decoded_at 6 [0x75, 0x08, 0x95, 0x01, 0x82, 0x02] 0 6).2.getLast? = some 4 ∧
      [0x75, 0x08, 0x95, 0x01, 0x82, 0x02].length <
        4 + 1 + item_size ([0x75, 0x08, 0x95, 0x01, 0x82, 0x02].getD 4 0 % 256)) ∧
    read_item [0x75, 0x08, 0x95, 0x01, 0x82, 0x02] (4 + 1) 6 (item_size (0x82 % 256)) =
      (little_endian [0x02] : Int) ∧
    parse_all ([0x75, 0x08, 0x95, 0x01, 0x82, 0x02] ++ List.replicate 1 0) =
      parse_all [0x75, 0x08, 0x95, 0x01, 0x82, 0x02] ∧
    ParseDescriptor (Sizes.mk 188 96 84) (fun _ => 0)
        ([0x75, 0x08, 0x95, 0x01, 0x82, 0x02] ++ List.replicate 1 0) =
      ParseDescriptor (Sizes.mk 188 96 84) (fun _ => 0) [0x75, 0x08, 0x95, 0x01, 0x82, 0x02] :=
  ⟨⟨by decide, by decide⟩,
    C22_truncated_item (Sizes.mk 188 96 84) (fun _ => 0) [0x75, 0x08, 0x95, 0x01, 0x82, 0x02] 4
      (by decide) (by decide)⟩

/-- C31: for a feature that is not a data feature `build_elements` returns the
report record as it is, so it writes no element and keeps `elementCount`,
whatever the usages of the feature; the bit cursor advances by
`BitSize * ReportCount` in 32-bit arithmetic, which is the exact sum while the
cursor stays below 2^32. -/
theorem C31_constant_feature (r : WINE_HID_REPORT) (f : feature) (off : Nat)
    (h : f.isData = false) :
    (build_elements r f off).1 = r ∧
    (build_elements r f off).1.Elements = r.Elements ∧
    (build_elements r f off).1.elementCount = r.elementCount ∧
    (build_elements r f off).2 = wrap32 (off + f.caps.BitSize * f.caps.ReportCount) ∧
    (off + f.caps.BitSize * f.caps.ReportCount < 4294967296 →
      (build_elements r f off).2 = off + f.caps.BitSize * f.caps.ReportCount) := by
  rw [build_elements_constant r f off h]
  exact ⟨rfl, rfl, rfl, rfl, fun hlt => Nat.mod_eq_of_lt hlt⟩

/-- C31, an instance: a constant feature of 3 fields of 8 bits with two usages
moves the cursor from 8 to 32 and writes nothing. -/
theorem C31_constant_feature_witness :
    constant_with_usages.isData = false ∧ constant_with_usages.caps.usage_count = 2 ∧
    (build_elements WINE_HID_REPORT.zero constant_with_usages 8).1 = WINE_HID_REPORT.zero ∧
    (build_elements WINE_HID_REPORT.zero constant_with_usages 8).2 = 32 :=
  ⟨by decide, by decide,
    (C31_constant_feature WINE_HID_REPORT.zero constant_with_usages 8 (by decide)).1,
    ((C31_constant_feature WINE_HID_REPORT.zero constant_with_usages 8
      (by decide)).2.2.2.2 (by decide)).trans (by decide)⟩

/-- C33, what the code does: the nested call for a Collection item starts at the
second byte behind the prefix, whatever payload size the item declares.  In
`A0 81 02 C0` the Collection item has no payload, the nested parse starts at
`02` and not at the Input item `81 02`, no feature is stored and
`ParseDescriptor` returns null; with a 1-byte payload (`A1 00 81 02 C0`) the
Input item is decoded. -/
theorem C33_nested_parse_start (S : Sizes) (junk : Nat → Nat) :
    item_size 0xA0 = 0 ∧
    parse_descriptor (3 + 1) bare_collection 0 4 colref.base parse_state.init =
      parse_descriptor 3 bare_collection
        (parse_descriptor 3 bare_collection (0 + 1 + 1) 4 (colref.sub 0)
          (main_collection_item 0 0 colref.base parse_state.init)).1 4 colref.base
        (parse_descriptor 3 bare_collection (0 + 1 + 1) 4 (colref.sub 0)
          (main_collection_item 0 0 colref.base parse_state.init)).2 ∧
    (parse_all bare_collection).features = [] ∧
    ParseDescriptor S junk bare_collection = none ∧
    (parse_all [0xA1, 0x00, 0x81, 0x02, 0xC0]).features.map (fun f => f.type) =
      [HIDP_REPORT_TYPE.HidP_Input] := by
  refine ⟨by decide, ?_, by decide, rfl, by decide⟩
  exact parse_descriptor_collection 3 bare_collection 0 4 colref.base parse_state.init
    (by decide) (by decide)

/-- C34, what the code does: in `80 81 02` two Input features are stored; the
first item has no payload, so `parse_io_feature` returns before assigning the
ordinal and counting: both features have ordinal 0 and the counter is 1. -/
theorem C34_ordinals_of_zero_size_items :
    (parse_all [0x80, 0x81, 0x02]).features.map (fun f => f.index) = [0, 0] ∧
    (parse_all [0x80, 0x81, 0x02]).features.length = 2 ∧
    (parse_all [0x80, 0x81, 0x02]).feature_index = 1 := by
  decide

/-- C35, what the code does: after the three Usage items `09 01 09 02 09 03` the
usage list is 1, 2, 3; the String Minimum item `79 07` then stores 7 in the
slot that `Range.StringMin` shares with `NotRange.Usage[2]`, so the usage list
is 1, 2, 7 while `usage_count` is still 3, and a following Input item gets
that list. -/
theorem C35_string_minimum_overwrites_usage :
    (parse_all (usages_then_string_minimum.take 6)).caps.usage_count = 3 ∧
    (parse_all (usages_then_string_minimum.take 6)).caps.u.take 3 = [1, 2, 3] ∧
    (parse_all usages_then_string_minimum).caps.usage_count = 3 ∧
    (parse_all usages_then_string_minimum).caps.u.take 3 = [1, 2, 7] ∧
    (parse_all (usages_then_string_minimum ++ [0x81, 0x02])).features.map
      (fun f => f.caps.u.take f.caps.usage_count) = [[1, 2, 7]] := by
  decide

/-- C39: for a data feature without usages `build_elements` returns the report
record and the bit cursor as they are, whatever `BitSize` and `ReportCount`;
and in a block, such a feature behind a feature of the same report identifier
changes neither the records (so the elements of the later features and their
start bits are those of the block without it) nor the byte length and the
report count. -/
theorem C39_empty_selector (S : Sizes) (a c : Bool) (pre fs2 : List feature)
    (h f : feature) (prev r : WINE_HID_REPORT) (off : Nat) (hd : f.isData = true)
    (hu : f.caps.usage_count = 0) (hid : f.caps.ReportID = h.caps.ReportID) :
    build_elements r f off = (r, off) ∧
    (build_block S a c (pre ++ h :: f :: fs2) prev).records =
      (build_block S a c (pre ++ h :: fs2) prev).records ∧
    (build_block S a c (pre ++ h :: f :: fs2) prev).ByteLength =
      (build_block S a c (pre ++ h :: fs2) prev).ByteLength ∧
    (build_block S a c (pre ++ h :: f :: fs2) prev).report_count =
      (build_block S a c (pre ++ h :: fs2) prev).report_count :=
  ⟨build_elements_empty r f off hd hu,
    build_block_empty_feature S a c pre fs2 h f prev hd hu hid⟩

/-- C39, an instance: a data feature of 3 fields of 8 bits without usages
between two features with two buttons each. -/
theorem C39_empty_selector_witness :
    (data_without_usages.isData = true ∧ data_without_usages.caps.usage_count = 0 ∧
      data_without_usages.caps.ReportID = two_buttons.caps.ReportID) ∧
    build_elements WINE_HID_REPORT.zero data_without_usages 8 = (WINE_HID_REPORT.zero, 8) ∧
    (build_block (Sizes.mk 188 96 84) false true
        ([] ++ two_buttons :: data_without_usages :: [two_buttons])
        WINE_HID_REPORT.zero).records =
      (build_block (Sizes.mk 188 96 84) false true ([] ++ two_buttons :: [two_buttons])
        WINE_HID_REPORT.zero).records ∧
    (build_block (Sizes.mk 188 96 84) false true
        ([] ++ two_buttons :: data_without_usages :: [two_buttons])
        WINE_HID_REPORT.zero).ByteLength =
      (build_block (Sizes.mk 188 96 84) false true ([] ++ two_buttons :: [two_buttons])
        WINE_HID_REPORT.zero).ByteLength ∧
    (build_block (Sizes.mk 188 96 84) false true
        ([] ++ two_buttons :: data_without_usages :: [two_buttons])
        WINE_HID_REPORT.zero).report_count =
      (build_block (Sizes.mk 188 96 84) false true ([] ++ two_buttons :: [two_buttons])
        WINE_HID_REPORT.zero).report_count :=
  ⟨by decide, C39_empty_selector (Sizes.mk 188 96 84) false true [] [two_buttons] two_buttons
    data_without_usages WINE_HID_REPORT.zero WINE_HID_REPORT.zero 8 (by decide) (by decide)
    (by decide)⟩

/-- C36: invariant of the accumulator.  From the state `ParseDescriptor` sets
up, with the zeroed snapshot, whatever the buffer, the start index, the length
and the collection, every snapshot in the state `parse_descriptor` leaves (the
accumulator, every entry of the stack, the copy in every feature, in the root
collection and in every sub-collection) has at most `USAGE_MAX = 10` usages,
and exactly one if it is a range. -/
theorem C36_usage_selector_invariant (fuel : Nat) (descriptor : List Nat) (index length : Nat)
    (cur : colref) :
    USAGE_MAX = 10 ∧
    (parse_descriptor fuel descriptor index length cur parse_state.init).2.every_snapshot
      (fun c => c.usage_count ≤ USAGE_MAX ∧ (c.IsRange = true → c.usage_count = 1)) :=
  ⟨rfl, parse_descriptor_usage_ok fuel descriptor index length cur parse_state.init
    init_usage_ok⟩

/-- C32: Value elements.  For a data feature of a parsed descriptor whose usage
page is not the Button page, `build_elements` appends Value elements only.  For
a discrete selector of `N` usages it appends `N` elements; when `N > 1` each
has the report count `ReportCount / N` if `ReportCount > N` and 1 otherwise,
when `N = 1` it has the report count of the feature, and each has the bit
count `BitSize` times its own report count.  For a range it appends exactly
one element, of bit count `BitSize * ReportCount`. -/
theorem C32_value_elements (descriptor : List Nat) (wine_report : WINE_HID_REPORT)
    (f : feature) (bitOffset : Nat) (hf : f ∈ (parse_all descriptor).features)
    (hd : f.isData = true) (hv : f.caps.UsagePage ≠ HID_USAGE_PAGE_BUTTON) :
    ∃ new : List WINE_HID_ELEMENT,
      (build_elements wine_report f bitOffset).1.Elements = wine_report.Elements ++ new ∧
      (∀ e ∈ new, e.ElementType = WINE_ELEMENT_TYPE.ValueElement) ∧
      (f.caps.IsRange = false →
        new.length = f.caps.usage_count ∧
        ∀ e ∈ new,
          (f.caps.usage_count > 1 →
            e.ReportCount = if f.caps.ReportCount > f.caps.usage_count then
              f.caps.ReportCount / f.caps.usage_count else 1) ∧
          (f.caps.usage_count = 1 → e.ReportCount = f.caps.ReportCount) ∧
          e.bitCount = f.caps.BitSize * e.ReportCount) ∧
      (f.caps.IsRange = true →
        new.length = 1 ∧ ∀ e ∈ new, e.bitCount = f.caps.BitSize * f.caps.ReportCount) := by
  have hw := parse_all_fits descriptor f hf
  have hu := parse_all_usage_ok descriptor f hf
  obtain ⟨new, h1, h2, -, h4⟩ := build_elements_spec wine_report f bitOffset hd
  refine ⟨new, by rw [h1], fun e he => ?_, fun _ => ⟨h2, fun e he => ?_⟩,
    fun hr => ⟨by rw [h2, hu.2 hr], fun e he => ?_⟩⟩
  · obtain ⟨i, b, rfl⟩ := h4 e he
    exact (build_element_value f i b hw hv).1
  · obtain ⟨i, b, rfl⟩ := h4 e he
    obtain ⟨-, k2, k3⟩ := build_element_value f i b hw hv
    refine ⟨fun hn => ?_, fun hn => ?_, k3⟩
    · rw [k2, if_pos hn]
    · rw [k2, if_neg (by omega)]
  · obtain ⟨i, b, rfl⟩ := h4 e he
    obtain ⟨-, k2, k3⟩ := build_element_value f i b hw hv
    rw [k3, k2, if_neg (by rw [hu.2 hr]; omega)]

/-- C32, an instance: the feature of `05 01 09 30 09 31 75 08 95 02 81 02`, two
usages with report count 2, so that each element has report count 1. -/
theorem C32_value_elements_witness :
    (axis_pair ∈ (parse_all two_axes).features ∧ axis_pair.isData = true ∧
      axis_pair.caps.UsagePage ≠ HID_USAGE_PAGE_BUTTON) ∧
    ∃ new : List WINE_HID_ELEMENT,
      (build_elements WINE_HID_REPORT.zero axis_pair 8).1.Elements =
        WINE_HID_REPORT.zero.Elements ++ new ∧
      (∀ e ∈ new, e.ElementType = WINE_ELEMENT_TYPE.ValueElement) ∧
      (axis_pair.caps.IsRange = false →
        new.length = axis_pair.caps.usage_count ∧
        ∀ e ∈ new,
          (axis_pair.caps.usage_count > 1 →
            e.ReportCount = if axis_pair.caps.ReportCount > axis_pair.caps.usage_count then
              axis_pair.caps.ReportCount / axis_pair.caps.usage_count else 1) ∧
          (axis_pair.caps.usage_count = 1 → e.ReportCount = axis_pair.caps.ReportCount) ∧
          e.bitCount = axis_pair.caps.BitSize * e.ReportCount) ∧
      (axis_pair.caps.IsRange = true →
        new.length = 1 ∧
        ∀ e ∈ new, e.bitCount = axis_pair.caps.BitSize * axis_pair.caps.ReportCount) :=
  ⟨⟨by decide, rfl, by decide⟩,
    C32_value_elements two_axes WINE_HID_REPORT.zero axis_pair 8 (by decide) rfl (by decide)⟩

/-- C37: termination of `parse_descriptor`.  For every buffer, length, start
index, collection and state, a bound of `length - index` iterations is never
reached while a loop condition holds, and every greater bound gives the same
result.  The returned cursor is at least the start index, and greater if the
loop runs at all.  Every loop iteration, in the call and in the nested calls,
starts at a cursor inside the buffer that is greater than the cursors of all
iterations before it and smaller than the cursor returned.  The recursion depth
is at most the number of Collection items decoded, which is at most
`length - index`. -/
theorem C37_termination (fuel : Nat) (descriptor : List Nat) (index length : Nat)
    (cur : colref) (st : parse_state) (h : length - index ≤ fuel) :
    (run_of fuel descriptor index length).finished = true ∧
    parse_descriptor fuel descriptor index length cur st =
      parse_descriptor (length - index) descriptor index length cur st ∧
    (parse_descriptor fuel descriptor index length cur st).1 =
      (run_of fuel descriptor index length).cursor ∧
    index ≤ (parse_descriptor fuel descriptor index length cur st).1 ∧
    (index < length → index < (parse_descriptor fuel descriptor index length cur st).1) ∧
    (run_of fuel descriptor index length).visited.Pairwise (fun a b => a < b) ∧
    (∀ q ∈ (run_of fuel descriptor index length).visited,
      index ≤ q ∧ q < length ∧ q < (run_of fuel descriptor index length).cursor) ∧
    (run_of fuel descriptor index length).depth ≤
      ((run_of fuel descriptor index length).visited.filter (collection_at descriptor)).length ∧
    ((run_of fuel descriptor index length).visited.filter (collection_at descriptor)).length ≤
      length - index := by
  obtain ⟨k1, k2, k3, k4, k5, k6⟩ := run_of_shape descriptor length fuel index
  have hc := run_of_cursor descriptor length fuel index cur st
  refine ⟨k6 h, parse_descriptor_fuel _ _ _ _ _ _ _ h (Nat.le_refl _), hc, by rw [hc]; exact k1,
    fun hlt => by rw [hc]; exact k2 hlt (by omega), k3, k4, k5, ?_⟩
  refine Nat.le_trans (List.length_filter_le _ _) ?_
  exact length_le_of_increasing _ index length k3 (fun q hq => ⟨(k4 q hq).1, (k4 q hq).2.1⟩)

/-- C37, an instance: the descriptor `A1 01 A1 02 81 02 C0 C0` parsed from its
start. -/
theorem C37_termination_witness :
    8 - 0 ≤ 8 ∧
    ((run_of 8 nested_collections 0 8).finished = true ∧
    parse_descriptor 8 nested_collections 0 8 colref.base parse_state.init =
      parse_descriptor (8 - 0) nested_collections 0 8 colref.base parse_state.init ∧
    (parse_descriptor 8 nested_collections 0 8 colref.base parse_state.init).1 =
      (run_of 8 nested_collections 0 8).cursor ∧
    0 ≤ (parse_descriptor 8 nested_collections 0 8 colref.base parse_state.init).1 ∧
    (0 < 8 → 0 < (parse_descriptor 8 nested_collections 0 8 colref.base parse_state.init).1) ∧
    (run_of 8 nested_collections 0 8).visited.Pairwise (fun a b => a < b) ∧
    (∀ q ∈ (run_of 8 nested_collections 0 8).visited,
      0 ≤ q ∧ q < 8 ∧ q < (run_of 8 nested_collections 0 8).cursor) ∧
    (run_of 8 nested_collections 0 8).depth ≤
      ((run_of 8 nested_collections 0 8).visited.filter (collection_at nested_collections)).length ∧
    ((run_of 8 nested_collections 0 8).visited.filter (collection_at nested_collections)).length ≤
      8 - 0) :=
  ⟨by decide, C37_termination 8 nested_collections 0 8 colref.base parse_state.init (by decide)⟩

/-- C38: for every descriptor that yields a layout, the report records of the
three directions together hold one element for every usage of every data
feature.  Provided the 32-bit sum `element_count` of the usage counts of all
features does not wrap, that number is at most `element_count`, and equal to it
exactly when every feature with a usage is a data feature. -/
theorem C38_elements_within_count (S : Sizes) (junk : Nat → Nat) (descriptor : List Nat)
    (h : (ParseDescriptor S junk descriptor).isSome = true) :
    ∃ data : WINE_HIDP_PREPARSED_DATA,
      ParseDescriptor S junk descriptor = some data ∧
      written data.input_records + written data.output_records +
          written data.feature_records =
        data_usages (sorted_features (parse_all descriptor)) ∧
      (((sorted_features (parse_all descriptor)).map fun f => f.caps.usage_count).sum <
          4294967296 →
        written data.input_records + written data.output_records +
            written data.feature_records ≤
          count_usages (sorted_features (parse_all descriptor)) ∧
        (written data.input_records + written data.output_records +
            written data.feature_records =
          count_usages (sorted_features (parse_all descriptor)) ↔
          ∀ f ∈ sorted_features (parse_all descriptor),
            f.caps.usage_count ≠ 0 → f.isData = true)) := by
  obtain ⟨data, hd⟩ := Option.isSome_iff_exists.1 h
  obtain ⟨-, rfl⟩ := ParseDescriptor_some S junk descriptor data hd
  have ht : written (build_PreparseData S junk (sorted_features (parse_all descriptor))
        (features_of_type HIDP_REPORT_TYPE.HidP_Input (sorted_features (parse_all descriptor)))
        (features_of_type HIDP_REPORT_TYPE.HidP_Output (sorted_features (parse_all descriptor)))
        (features_of_type HIDP_REPORT_TYPE.HidP_Feature (sorted_features (parse_all descriptor)))
        (parse_all descriptor).base).input_records +
      written (build_PreparseData S junk (sorted_features (parse_all descriptor))
        (features_of_type HIDP_REPORT_TYPE.HidP_Input (sorted_features (parse_all descriptor)))
        (features_of_type HIDP_REPORT_TYPE.HidP_Output (sorted_features (parse_all descriptor)))
        (features_of_type HIDP_REPORT_TYPE.HidP_Feature (sorted_features (parse_all descriptor)))
        (parse_all descriptor).base).output_records +
      written (build_PreparseData S junk (sorted_features (parse_all descriptor))
        (features_of_type HIDP_REPORT_TYPE.HidP_Input (sorted_features (parse_all descriptor)))
        (features_of_type HIDP_REPORT_TYPE.HidP_Output (sorted_features (parse_all descriptor)))
        (features_of_type HIDP_REPORT_TYPE.HidP_Feature (sorted_features (parse_all descriptor)))
        (parse_all descriptor).base).feature_records =
      data_usages (sorted_features (parse_all descriptor)) := by
    simp only [build_PreparseData]
    rw [build_block_written, build_block_written, build_block_written]
    exact data_usages_partition _
  refine ⟨_, hd, ht, fun hlt => ?_⟩
  have hc : count_usages (sorted_features (parse_all descriptor)) =
      ((sorted_features (parse_all descriptor)).map fun f => f.caps.usage_count).sum :=
    Nat.mod_eq_of_lt hlt
  rw [ht, hc]
  exact data_usages_le _

/-- C38, an instance: in `09 01 81 01 09 02 81 02` the constant feature has a
usage, so one element is written where `element_count` is 2. -/
theorem C38_elements_within_count_witness :
    (ParseDescriptor (Sizes.mk 188 96 84) (fun _ => 0) constant_then_data).isSome = true ∧
    ∃ data : WINE_HIDP_PREPARSED_DATA,
      ParseDescriptor (Sizes.mk 188 96 84) (fun _ => 0) constant_then_data = some data ∧
      written data.input_records + written data.output_records +
          written data.feature_records =
        data_usages (sorted_features (parse_all constant_then_data)) ∧
      (((sorted_features (parse_all constant_then_data)).map fun f => f.caps.usage_count).sum <
          4294967296 →
        written data.input_records + written data.output_records +
            written data.feature_records ≤
          count_usages (sorted_features (parse_all constant_then_data)) ∧
        (written data.input_records + written data.output_records +
            written data.feature_records =
          count_usages (sorted_features (parse_all constant_then_data)) ↔
          ∀ f ∈ sorted_features (parse_all constant_then_data),
            f.caps.usage_count ≠ 0 → f.isData = true)) :=
  ⟨by decide,
    C38_elements_within_count (Sizes.mk 188 96 84) (fun _ => 0) constant_then_data (by decide)⟩

/-- C40: when a descriptor yields a layout and the first feature in encounter
order has a report identifier other than 0, so that the sort runs, the report
records of each direction are written with strictly ascending report
identifiers; these are the report identifiers of the features of the
direction, so there is one record for each of them, and the report count of the
direction is the number of distinct report identifiers of its features.  This
holds whether or not the ordinals of the features are distinct. -/
theorem C40_sorted_reports (S : Sizes) (junk : Nat → Nat) (descriptor : List Nat)
    (t : HIDP_REPORT_TYPE) (h : (ParseDescriptor S junk descriptor).isSome = true)
    (hid : first_ReportID
      ((parse_all descriptor).features.take (parse_all descriptor).feature_index) ≠ 0) :
    ∃ data : WINE_HIDP_PREPARSED_DATA,
      ParseDescriptor S junk descriptor = some data ∧
      ((records_of t data).map fun r => r.reportID).Pairwise (fun a b => a < b) ∧
      (∀ id, id ∈ ((records_of t data).map fun r => r.reportID) ↔
        id ∈ report_ids_of (features_of_type t
          ((parse_all descriptor).features.take (parse_all descriptor).feature_index))) ∧
      (records_of t data).length =
        (report_ids_of (features_of_type t
          ((parse_all descriptor).features.take (parse_all descriptor).feature_index))).dedup.length ∧
      report_count_of t data =
        (report_ids_of (features_of_type t
          ((parse_all descriptor).features.take (parse_all descriptor).feature_index))).dedup.length := by
  obtain ⟨data, hd⟩ := Option.isSome_iff_exists.1 h
  obtain ⟨-, rfl⟩ := ParseDescriptor_some S junk descriptor data hd
  have hsf : sorted_features (parse_all descriptor) =
      qsort ((parse_all descriptor).features.take (parse_all descriptor).feature_index) := by
    unfold sorted_features
    simp only [hid, ne_eq, not_false_eq_true, if_true]
  have hb : ∀ f ∈ (parse_all descriptor).features.take (parse_all descriptor).feature_index,
      f.caps.ReportID < 256 :=
    fun f hf => (parse_all_fits descriptor f (List.mem_of_mem_take hf)).2.2.2.1
  refine ⟨_, hd, ?_⟩
  rw [hsf]
  cases t
  · exact build_block_of_sorted S _ _ _ _ _ hb
  · exact build_block_of_sorted S _ _ _ _ _ hb
  · exact build_block_of_sorted S _ _ _ _ _ hb

/-- C40, an instance: the Input items of `85 02 81 02 85 01 81 02 85 02 81 02`
have the report identifiers 2, 1 and 2, and two records are written. -/
theorem C40_sorted_reports_witness :
    ((ParseDescriptor (Sizes.mk 188 96 84) (fun _ => 0) unsorted_reports).isSome = true ∧
      first_ReportID ((parse_all unsorted_reports).features.take
        (parse_all unsorted_reports).feature_index) ≠ 0) ∧
    ∃ data : WINE_HIDP_PREPARSED_DATA,
      ParseDescriptor (Sizes.mk 188 96 84) (fun _ => 0) unsorted_reports = some data ∧
      ((records_of HIDP_REPORT_TYPE.HidP_Input data).map fun r => r.reportID).Pairwise (fun a b => a < b) ∧
      (∀ id, id ∈ ((records_of HIDP_REPORT_TYPE.HidP_Input data).map fun r => r.reportID) ↔
        id ∈ report_ids_of (features_of_type HIDP_REPORT_TYPE.HidP_Input
          ((parse_all unsorted_reports).features.take (parse_all unsorted_reports).feature_index))) ∧
      (records_of HIDP_REPORT_TYPE.HidP_Input data).length =
        (report_ids_of (features_of_type HIDP_REPORT_TYPE.HidP_Input
          ((parse_all unsorted_reports).features.take (parse_all unsorted_reports).feature_index))).dedup.length ∧
      report_count_of HIDP_REPORT_TYPE.HidP_Input data =
        (report_ids_of (features_of_type HIDP_REPORT_TYPE.HidP_Input
          ((parse_all unsorted_reports).features.take (parse_all unsorted_reports).feature_index))).dedup.length :=
  ⟨⟨by decide, by decide⟩,
    C40_sorted_reports (Sizes.mk 188 96 84) (fun _ => 0) unsorted_reports
      HIDP_REPORT_TYPE.HidP_Input (by decide) (by decide)⟩

end HidDescriptor
